import Mathlib

/-!
Shallow embedding of the Decaf phase-3 static-analysis pass
(src/src/p3-analysis.c, third and final draft of the analyzer, the one whose
callbacks are registered by the final definition of analyze), together with the
AST/attribute model (src/src/ast.c), the symbol-table machinery
(src/src/symbol.c) and the visitor passes SetParent, CalcDepth and
BuildSymbolTables (src/unnamed/part_003).

Modelling conventions:
* C heap pointers become natural-number ids into an explicit Store
  (association lists for AST nodes and symbol tables).  A symbol pointer is
  the pair (table id, index in that table's local list).
* The singly linked NodeList / ParameterList objects have an immutable spine
  (the next links are never rewritten by any of the modelled passes) and a
  mutable head pointer; a head pointer is modelled as the index of the element
  it points at, so that the entries reachable from the head are the
  corresponding suffix of the spine.  The stored size field is written only at
  construction time, so it always equals the spine length.
* Error_throw_printf performs a longjmp; it is modelled as Except.error with
  the Fatal.thrown constructor.  Undefined behaviour (dereferencing or calling
  a NULL pointer) is modelled as Except.error with the Fatal.crash
  constructor.  All other code paths return Except.ok.
* The immutable payload fields of an AST node (names, operators, declared
  types, child links) are supplied by the ITree value that drives each
  traversal; only the mutable per-node state (the attribute list and the
  FuncCall argument head pointer) lives in the Store.
-/

namespace P3

/-- A single quote character; used to reproduce the C diagnostic strings. -/
def sq : String := String.singleton (Char.ofNat 39)

/-- DecafType from include/common.h: UNKNOWN, INT, BOOL, VOID, STR (ordinals
0..4; UNKNOWN is the zero value produced by a failed attribute read). -/
inductive DecafType where
  | UNKNOWN
  | INT
  | BOOL
  | VOID
  | STR
deriving DecidableEq, Repr

/-- DecafType_to_string from src/common.c. -/
def DecafType_to_string : DecafType → String
  | .UNKNOWN => "???"
  | .INT => "int"
  | .BOOL => "bool"
  | .VOID => "void"
  | .STR => "str"

/-- BinaryOpType from include/ast.h (order fixed by BinaryOpToString in
src/ast.c): OROP, ANDOP, EQOP, NEQOP, LTOP, LEOP, GEOP, GTOP, ADDOP, SUBOP,
MULOP, DIVOP, MODOP with ordinals 0..12. -/
inductive BinaryOpType where
  | OROP | ANDOP | EQOP | NEQOP | LTOP | LEOP | GEOP | GTOP
  | ADDOP | SUBOP | MULOP | DIVOP | MODOP
deriving DecidableEq, Repr

/-- The integer ordinal the C code compares binary operators with. -/
def BinaryOpType.toNat : BinaryOpType → Nat
  | .OROP => 0 | .ANDOP => 1 | .EQOP => 2 | .NEQOP => 3
  | .LTOP => 4 | .LEOP => 5 | .GEOP => 6 | .GTOP => 7
  | .ADDOP => 8 | .SUBOP => 9 | .MULOP => 10 | .DIVOP => 11 | .MODOP => 12

/-- BinaryOpToString from src/ast.c. -/
def BinaryOpToString : BinaryOpType → String
  | .OROP => "||" | .ANDOP => "&&" | .EQOP => "==" | .NEQOP => "!="
  | .LTOP => "<" | .LEOP => "<=" | .GEOP => ">=" | .GTOP => ">"
  | .ADDOP => "+" | .SUBOP => "-" | .MULOP => "*" | .DIVOP => "/" | .MODOP => "%"

/-- UnaryOpType from include/ast.h: NEGOP (ordinal 0), NOTOP (ordinal 1). -/
inductive UnaryOpType where
  | NEGOP | NOTOP
deriving DecidableEq, Repr

/-- The integer ordinal the C code compares unary operators with. -/
def UnaryOpType.toNat : UnaryOpType → Nat
  | .NEGOP => 0
  | .NOTOP => 1

/-- A ParameterList entry (struct Parameter in include/ast.h). -/
structure Parameter where
  name : String
  type : DecafType
deriving DecidableEq, Repr

/-- The symbol_type discriminator of struct Symbol (include/symbol.h). -/
inductive SymbolKind where
  | SCALAR_SYMBOL | ARRAY_SYMBOL | FUNCTION_SYMBOL
deriving DecidableEq, Repr

/-- Struct Symbol (include/symbol.h), restricted to the fields the analysis
reads.  The parameters field is the spine of the symbol's ParameterList and
paramsHead is the index its head pointer currently points at (0 after
construction); the stored size field of the list always equals
parameters.length because it is never written after construction. -/
structure Symbol where
  symbol_type : SymbolKind
  name : String
  type : DecafType
  length : Int
  parameters : List Parameter
  paramsHead : Nat
deriving DecidableEq, Repr

/-- Symbol_new from src/symbol.c (scalar symbol). -/
def Symbol_new (name : String) (type : DecafType) : Symbol :=
  { symbol_type := .SCALAR_SYMBOL, name := name, type := type, length := 1,
    parameters := [], paramsHead := 0 }

/-- Symbol_new_array from src/symbol.c. -/
def Symbol_new_array (name : String) (type : DecafType) (length : Int) : Symbol :=
  { symbol_type := .ARRAY_SYMBOL, name := name, type := type, length := length,
    parameters := [], paramsHead := 0 }

/-- Symbol_new_function from src/symbol.c; the parameter list is copied into a
fresh list whose head is the first copied entry. -/
def Symbol_new_function (name : String) (return_type : DecafType)
    (parameters : List Parameter) : Symbol :=
  { symbol_type := .FUNCTION_SYMBOL, name := name, type := return_type, length := 1,
    parameters := parameters.map (fun p => { name := p.name, type := p.type }),
    paramsHead := 0 }

/-- A SymbolTable (include/symbol.h): ordered local symbols plus an optional
parent table (a heap pointer, modelled as a table id). -/
structure SymbolTable where
  local_symbols : List Symbol
  parent : Option Nat
deriving DecidableEq, Repr

/-- An attribute value: the void pointer stored by the attribute store, at the
types actually used by the passes (int attributes, node pointers, symbol-table
pointers and DecafType enums). -/
inductive AttrValue where
  | aInt (n : Int)
  | aNode (id : Nat)
  | aTable (tid : Nat)
  | aType (t : DecafType)
deriving DecidableEq, Repr

/-- One entry of a node's attribute list (struct Attribute in include/ast.h).
dtorIsNull records whether the stored destructor pointer is NULL (true exactly
for the weak parent attribute); dot printers are not modelled. -/
structure AttributeEntry where
  key : String
  value : AttrValue
  dtorIsNull : Bool
deriving DecidableEq, Repr

/-- The argument list of a FuncCall node: immutable spine of child node ids
plus the index the mutable head pointer currently points at. -/
structure FuncCallArgs where
  ids : List Nat
  head : Nat
deriving DecidableEq, Repr

/-- The mutable state of one AST node: its attribute list and, for FuncCall
nodes, its argument list object. -/
structure NodeData where
  attributes : List AttributeEntry
  arguments : Option FuncCallArgs
deriving DecidableEq, Repr

/-- The heap: AST nodes and symbol tables, keyed by ids.  next_table is the
allocator counter for fresh table ids. -/
structure Store where
  nodes : List (Nat × NodeData)
  tables : List (Nat × SymbolTable)
  next_table : Nat
deriving DecidableEq, Repr

/-- Association-list lookup (pointer dereference). -/
def alookup {α : Type} (l : List (Nat × α)) (k : Nat) : Option α :=
  (l.find? (fun p => p.fst == k)).map Prod.snd

/-- Association-list in-place update (heap store through a pointer). -/
def aupdate {α : Type} (l : List (Nat × α)) (k : Nat) (f : α → α) : List (Nat × α) :=
  l.map (fun p => if p.fst == k then (p.fst, f p.snd) else p)

/-- Outcome of a fatal event: thrown is the longjmp performed by
Error_throw_printf (src/main.c), crash is undefined behaviour such as
dereferencing or calling a NULL pointer. -/
inductive Fatal where
  | thrown (msg : String)
  | crash (msg : String)
deriving DecidableEq, Repr

/-- The result monad of the embedding. -/
abbrev M (α : Type) := Except Fatal α

/-- Replace the value stored under the first attribute entry with the given
key (the replace branch of ASTNode_set_printable_attribute). -/
def replaceAttr (key : String) (v : AttrValue) (dnull : Bool) :
    List AttributeEntry → List AttributeEntry
  | [] => []
  | a :: rest =>
    if a.key == key then { key := a.key, value := v, dtorIsNull := dnull } :: rest
    else a :: replaceAttr key v dnull rest

/-- ASTNode_set_printable_attribute from src/ast.c.  On a missing node the C
code throws; when the key is already present it first calls the old entry's
destructor, which is undefined behaviour (a crash) if that destructor is NULL;
otherwise the new entry is inserted at the front of the list. -/
def ASTNode_set_printable_attribute (s : Store) (nid : Nat) (key : String)
    (v : AttrValue) (dtorIsNull : Bool) : M Store :=
  match alookup s.nodes nid with
  | none =>
    .error (.thrown ("ERROR: Tried to set attribute " ++ sq ++ key ++ sq ++
      " without a node pointer\n"))
  | some nd =>
    let entry : AttributeEntry := ⟨key, v, dtorIsNull⟩
    if nd.attributes.isEmpty then
      let ns := aupdate s.nodes nid (fun n => { n with attributes := [entry] })
      .ok { s with nodes := ns }
    else
      match nd.attributes.find? (fun a => a.key == key) with
      | some old =>
        if old.dtorIsNull then
          .error (.crash ("called NULL destructor while replacing attribute " ++ key))
        else
          let ns := aupdate s.nodes nid
            (fun n => { n with attributes := replaceAttr key v dtorIsNull n.attributes })
          .ok { s with nodes := ns }
      | none =>
        let ns := aupdate s.nodes nid (fun n => { n with attributes := entry :: n.attributes })
        .ok { s with nodes := ns }

/-- ASTNode_set_attribute from src/ast.c, specialised to the NULL destructor
used for the weak parent attribute. -/
def ASTNode_set_attribute_weak (s : Store) (nid : Nat) (key : String) (v : AttrValue) : M Store :=
  ASTNode_set_printable_attribute s nid key v true

/-- ASTNode_set_int_attribute from src/ast.c (destructor dummy_free, which is
a real, non-NULL function). -/
def ASTNode_set_int_attribute (s : Store) (nid : Nat) (key : String) (n : Int) : M Store :=
  ASTNode_set_printable_attribute s nid key (.aInt n) false

/-- Attribute read.  Returns none both for a missing key (the C function
prints a message and returns NULL) and for a dangling node id, which does not
occur in the stores reachable by the modelled pipeline. -/
def getAttr (s : Store) (nid : Nat) (key : String) : Option AttrValue :=
  (alookup s.nodes nid).bind
    (fun nd => (nd.attributes.find? (fun a => a.key == key)).map (fun a => a.value))

/-- ASTNode_has_attribute from src/ast.c. -/
def ASTNode_has_attribute (s : Store) (nid : Nat) (key : String) : Bool :=
  match alookup s.nodes nid with
  | none => false
  | some nd => nd.attributes.any (fun a => a.key == key)

/-- The GET_INFERRED_TYPE macro of p3-analysis.c: reading the type attribute
casts the stored pointer to DecafType; a failed read yields NULL, which is the
enum value UNKNOWN (0). -/
def getInferredType (s : Store) (nid : Nat) : DecafType :=
  match getAttr s nid "type" with
  | some (.aType t) => t
  | _ => .UNKNOWN

/-- The SET_INFERRED_TYPE macro of p3-analysis.c (printer type_attr_print,
destructor dummy_free, so the stored destructor is not NULL). -/
def setInferredType (s : Store) (nid : Nat) (t : DecafType) : M Store :=
  ASTNode_set_printable_attribute s nid "type" (.aType t) false

/-- SymbolTable_lookup from src/symbol.c: scan the local symbols front to
back, then recurse into the parent table.  The result is a symbol pointer,
i.e. a (table id, index) pair.  The fuel bounds the parent-chain recursion; in
every store built by the pipeline a table's parent id is strictly smaller than
its own id, so fuel tid+1 is always sufficient (the C loop would diverge on a
cyclic chain). -/
def SymbolTable_lookup (s : Store) : Nat → Nat → String → Option (Nat × Nat)
  | 0, _, _ => none
  | fuel + 1, tid, name =>
    match alookup s.tables tid with
    | none => none
    | some tbl =>
      match tbl.local_symbols.findIdx? (fun sym => sym.name == name) with
      | some i => some (tid, i)
      | none =>
        match tbl.parent with
        | some ptid => SymbolTable_lookup s fuel ptid name
        | none => none

/-- Dereference a symbol pointer. -/
def derefSymbol (s : Store) (ptr : Nat × Nat) : Option Symbol :=
  (alookup s.tables ptr.fst).bind (fun tbl => tbl.local_symbols.get? ptr.snd)

/-- Phase 1 of lookup_symbol from src/symbol.c: walk parent attributes upward
until a node carrying a symbolTable attribute is reached.  A missing parent
attribute makes the C loop exit with node == NULL (get_attribute prints a
message and returns NULL), so the walk yields none.  The fuel bounds the walk;
parent ids are strictly smaller than child ids in every decorated store, so
fuel nid+1 is always sufficient. -/
def lookupSymbolWalk (s : Store) : Nat → Nat → Option Nat
  | 0, _ => none
  | fuel + 1, nid =>
    match alookup s.nodes nid with
    | none => none
    | some nd =>
      if nd.attributes.any (fun a => a.key == "symbolTable") then some nid
      else
        match getAttr s nid "parent" with
        | some (.aNode pid) => lookupSymbolWalk s fuel pid
        | _ => none

/-- lookup_symbol from src/symbol.c: find the nearest ancestor (including the
node itself) with a symbolTable attribute, then search that scope chain. -/
def lookup_symbol (s : Store) (nid : Nat) (name : String) : Option (Nat × Nat) :=
  match lookupSymbolWalk s (nid + 1) nid with
  | none => none
  | some anc =>
    match getAttr s anc "symbolTable" with
    | some (.aTable tid) => SymbolTable_lookup s (tid + 1) tid name
    | _ => none

/-- Convenience: lookup_symbol followed by dereferencing the result. -/
def lookupSymbolData (s : Store) (nid : Nat) (name : String) : Option Symbol :=
  (lookup_symbol s nid name).bind (derefSymbol s)

/-- Diagnostic produced by lookup_symbol_with_reporting:
the C format string is "Symbol '%s' undefined on line %d". -/
def symbolUndefinedMsg (name : String) (line : Nat) : String :=
  "Symbol " ++ sq ++ name ++ sq ++ " undefined on line " ++ toString line

/-- lookup_symbol_with_reporting from p3-analysis.c (third draft, the list
append performed by ErrorList_printf): a failed lookup appends a diagnostic,
a successful one leaves the error list unchanged. -/
def lookup_symbol_with_reporting (s : Store) (errors : List String) (nid : Nat)
    (line : Nat) (name : String) : Option (Nat × Nat) × List String :=
  match lookup_symbol s nid name with
  | none => (none, errors ++ [symbolUndefinedMsg name line])
  | some p => (some p, errors)


/-! Diagnostic message strings of the third analyzer draft, byte-for-byte the
strings produced by the C printf format strings. -/

/-- "Program does not contain a 'main' function". -/
def noMainMsg : String :=
  "Program does not contain a " ++ sq ++ "main" ++ sq ++ " function"

/-- "'main' must take no parameters". -/
def mainParamsMsg : String := sq ++ "main" ++ sq ++ " must take no parameters"

/-- "Program 'main' function must return an int". -/
def mainIntMsg : String :=
  "Program " ++ sq ++ "main" ++ sq ++ " function must return an int"

/-- "Void variable '%s' on line %d". -/
def voidVarMsg (name : String) (line : Nat) : String :=
  "Void variable " ++ sq ++ name ++ sq ++ " on line " ++ toString line

/-- "Local variable '%s' on line %d cannot be an array". -/
def localArrayMsg (name : String) (line : Nat) : String :=
  "Local variable " ++ sq ++ name ++ sq ++ " on line " ++ toString line ++
    " cannot be an array"

/-- "Array length must be greater than 0". -/
def arrayLenMsg : String := "Array length must be greater than 0"

/-- "Duplicate names %s\n" (the message Error_throw_printf formats in
find_ducplicat_helper; note the trailing newline in the C format string). -/
def dupMsg (name : String) : String := "Duplicate names " ++ name ++ "\n"

/-- "Expected %s type but type was %s" (assignment mismatch). -/
def assignMsg (lt rt : DecafType) : String :=
  "Expected " ++ DecafType_to_string lt ++ " type but type was " ++ DecafType_to_string rt

/-- "Conditional type was %s, expected bool on line %d". -/
def condMsg (t : DecafType) (line : Nat) : String :=
  "Conditional type was " ++ DecafType_to_string t ++ ", expected bool on line " ++ toString line

/-- "Invalid return type, Expected %s was %s on line %d". -/
def returnMsg (expected got : DecafType) (line : Nat) : String :=
  "Invalid return type, Expected " ++ DecafType_to_string expected ++ " was " ++
    DecafType_to_string got ++ " on line " ++ toString line

/-- "Break statement should be inside a while loop.". -/
def breakMsg : String := "Break statement should be inside a while loop."

/-- "Continue statement should be inside a while loop." (the message
Error_throw_printf formats in Analysis_previsit_continue). -/
def contMsg : String := "Continue statement should be inside a while loop."

/-- "Cannot use operator %s on type %s and %s on line %d". -/
def binopMsg (op : BinaryOpType) (lt rt : DecafType) (line : Nat) : String :=
  "Cannot use operator " ++ BinaryOpToString op ++ " on type " ++
    DecafType_to_string lt ++ " and " ++ DecafType_to_string rt ++
    " on line " ++ toString line

/-- "Type mismatch expected %s was %s on line %d" (unary operator). -/
def unopMsg (expected got : DecafType) (line : Nat) : String :=
  "Type mismatch expected " ++ DecafType_to_string expected ++ " was " ++
    DecafType_to_string got ++ " on line " ++ toString line

/-- "Expected array index on line %d". -/
def arrayIndexMsg (line : Nat) : String :=
  "Expected array index on line " ++ toString line

/-- "Array index must be an integer on line %d". -/
def arrayIndexIntMsg (line : Nat) : String :=
  "Array index must be an integer on line " ++ toString line

/-- "Incorrect number of arguments, expected %d, but got %d on line %d". -/
def argCountMsg (expected got line : Nat) : String :=
  "Incorrect number of arguments, expected " ++ toString expected ++
    ", but got " ++ toString got ++ " on line " ++ toString line

/-- "Expected type %s but got type %s on line %d". -/
def argTypeMsg (expected got : DecafType) (line : Nat) : String :=
  "Expected type " ++ DecafType_to_string expected ++ " but got type " ++
    DecafType_to_string got ++ " on line " ++ toString line

/-- The AST produced by the (external) parser, with the heap address of every
node made explicit as its first field.  The constructors follow the NodeType
variants and payloads of include/ast.h; parameters are payload data, not child
nodes.  The id and source line come first in every constructor. -/
inductive ITree where
  | program (id line : Nat) (vars : List ITree) (funcs : List ITree)
  | vardecl (id line : Nat) (name : String) (type : DecafType)
      (is_array : Bool) (array_length : Int)
  | funcdecl (id line : Nat) (name : String) (return_type : DecafType)
      (parameters : List Parameter) (body : ITree)
  | block (id line : Nat) (vars : List ITree) (stmts : List ITree)
  | assignment (id line : Nat) (location : ITree) (value : ITree)
  | conditional (id line : Nat) (condition : ITree) (if_block : ITree)
      (else_block : Option ITree)
  | whileloop (id line : Nat) (condition : ITree) (body : ITree)
  | funcreturn (id line : Nat) (value : Option ITree)
  | breakstmt (id line : Nat)
  | continuestmt (id line : Nat)
  | binaryop (id line : Nat) (op : BinaryOpType) (left right : ITree)
  | unaryop (id line : Nat) (op : UnaryOpType) (child : ITree)
  | location (id line : Nat) (name : String) (index : Option ITree)
  | funccall (id line : Nat) (name : String) (arguments : List ITree)
  | literal (id line : Nat) (type : DecafType)

/-- The heap address of a node. -/
def ITree.nodeId : ITree → Nat
  | .program id _ _ _ => id
  | .vardecl id _ _ _ _ _ => id
  | .funcdecl id _ _ _ _ _ => id
  | .block id _ _ _ => id
  | .assignment id _ _ _ => id
  | .conditional id _ _ _ _ => id
  | .whileloop id _ _ _ => id
  | .funcreturn id _ _ => id
  | .breakstmt id _ => id
  | .continuestmt id _ => id
  | .binaryop id _ _ _ _ => id
  | .unaryop id _ _ _ => id
  | .location id _ _ _ => id
  | .funccall id _ _ _ => id
  | .literal id _ _ => id

/-- The inner loop of find_ducplicat_helper: scan the whole local list and
count the occurrences of one name; as soon as the count exceeds 1,
Error_throw_printf is invoked (a longjmp, not an appended diagnostic). -/
def dupInnerScan (name : String) : List Symbol → Nat → M Unit
  | [], _ => .ok ()
  | s2 :: rest, count =>
    if s2.name == name then
      if count + 1 > 1 then .error (.thrown (dupMsg name))
      else dupInnerScan name rest (count + 1)
    else dupInnerScan name rest count

/-- The outer loop of find_ducplicat_helper: run the inner scan once for every
symbol of the local list. -/
def dupOuterScan (all : List Symbol) : List Symbol → M Unit
  | [] => .ok ()
  | s1 :: rest =>
    match dupInnerScan s1.name all 0 with
    | .error e => .error e
    | .ok _ => dupOuterScan all rest

/-- find_ducplicat_helper from p3-analysis.c (third draft): fetch the node's
symbolTable attribute and run the quadratic duplicate scan over its local
symbols.  When the attribute is missing, the C get_attribute returns NULL and
the immediate table->local_symbols access is a NULL dereference. -/
def find_ducplicat_helper (s : Store) (nid : Nat) : M Unit :=
  match getAttr s nid "symbolTable" with
  | some (.aTable tid) =>
    match alookup s.tables tid with
    | some table => dupOuterScan table.local_symbols table.local_symbols
    | none => .error (.crash "dangling symbolTable pointer")
  | _ => .error (.crash "NULL symbol table dereferenced in find_ducplicat_helper")

/-- struct AnalysisData of the third analyzer draft: the error list, the
is_loop / is_block / is_func flags and the current function return type.
AnalysisData_new calloc-zeroes the struct, so everything starts false / empty /
UNKNOWN. -/
structure AnalysisData where
  errors : List String
  is_loop : Bool
  is_block : Bool
  is_func : Bool
  funcdecl_return_type : DecafType
deriving DecidableEq, Repr

/-- AnalysisData_new from p3-analysis.c. -/
def AnalysisData_new : AnalysisData :=
  { errors := [], is_loop := false, is_block := false, is_func := false,
    funcdecl_return_type := .UNKNOWN }

/-- ErrorList_printf from src/symbol.c: append one formatted message. -/
def ErrorList_printf (d : AnalysisData) (msg : String) : AnalysisData :=
  { d with errors := d.errors ++ [msg] }

/-- Update one symbol in place at a given index of a local list. -/
def setListIdx {α : Type} (f : α → α) : Nat → List α → List α
  | _, [] => []
  | 0, a :: rest => f a :: rest
  | i + 1, a :: rest => a :: setListIdx f i rest

/-- Store through a symbol pointer (mutates the symbol inside its table). -/
def updateSymbolAt (s : Store) (ptr : Nat × Nat) (f : Symbol → Symbol) : Store :=
  let ts := aupdate s.tables ptr.fst
    (fun tbl => { tbl with local_symbols := setListIdx f ptr.snd tbl.local_symbols })
  { s with tables := ts }

/-- Advance the head pointer of a FuncCall node's argument list. -/
def advanceArgsHead (s : Store) (nid : Nat) : Store :=
  let ns := aupdate s.nodes nid
    (fun nd => { nd with arguments := nd.arguments.map (fun a => { a with head := a.head + 1 }) })
  { s with nodes := ns }

/-- Analysis_previsit_program (third draft).  The node is never NULL in the
embedding, so the NULL Tree branch is unreachable.  The C performs the same
lookup_symbol call once per else-if test; the calls are pure reads, so a
single lookup is used here. -/
def Analysis_previsit_program (s : Store) (d : AnalysisData) (nid : Nat) :
    M (Store × AnalysisData) :=
  match lookupSymbolData s nid "main" with
  | none => .ok (s, ErrorList_printf d noMainMsg)
  | some sym =>
    if sym.symbol_type != .FUNCTION_SYMBOL then .ok (s, ErrorList_printf d noMainMsg)
    else if sym.parameters.length > 0 then .ok (s, ErrorList_printf d mainParamsMsg)
    else
      match find_ducplicat_helper s nid with
      | .error e => .error e
      | .ok _ => .ok (s, d)

/-- Analysis_postvisit_program (third draft). -/
def Analysis_postvisit_program (s : Store) (d : AnalysisData) (nid : Nat) :
    M (Store × AnalysisData) :=
  match lookupSymbolData s nid "main" with
  | none => .ok (s, d)
  | some sym =>
    if sym.type != .INT then .ok (s, ErrorList_printf d mainIntMsg)
    else .ok (s, d)

/-- Analysis_previsit_vardecl (third draft): record the declared type as the
inferred type attribute. -/
def Analysis_previsit_vardecl (s : Store) (d : AnalysisData) (nid : Nat)
    (type : DecafType) : M (Store × AnalysisData) :=
  match setInferredType s nid type with
  | .error e => .error e
  | .ok s => .ok (s, d)

/-- Analysis_postvisit_vardecl (third draft): forbid void variables; arrays
must be global and have positive length. -/
def Analysis_postvisit_vardecl (s : Store) (d : AnalysisData) (nid : Nat)
    (name : String) (line : Nat) (is_array : Bool) (array_length : Int) :
    M (Store × AnalysisData) :=
  let t := getInferredType s nid
  if t == .VOID then .ok (s, ErrorList_printf d (voidVarMsg name line))
  else if is_array then
    if d.is_block || d.is_func then .ok (s, ErrorList_printf d (localArrayMsg name line))
    else if array_length <= 0 then .ok (s, ErrorList_printf d arrayLenMsg)
    else .ok (s, d)
  else .ok (s, d)

/-- Analysis_previsit_funcdecl (third draft): record the return type both as
the node's inferred type and in the visitor state; set the is_func flag. -/
def Analysis_previsit_funcdecl (s : Store) (d : AnalysisData) (nid : Nat)
    (return_type : DecafType) : M (Store × AnalysisData) :=
  match setInferredType s nid return_type with
  | .error e => .error e
  | .ok s => .ok (s, { d with funcdecl_return_type := return_type, is_func := true })

/-- Analysis_postvisit_funcdecl (third draft): clear is_func, then run the
duplicate check on the function scope. -/
def Analysis_postvisit_funcdecl (s : Store) (d : AnalysisData) (nid : Nat) :
    M (Store × AnalysisData) :=
  let d := { d with is_func := false }
  match find_ducplicat_helper s nid with
  | .error e => .error e
  | .ok _ => .ok (s, d)

/-- Analysis_previsit_block (third draft): set the is_block flag. -/
def Analysis_previsit_block (d : AnalysisData) : AnalysisData :=
  { d with is_block := true }

/-- Analysis_postvisit_block (third draft): clear is_block, then run the
duplicate check on the block scope. -/
def Analysis_postvisit_block (s : Store) (d : AnalysisData) (nid : Nat) :
    M (Store × AnalysisData) :=
  let d := { d with is_block := false }
  match find_ducplicat_helper s nid with
  | .error e => .error e
  | .ok _ => .ok (s, d)

/-- Analysis_postvisit_assignment (third draft): location and value must have
equal inferred types. -/
def Analysis_postvisit_assignment (s : Store) (d : AnalysisData)
    (locId valId : Nat) : M (Store × AnalysisData) :=
  let left_type := getInferredType s locId
  let right_type := getInferredType s valId
  if left_type != right_type then
    .ok (s, ErrorList_printf d (assignMsg left_type right_type))
  else .ok (s, d)

/-- Analysis_postvisit_conditional (third draft): the condition must be
boolean. -/
def Analysis_postvisit_conditional (s : Store) (d : AnalysisData)
    (condId line : Nat) : M (Store × AnalysisData) :=
  let cond_type := getInferredType s condId
  if cond_type != .BOOL then .ok (s, ErrorList_printf d (condMsg cond_type line))
  else .ok (s, d)

/-- Analysis_previsit_while_loop (third draft): set the is_loop flag. -/
def Analysis_previsit_while_loop (d : AnalysisData) : AnalysisData :=
  { d with is_loop := true }

/-- Analysis_postvisit_while_loop (third draft): clear the is_loop flag
(whether or not this loop is nested inside another one), then require a
boolean condition. -/
def Analysis_postvisit_while_loop (s : Store) (d : AnalysisData)
    (condId line : Nat) : M (Store × AnalysisData) :=
  let d := { d with is_loop := false }
  let cond_type := getInferredType s condId
  if cond_type != .BOOL then .ok (s, ErrorList_printf d (condMsg cond_type line))
  else .ok (s, d)

/-- Analysis_postvisit_return (third draft): a return whose value is an
unresolvable location is skipped; otherwise, when the value's inferred type is
present (nonzero, i.e. not UNKNOWN), it must equal the current function's
return type. -/
def Analysis_postvisit_return (s : Store) (d : AnalysisData) (nid : Nat)
    (value : Option ITree) (line : Nat) : M (Store × AnalysisData) :=
  match value with
  | none => .ok (s, d)
  | some v =>
    let unresolvableLocation :=
      match v with
      | .location _ _ vname _ => (lookup_symbol s nid vname).isNone
      | _ => false
    if unresolvableLocation then .ok (s, d)
    else
      let infer_return_value := getInferredType s v.nodeId
      if infer_return_value != .UNKNOWN then
        if d.funcdecl_return_type != infer_return_value then
          .ok (s, ErrorList_printf d (returnMsg d.funcdecl_return_type infer_return_value line))
        else .ok (s, d)
      else .ok (s, d)

/-- Analysis_previsit_break (third draft): outside a loop (is_loop clear) a
diagnostic is appended via ErrorList_printf and traversal continues. -/
def Analysis_previsit_break (s : Store) (d : AnalysisData) :
    M (Store × AnalysisData) :=
  if !d.is_loop then .ok (s, ErrorList_printf d breakMsg)
  else .ok (s, d)

/-- Analysis_previsit_continue (third draft): outside a loop (is_loop clear)
the C calls Error_throw_printf, a longjmp exception, not a list append. -/
def Analysis_previsit_continue (s : Store) (d : AnalysisData) :
    M (Store × AnalysisData) :=
  if !d.is_loop then .error (.thrown contMsg)
  else .ok (s, d)

/-- Analysis_previsit_binop (third draft): operators with ordinal below 8
(logical and relational) are typed BOOL, the rest (arithmetic) INT.  The C
condition is 0 <= ordinal < 8; the lower bound is vacuous. -/
def Analysis_previsit_binop (s : Store) (d : AnalysisData) (nid : Nat)
    (op : BinaryOpType) : M (Store × AnalysisData) :=
  if op.toNat < 8 then
    match setInferredType s nid .BOOL with
    | .error e => .error e
    | .ok s => .ok (s, d)
  else
    match setInferredType s nid .INT with
    | .error e => .error e
    | .ok s => .ok (s, d)

/-- Analysis_postvisit_binop (third draft): relational and arithmetic
operators (ordinals 4..12) need INT operands, equality operators (2, 3) need
equal operand types, logical operators (0, 1) need BOOL operands. -/
def Analysis_postvisit_binop (s : Store) (d : AnalysisData)
    (op : BinaryOpType) (lId rId line : Nat) : M (Store × AnalysisData) :=
  let left_type := getInferredType s lId
  let right_type := getInferredType s rId
  if 3 < op.toNat && op.toNat < 13 then
    if left_type != .INT || right_type != .INT then
      .ok (s, ErrorList_printf d (binopMsg op left_type right_type line))
    else .ok (s, d)
  else if op.toNat == 2 || op.toNat == 3 then
    if left_type != right_type then
      .ok (s, ErrorList_printf d (binopMsg op left_type right_type line))
    else .ok (s, d)
  else if op.toNat == 0 || op.toNat == 1 then
    if left_type != .BOOL || right_type != .BOOL then
      .ok (s, ErrorList_printf d (binopMsg op left_type right_type line))
    else .ok (s, d)
  else .ok (s, d)

/-- Analysis_previsit_unop (third draft): negation is typed INT, logical not
BOOL. -/
def Analysis_previsit_unop (s : Store) (d : AnalysisData) (nid : Nat)
    (op : UnaryOpType) : M (Store × AnalysisData) :=
  if op.toNat == 0 then
    match setInferredType s nid .INT with
    | .error e => .error e
    | .ok s => .ok (s, d)
  else
    match setInferredType s nid .BOOL with
    | .error e => .error e
    | .ok s => .ok (s, d)

/-- Analysis_postvisit_unop (third draft): the child's inferred type must
match the node's own inferred type. -/
def Analysis_postvisit_unop (s : Store) (d : AnalysisData)
    (nid childId line : Nat) : M (Store × AnalysisData) :=
  let actual_type := getInferredType s childId
  let inferred_type := getInferredType s nid
  if actual_type != inferred_type then
    .ok (s, ErrorList_printf d (unopMsg inferred_type actual_type line))
  else .ok (s, d)

/-- Analysis_previsit_location (third draft): resolve the name (reporting a
diagnostic on failure) and decorate the node with the symbol's type. -/
def Analysis_previsit_location (s : Store) (d : AnalysisData) (nid line : Nat)
    (name : String) : M (Store × AnalysisData) :=
  match lookup_symbol_with_reporting s d.errors nid line name with
  | (none, errs) => .ok (s, { d with errors := errs })
  | (some ptr, errs) =>
    match derefSymbol s ptr with
    | none => .error (.crash "dangling symbol pointer")
    | some sym =>
      match setInferredType s nid sym.type with
      | .error e => .error e
      | .ok s => .ok (s, { d with errors := errs })

/-- Analysis_postvisit_location (third draft): an array location needs an
index and the index must be an integer (plain lookup_symbol here, without
reporting). -/
def Analysis_postvisit_location (s : Store) (d : AnalysisData) (nid line : Nat)
    (name : String) (index : Option Nat) : M (Store × AnalysisData) :=
  match lookupSymbolData s nid name with
  | none => .ok (s, d)
  | some sym =>
    match index with
    | none =>
      if sym.symbol_type == .ARRAY_SYMBOL then
        .ok (s, ErrorList_printf d (arrayIndexMsg line))
      else .ok (s, d)
    | some ix =>
      if sym.symbol_type == .ARRAY_SYMBOL && getInferredType s ix != .INT then
        .ok (s, ErrorList_printf d (arrayIndexIntMsg line))
      else .ok (s, d)

/-- Analysis_previsit_funcall (third draft): resolve the callee (reporting a
diagnostic on failure) and decorate the call with the callee's type, i.e. its
return type. -/
def Analysis_previsit_funcall (s : Store) (d : AnalysisData) (nid line : Nat)
    (name : String) : M (Store × AnalysisData) :=
  match lookup_symbol_with_reporting s d.errors nid line name with
  | (none, errs) => .ok (s, { d with errors := errs })
  | (some ptr, errs) =>
    match derefSymbol s ptr with
    | none => .error (.crash "dangling symbol pointer")
    | some sym =>
      match setInferredType s nid sym.type with
      | .error e => .error e
      | .ok s => .ok (s, { d with errors := errs })

/-- The argument/parameter walk of Analysis_postvisit_funcall.  One iteration
reads the current parameter head through the symbol pointer (a NULL head is a
crash), reads the current argument head of the call node (the C then calls
ASTNode_get_attribute on a NULL node, which throws), compares the types and
either returns early with a diagnostic (the boolean result is false: the loop
did not complete, so the caller must not restore the parameter head) or
advances both head pointers. -/
def funcall_args_loop (ptr : Nat × Nat) (nid line : Nat) :
    Nat → Store → AnalysisData → M (Store × AnalysisData × Bool)
  | 0, s, d => .ok (s, d, true)
  | n + 1, s, d =>
    match derefSymbol s ptr with
    | none => .error (.crash "dangling symbol pointer")
    | some sym =>
      match sym.parameters.get? sym.paramsHead with
      | none => .error (.crash "NULL parameter head dereferenced")
      | some p =>
        match (alookup s.nodes nid).bind (fun nd => nd.arguments) with
        | none => .error (.crash "FuncCall node without an argument list")
        | some args =>
          match args.ids.get? args.head with
          | none =>
            .error (.thrown ("ERROR: Tried to get attribute " ++ sq ++ "type" ++
              sq ++ " without a node pointer\n"))
          | some argId =>
            if p.type != getInferredType s argId then
              .ok (s, ErrorList_printf d (argTypeMsg p.type (getInferredType s argId) line), false)
            else
              let s := updateSymbolAt s ptr (fun sym => { sym with paramsHead := sym.paramsHead + 1 })
              let s := advanceArgsHead s nid
              funcall_args_loop ptr nid line n s d

/-- Analysis_postvisit_funcall (third draft): resolve the callee again
(reporting a second diagnostic if it is undefined), compare the argument count
with the parameter count, then walk parameters and arguments positionally by
advancing both head pointers; after a complete walk only the parameter head is
restored to its saved value. -/
def Analysis_postvisit_funcall (s : Store) (d : AnalysisData) (nid line : Nat)
    (name : String) : M (Store × AnalysisData) :=
  match lookup_symbol_with_reporting s d.errors nid line name with
  | (none, errs) => .ok (s, { d with errors := errs })
  | (some ptr, errs) =>
    let d := { d with errors := errs }
    match derefSymbol s ptr with
    | none => .error (.crash "dangling symbol pointer")
    | some sym =>
      let head0 := sym.paramsHead
      match (alookup s.nodes nid).bind (fun nd => nd.arguments) with
      | none => .error (.crash "FuncCall node without an argument list")
      | some args =>
        if sym.parameters.length != args.ids.length then
          .ok (s, ErrorList_printf d (argCountMsg sym.parameters.length args.ids.length line))
        else
          match funcall_args_loop ptr nid line sym.parameters.length s d with
          | .error e => .error e
          | .ok (s, d, completed) =>
            if completed then
              .ok (updateSymbolAt s ptr (fun sym => { sym with paramsHead := head0 }), d)
            else .ok (s, d)

/-- Analysis_previsit_literal (third draft): the literal's tag is its inferred
type. -/
def Analysis_previsit_literal (s : Store) (d : AnalysisData) (nid : Nat)
    (type : DecafType) : M (Store × AnalysisData) :=
  match setInferredType s nid type with
  | .error e => .error e
  | .ok s => .ok (s, d)


/-! NodeVisitor_traverse (src/unnamed/part_003) specialised to the registered
callbacks of the final analyze definition.  Callbacks that the third draft
leaves empty (previsit assignment / conditional / return, invisit binaryop,
postvisit break / continue / literal, and the unregistered-slot defaults) are
noted in place.  The FOR_EACH over FuncCall arguments starts at the list's
head pointer, which is still the start of the spine whenever the traversal
reaches it (the head is only advanced by this call node's own postvisit). -/
mutual

def aVisit : ITree → Store → AnalysisData → M (Store × AnalysisData)
  | .program nid _line vs fs, s, d => do
    let (s, d) ← Analysis_previsit_program s d nid
    let (s, d) ← aVisitList vs s d
    let (s, d) ← aVisitList fs s d
    Analysis_postvisit_program s d nid
  | .vardecl nid line name type is_array array_length, s, d => do
    let (s, d) ← Analysis_previsit_vardecl s d nid type
    Analysis_postvisit_vardecl s d nid name line is_array array_length
  | .funcdecl nid _line _name return_type _parameters body, s, d => do
    let (s, d) ← Analysis_previsit_funcdecl s d nid return_type
    let (s, d) ← aVisit body s d
    Analysis_postvisit_funcdecl s d nid
  | .block nid _line vs stmts, s, d => do
    let d := Analysis_previsit_block d
    let (s, d) ← aVisitList vs s d
    let (s, d) ← aVisitList stmts s d
    Analysis_postvisit_block s d nid
  | .assignment _nid _line loc val, s, d => do
    let (s, d) ← aVisit loc s d
    let (s, d) ← aVisit val s d
    Analysis_postvisit_assignment s d loc.nodeId val.nodeId
  | .conditional _nid line cond if_block (some else_block), s, d => do
    let (s, d) ← aVisit cond s d
    let (s, d) ← aVisit if_block s d
    let (s, d) ← aVisit else_block s d
    Analysis_postvisit_conditional s d cond.nodeId line
  | .conditional _nid line cond if_block none, s, d => do
    let (s, d) ← aVisit cond s d
    let (s, d) ← aVisit if_block s d
    Analysis_postvisit_conditional s d cond.nodeId line
  | .whileloop _nid line cond body, s, d => do
    let d := Analysis_previsit_while_loop d
    let (s, d) ← aVisit cond s d
    let (s, d) ← aVisit body s d
    Analysis_postvisit_while_loop s d cond.nodeId line
  | .funcreturn nid line (some v), s, d => do
    let (s, d) ← aVisit v s d
    Analysis_postvisit_return s d nid (some v) line
  | .funcreturn nid line none, s, d =>
    Analysis_postvisit_return s d nid none line
  | .breakstmt _nid _line, s, d =>
    Analysis_previsit_break s d
  | .continuestmt _nid _line, s, d =>
    Analysis_previsit_continue s d
  | .binaryop nid line op left right, s, d => do
    let (s, d) ← Analysis_previsit_binop s d nid op
    let (s, d) ← aVisit left s d
    let (s, d) ← aVisit right s d
    Analysis_postvisit_binop s d op left.nodeId right.nodeId line
  | .unaryop nid line op child, s, d => do
    let (s, d) ← Analysis_previsit_unop s d nid op
    let (s, d) ← aVisit child s d
    Analysis_postvisit_unop s d nid child.nodeId line
  | .location nid line name (some index), s, d => do
    let (s, d) ← Analysis_previsit_location s d nid line name
    let (s, d) ← aVisit index s d
    Analysis_postvisit_location s d nid line name (some index.nodeId)
  | .location nid line name none, s, d => do
    let (s, d) ← Analysis_previsit_location s d nid line name
    Analysis_postvisit_location s d nid line name none
  | .funccall nid line name args, s, d => do
    let (s, d) ← Analysis_previsit_funcall s d nid line name
    let (s, d) ← aVisitList args s d
    Analysis_postvisit_funcall s d nid line name
  | .literal nid _line type, s, d =>
    Analysis_previsit_literal s d nid type

def aVisitList : List ITree → Store → AnalysisData → M (Store × AnalysisData)
  | [], s, d => .ok (s, d)
  | t :: ts, s, d => do
    let (s, d) ← aVisit t s d
    aVisitList ts s d

end

/-- analyze from p3-analysis.c (the final definition, registering the
third-draft callbacks): run the analysis traversal starting from a fresh
AnalysisData and return the final heap and the error list.  The NULL-tree
branch of the C is unreachable in the embedding, and a longjmp escapes the
function instead of returning a list. -/
def analyze (t : ITree) (s : Store) : M (Store × List String) :=
  match aVisit t s AnalysisData_new with
  | .error e => .error e
  | .ok (s, d) => .ok (s, d.errors)

/-- Give every node in a list of children a parent attribute (weak, NULL
destructor), in list order. -/
def setParentList (pid : Nat) : List Nat → Store → M Store
  | [], s => .ok s
  | c :: rest, s =>
    match ASTNode_set_attribute_weak s c "parent" (.aNode pid) with
    | .error e => .error e
    | .ok s => setParentList pid rest s

/-! The SetParent pass: NodeVisitor_traverse specialised to the
SetParentVisitor previsit callbacks (src/unnamed/part_003); nodes without
children (vardecl, break, continue, literal) use the do-nothing default. -/
mutual

def spVisit : ITree → Store → M Store
  | .program nid _ vs fs, s => do
    let s ← setParentList nid (vs.map ITree.nodeId) s
    let s ← setParentList nid (fs.map ITree.nodeId) s
    let s ← spVisitList vs s
    spVisitList fs s
  | .vardecl _ _ _ _ _ _, s => .ok s
  | .funcdecl nid _ _ _ _ body, s => do
    let s ← ASTNode_set_attribute_weak s body.nodeId "parent" (.aNode nid)
    spVisit body s
  | .block nid _ vs stmts, s => do
    let s ← setParentList nid (vs.map ITree.nodeId) s
    let s ← setParentList nid (stmts.map ITree.nodeId) s
    let s ← spVisitList vs s
    spVisitList stmts s
  | .assignment nid _ loc val, s => do
    let s ← ASTNode_set_attribute_weak s loc.nodeId "parent" (.aNode nid)
    let s ← ASTNode_set_attribute_weak s val.nodeId "parent" (.aNode nid)
    let s ← spVisit loc s
    spVisit val s
  | .conditional nid _ cond if_block (some else_block), s => do
    let s ← ASTNode_set_attribute_weak s cond.nodeId "parent" (.aNode nid)
    let s ← ASTNode_set_attribute_weak s if_block.nodeId "parent" (.aNode nid)
    let s ← ASTNode_set_attribute_weak s else_block.nodeId "parent" (.aNode nid)
    let s ← spVisit cond s
    let s ← spVisit if_block s
    spVisit else_block s
  | .conditional nid _ cond if_block none, s => do
    let s ← ASTNode_set_attribute_weak s cond.nodeId "parent" (.aNode nid)
    let s ← ASTNode_set_attribute_weak s if_block.nodeId "parent" (.aNode nid)
    let s ← spVisit cond s
    spVisit if_block s
  | .whileloop nid _ cond body, s => do
    let s ← ASTNode_set_attribute_weak s cond.nodeId "parent" (.aNode nid)
    let s ← ASTNode_set_attribute_weak s body.nodeId "parent" (.aNode nid)
    let s ← spVisit cond s
    spVisit body s
  | .funcreturn nid _ (some v), s => do
    let s ← ASTNode_set_attribute_weak s v.nodeId "parent" (.aNode nid)
    spVisit v s
  | .funcreturn _ _ none, s => .ok s
  | .breakstmt _ _, s => .ok s
  | .continuestmt _ _, s => .ok s
  | .binaryop nid _ _ left right, s => do
    let s ← ASTNode_set_attribute_weak s left.nodeId "parent" (.aNode nid)
    let s ← ASTNode_set_attribute_weak s right.nodeId "parent" (.aNode nid)
    let s ← spVisit left s
    spVisit right s
  | .unaryop nid _ _ child, s => do
    let s ← ASTNode_set_attribute_weak s child.nodeId "parent" (.aNode nid)
    spVisit child s
  | .location nid _ _ (some index), s => do
    let s ← ASTNode_set_attribute_weak s index.nodeId "parent" (.aNode nid)
    spVisit index s
  | .location _ _ _ none, s => .ok s
  | .funccall nid _ _ args, s => do
    let s ← setParentList nid (args.map ITree.nodeId) s
    spVisitList args s
  | .literal _ _ _, s => .ok s

def spVisitList : List ITree → Store → M Store
  | [], s => .ok s
  | t :: ts, s => do
    let s ← spVisit t s
    spVisitList ts s

end

/-- CalcDepthVisitor_visit_nonprogram (src/unnamed/part_003): read the parent
attribute; on a missing parent the C gets NULL, and the following
ASTNode_get_int_attribute(NULL, "depth") throws.  Otherwise the parent's depth
(0 when the parent has none yet) plus one is stored. -/
def CalcDepthVisitor_visit_nonprogram (s : Store) (nid : Nat) : M Store :=
  match getAttr s nid "parent" with
  | some (.aNode pid) =>
    let pdepth : Int :=
      match getAttr s pid "depth" with
      | some (.aInt n) => n
      | _ => 0
    ASTNode_set_int_attribute s nid "depth" (pdepth + 1)
  | _ =>
    .error (.thrown ("ERROR: Tried to get attribute " ++ sq ++ "depth" ++ sq ++
      " without a node pointer\n"))

/-! The CalcDepth pass: a pre-order walk whose program callback stores depth 0
and whose default previsit computes depth from the parent attribute. -/
mutual

def cdVisit : ITree → Store → M Store
  | .program nid _ vs fs, s => do
    let s ← ASTNode_set_int_attribute s nid "depth" 0
    let s ← cdVisitList vs s
    cdVisitList fs s
  | .vardecl nid _ _ _ _ _, s => CalcDepthVisitor_visit_nonprogram s nid
  | .funcdecl nid _ _ _ _ body, s => do
    let s ← CalcDepthVisitor_visit_nonprogram s nid
    cdVisit body s
  | .block nid _ vs stmts, s => do
    let s ← CalcDepthVisitor_visit_nonprogram s nid
    let s ← cdVisitList vs s
    cdVisitList stmts s
  | .assignment nid _ loc val, s => do
    let s ← CalcDepthVisitor_visit_nonprogram s nid
    let s ← cdVisit loc s
    cdVisit val s
  | .conditional nid _ cond if_block (some else_block), s => do
    let s ← CalcDepthVisitor_visit_nonprogram s nid
    let s ← cdVisit cond s
    let s ← cdVisit if_block s
    cdVisit else_block s
  | .conditional nid _ cond if_block none, s => do
    let s ← CalcDepthVisitor_visit_nonprogram s nid
    let s ← cdVisit cond s
    cdVisit if_block s
  | .whileloop nid _ cond body, s => do
    let s ← CalcDepthVisitor_visit_nonprogram s nid
    let s ← cdVisit cond s
    cdVisit body s
  | .funcreturn nid _ (some v), s => do
    let s ← CalcDepthVisitor_visit_nonprogram s nid
    cdVisit v s
  | .funcreturn nid _ none, s => CalcDepthVisitor_visit_nonprogram s nid
  | .breakstmt nid _, s => CalcDepthVisitor_visit_nonprogram s nid
  | .continuestmt nid _, s => CalcDepthVisitor_visit_nonprogram s nid
  | .binaryop nid _ _ left right, s => do
    let s ← CalcDepthVisitor_visit_nonprogram s nid
    let s ← cdVisit left s
    cdVisit right s
  | .unaryop nid _ _ child, s => do
    let s ← CalcDepthVisitor_visit_nonprogram s nid
    cdVisit child s
  | .location nid _ _ (some index), s => do
    let s ← CalcDepthVisitor_visit_nonprogram s nid
    cdVisit index s
  | .location nid _ _ none, s => CalcDepthVisitor_visit_nonprogram s nid
  | .funccall nid _ _ args, s => do
    let s ← CalcDepthVisitor_visit_nonprogram s nid
    cdVisitList args s
  | .literal nid _ _, s => CalcDepthVisitor_visit_nonprogram s nid

def cdVisitList : List ITree → Store → M Store
  | [], s => .ok s
  | t :: ts, s => do
    let s ← cdVisit t s
    cdVisitList ts s

end

/-- SymbolTable_insert from src/symbol.c: append to the local list. -/
def SymbolTable_insert (s : Store) (tid : Nat) (sym : Symbol) : Store :=
  let ts := aupdate s.tables tid
    (fun tbl => { tbl with local_symbols := tbl.local_symbols ++ [sym] })
  { s with tables := ts }

/-- create_print_symbol from src/symbol.c: a void function with one parameter
named value of the given type. -/
def create_print_symbol (name : String) (type : DecafType) : Symbol :=
  Symbol_new_function name .VOID [{ name := "value", type := type }]

/-- Allocate a fresh symbol table with the given parent. -/
def newTable (s : Store) (parent : Option Nat) : Store × Nat :=
  let tid := s.next_table
  ({ s with tables := s.tables ++ [(tid, { local_symbols := [], parent := parent })],
            next_table := tid + 1 }, tid)

/-- The forward-declaration loop of BuildSymbolTablesVisitor_previsit_program:
insert a function symbol for every user-declared function.  The C reads the
funcdecl union members of every entry of the functions list; for an entry of
another node type it would read uninitialized union memory, which cannot
happen on parser-shaped trees, so such entries are skipped here. -/
def insertUserFuncs (tid : Nat) : List ITree → Store → Store
  | [], s => s
  | .funcdecl _ _ name return_type parameters _ :: rest, s =>
    insertUserFuncs tid rest (SymbolTable_insert s tid (Symbol_new_function name return_type parameters))
  | _ :: rest, s => insertUserFuncs tid rest s

/-- BuildSymbolTablesVisitor_previsit_program (src/src/symbol.c): create the
root table, attach it (destructor SymbolTable_free, not NULL), initialize the
scope stack, insert the three print built-ins and forward-declare every user
function. -/
def BuildSymbolTablesVisitor_previsit_program (s : Store) (nid : Nat)
    (fs : List ITree) : M (Store × Option Nat) :=
  let (s, tid) := newTable s none
  match ASTNode_set_printable_attribute s nid "symbolTable" (.aTable tid) false with
  | .error e => .error e
  | .ok s =>
    let s := SymbolTable_insert s tid (create_print_symbol "print_int" .INT)
    let s := SymbolTable_insert s tid (create_print_symbol "print_bool" .BOOL)
    let s := SymbolTable_insert s tid (create_print_symbol "print_str" .STR)
    .ok (insertUserFuncs tid fs s, some tid)

/-- BuildSymbolTablesVisitor_previsit_funcdecl: create a child scope whose
parent is the current top of the scope stack, attach and push it, and insert a
scalar symbol for each formal parameter in order. -/
def BuildSymbolTablesVisitor_previsit_funcdecl (s : Store) (data : Option Nat)
    (nid : Nat) (parameters : List Parameter) : M (Store × Option Nat) :=
  let (s, tid) := newTable s data
  match ASTNode_set_printable_attribute s nid "symbolTable" (.aTable tid) false with
  | .error e => .error e
  | .ok s =>
    let s := parameters.foldl (fun s p => SymbolTable_insert s tid (Symbol_new p.name p.type)) s
    .ok (s, some tid)

/-- BuildSymbolTablesVisitor_previsit_block: create, attach and push a child
scope. -/
def BuildSymbolTablesVisitor_previsit_block (s : Store) (data : Option Nat)
    (nid : Nat) : M (Store × Option Nat) :=
  let (s, tid) := newTable s data
  match ASTNode_set_printable_attribute s nid "symbolTable" (.aTable tid) false with
  | .error e => .error e
  | .ok s => .ok (s, some tid)

/-- BuildSymbolTablesVisitor_visit_vardecl: insert a scalar or array symbol
into the current top scope; with an empty scope stack the C dereferences a
NULL table pointer. -/
def BuildSymbolTablesVisitor_visit_vardecl (s : Store) (data : Option Nat)
    (name : String) (type : DecafType) (is_array : Bool) (array_length : Int) :
    M Store :=
  match data with
  | none => .error (.crash "SymbolTable_insert through a NULL table pointer")
  | some tid =>
    if is_array then .ok (SymbolTable_insert s tid (Symbol_new_array name type array_length))
    else .ok (SymbolTable_insert s tid (Symbol_new name type))

/-- BuildSymbolTablesVisitor_postvisit: pop the scope stack by replacing the
current top with its parent; popping an empty stack dereferences NULL. -/
def BuildSymbolTablesVisitor_postvisit (s : Store) (data : Option Nat) :
    M (Option Nat) :=
  match data with
  | none => .error (.crash "popped a NULL symbol table stack")
  | some tid =>
    match alookup s.tables tid with
    | none => .error (.crash "dangling symbol table pointer")
    | some tbl => .ok tbl.parent

/-! The BuildSymbolTables pass: NodeVisitor_traverse specialised to the
builder callbacks, threading the scope stack (the visitor's data slot, NULL
initially). -/
mutual

def bVisit : ITree → Store → Option Nat → M (Store × Option Nat)
  | .program nid _ vs fs, s, _data => do
    let (s, data) ← BuildSymbolTablesVisitor_previsit_program s nid fs
    let (s, data) ← bVisitList vs s data
    let (s, data) ← bVisitList fs s data
    let data ← BuildSymbolTablesVisitor_postvisit s data
    .ok (s, data)
  | .vardecl _ _ name type is_array array_length, s, data => do
    let s ← BuildSymbolTablesVisitor_visit_vardecl s data name type is_array array_length
    .ok (s, data)
  | .funcdecl nid _ _ _ parameters body, s, data => do
    let (s, data) ← BuildSymbolTablesVisitor_previsit_funcdecl s data nid parameters
    let (s, data) ← bVisit body s data
    let data ← BuildSymbolTablesVisitor_postvisit s data
    .ok (s, data)
  | .block nid _ vs stmts, s, data => do
    let (s, data) ← BuildSymbolTablesVisitor_previsit_block s data nid
    let (s, data) ← bVisitList vs s data
    let (s, data) ← bVisitList stmts s data
    let data ← BuildSymbolTablesVisitor_postvisit s data
    .ok (s, data)
  | .assignment _ _ loc val, s, data => do
    let (s, data) ← bVisit loc s data
    bVisit val s data
  | .conditional _ _ cond if_block (some else_block), s, data => do
    let (s, data) ← bVisit cond s data
    let (s, data) ← bVisit if_block s data
    bVisit else_block s data
  | .conditional _ _ cond if_block none, s, data => do
    let (s, data) ← bVisit cond s data
    bVisit if_block s data
  | .whileloop _ _ cond body, s, data => do
    let (s, data) ← bVisit cond s data
    bVisit body s data
  | .funcreturn _ _ (some v), s, data => bVisit v s data
  | .funcreturn _ _ none, s, data => .ok (s, data)
  | .breakstmt _ _, s, data => .ok (s, data)
  | .continuestmt _ _, s, data => .ok (s, data)
  | .binaryop _ _ _ left right, s, data => do
    let (s, data) ← bVisit left s data
    bVisit right s data
  | .unaryop _ _ _ child, s, data => bVisit child s data
  | .location _ _ _ (some index), s, data => bVisit index s data
  | .location _ _ _ none, s, data => .ok (s, data)
  | .funccall _ _ _ args, s, data => bVisitList args s data
  | .literal _ _ _, s, data => .ok (s, data)

def bVisitList : List ITree → Store → Option Nat → M (Store × Option Nat)
  | [], s, data => .ok (s, data)
  | t :: ts, s, data => do
    let (s, data) ← bVisit t s data
    bVisitList ts s data

end

/-! Allocate the heap cells of a parser-produced tree: every node starts with
an empty attribute list; a FuncCall node owns an argument list object whose
head points at the first argument. -/
mutual

def loadTree : ITree → Store → Store
  | .program nid _ vs fs, s =>
    let s := { s with nodes := s.nodes ++ [(nid, { attributes := [], arguments := none })] }
    loadList fs (loadList vs s)
  | .vardecl nid _ _ _ _ _, s =>
    { s with nodes := s.nodes ++ [(nid, { attributes := [], arguments := none })] }
  | .funcdecl nid _ _ _ _ body, s =>
    let s := { s with nodes := s.nodes ++ [(nid, { attributes := [], arguments := none })] }
    loadTree body s
  | .block nid _ vs stmts, s =>
    let s := { s with nodes := s.nodes ++ [(nid, { attributes := [], arguments := none })] }
    loadList stmts (loadList vs s)
  | .assignment nid _ loc val, s =>
    let s := { s with nodes := s.nodes ++ [(nid, { attributes := [], arguments := none })] }
    loadTree val (loadTree loc s)
  | .conditional nid _ cond if_block (some else_block), s =>
    let s := { s with nodes := s.nodes ++ [(nid, { attributes := [], arguments := none })] }
    loadTree else_block (loadTree if_block (loadTree cond s))
  | .conditional nid _ cond if_block none, s =>
    let s := { s with nodes := s.nodes ++ [(nid, { attributes := [], arguments := none })] }
    loadTree if_block (loadTree cond s)
  | .whileloop nid _ cond body, s =>
    let s := { s with nodes := s.nodes ++ [(nid, { attributes := [], arguments := none })] }
    loadTree body (loadTree cond s)
  | .funcreturn nid _ (some v), s =>
    let s := { s with nodes := s.nodes ++ [(nid, { attributes := [], arguments := none })] }
    loadTree v s
  | .funcreturn nid _ none, s =>
    { s with nodes := s.nodes ++ [(nid, { attributes := [], arguments := none })] }
  | .breakstmt nid _, s =>
    { s with nodes := s.nodes ++ [(nid, { attributes := [], arguments := none })] }
  | .continuestmt nid _, s =>
    { s with nodes := s.nodes ++ [(nid, { attributes := [], arguments := none })] }
  | .binaryop nid _ _ left right, s =>
    let s := { s with nodes := s.nodes ++ [(nid, { attributes := [], arguments := none })] }
    loadTree right (loadTree left s)
  | .unaryop nid _ _ child, s =>
    let s := { s with nodes := s.nodes ++ [(nid, { attributes := [], arguments := none })] }
    loadTree child s
  | .location nid _ _ (some index), s =>
    let s := { s with nodes := s.nodes ++ [(nid, { attributes := [], arguments := none })] }
    loadTree index s
  | .location nid _ _ none, s =>
    { s with nodes := s.nodes ++ [(nid, { attributes := [], arguments := none })] }
  | .funccall nid _ _ args, s =>
    let s := { s with nodes := s.nodes ++
      [(nid, { attributes := [], arguments := some { ids := args.map ITree.nodeId, head := 0 } })] }
    loadList args s
  | .literal nid _ _, s =>
    { s with nodes := s.nodes ++ [(nid, { attributes := [], arguments := none })] }

def loadList : List ITree → Store → Store
  | [], s => s
  | t :: ts, s => loadList ts (loadTree t s)

end

/-- The empty heap a parser-produced tree is loaded into. -/
def load (t : ITree) : Store :=
  loadTree t { nodes := [], tables := [], next_table := 0 }

/-- The pipeline of src/main.c after parsing: SetParent, CalcDepth,
BuildSymbolTables, then analyze. -/
def run_passes (t : ITree) : M (Store × List String) := do
  let s := load t
  let s ← spVisit t s
  let s ← cdVisit t s
  let (s, _) ← bVisit t s none
  analyze t s

/-- The error list of a full pipeline run. -/
def pipelineErrors (t : ITree) : M (List String) :=
  match run_passes t with
  | .error e => .error e
  | .ok (_, errs) => .ok errs


/-- The inferred type attribute an expression node carries after the full
pipeline. -/
def pipelineTypeOf (t : ITree) (nid : Nat) : M DecafType :=
  match run_passes t with
  | .error e => .error e
  | .ok (s, _) => .ok (getInferredType s nid)

/-- The argument entries of a FuncCall node reachable from its argument list
head pointer. -/
def argsReachable (s : Store) (nid : Nat) : List Nat :=
  match (alookup s.nodes nid).bind (fun nd => nd.arguments) with
  | some a => a.ids.drop a.head
  | none => []

/-- Running the two structural decorators, SetParent then CalcDepth (as the
driver does before building symbol tables). -/
def decorate (t : ITree) (s : Store) : M Store := do
  let s ← spVisit t s
  cdVisit t s

/-! Concrete input programs used to settle the claims.  Ids are assigned in
preorder, so they are distinct and every child id exceeds its parent id. -/

/-- def int main() { continue; return 0; } -/
def treeContinueOutside : ITree :=
  .program 0 1 []
    [ .funcdecl 1 1 "main" .INT []
        (.block 2 1 []
          [ .continuestmt 3 1,
            .funcreturn 4 1 (some (.literal 5 1 .INT)) ]) ]

/-- int a; bool b; int a; def int main() { return 0; } -/
def treeDupGlobalA : ITree :=
  .program 0 1
    [ .vardecl 1 1 "a" .INT false 1,
      .vardecl 2 1 "b" .BOOL false 1,
      .vardecl 3 1 "a" .INT false 1 ]
    [ .funcdecl 4 2 "main" .INT []
        (.block 5 2 []
          [ .funcreturn 6 2 (some (.literal 7 2 .INT)) ]) ]

/-- int x; int x; def int main() { return 0; } -/
def treeDupGlobalX : ITree :=
  .program 0 1
    [ .vardecl 1 1 "x" .INT false 1,
      .vardecl 2 1 "x" .INT false 1 ]
    [ .funcdecl 3 2 "main" .INT []
        (.block 4 2 []
          [ .funcreturn 5 2 (some (.literal 6 2 .INT)) ]) ]

/-- def int main() { while (true) { while (true) { } break; } return 0; }
The break is lexically inside the outer while loop. -/
def treeNestedLoopBreak : ITree :=
  .program 0 1 []
    [ .funcdecl 1 1 "main" .INT []
        (.block 2 1 []
          [ .whileloop 3 2 (.literal 4 2 .BOOL)
              (.block 5 2 []
                [ .whileloop 6 3 (.literal 7 3 .BOOL) (.block 8 3 [] []),
                  .breakstmt 9 4 ]),
            .funcreturn 10 5 (some (.literal 11 5 .INT)) ]) ]

/-- def int foo() { } def int foo() { }  (no main, duplicate function name) -/
def treeNoMainDupFoo : ITree :=
  .program 0 1 []
    [ .funcdecl 1 1 "foo" .INT [] (.block 2 1 [] []),
      .funcdecl 3 2 "foo" .INT [] (.block 4 2 [] []) ]

/-- def void foo() { } def void g() { return foo; } def int main() { foo(); return 0; } -/
def treeVoidCall : ITree :=
  .program 0 1 []
    [ .funcdecl 1 1 "foo" .VOID [] (.block 2 1 [] []),
      .funcdecl 3 2 "g" .VOID []
        (.block 4 2 []
          [ .funcreturn 5 2 (some (.location 6 2 "foo" none)) ]),
      .funcdecl 7 3 "main" .INT []
        (.block 8 3 []
          [ .funccall 9 3 "foo" [],
            .funcreturn 10 3 (some (.literal 11 3 .INT)) ]) ]

/-- int a;  (one global variable; enough for the decorator passes) -/
def treeOneGlobal : ITree :=
  .program 0 1 [ .vardecl 1 1 "a" .INT false 1 ] []

/-- def int main() { print_int(5); return 0; } -/
def treePrintCall : ITree :=
  .program 0 1 []
    [ .funcdecl 1 1 "main" .INT []
        (.block 2 1 []
          [ .funccall 3 1 "print_int" [ .literal 4 1 .INT ],
            .funcreturn 5 1 (some (.literal 6 1 .INT)) ]) ]

/-- def int main() { return 0; }  (the smallest valid program) -/
def treeTrivialMain : ITree :=
  .program 0 1 []
    [ .funcdecl 1 1 "main" .INT []
        (.block 2 1 []
          [ .funcreturn 3 1 (some (.literal 4 1 .INT)) ]) ]


/-- def void foo(int a, bool b) { }
    def int main() { foo(1, 1); foo(true, true); return 0; }
The first, ill-typed call returns early from the argument walk without
restoring the parameter list head it has advanced. -/
def treeParamCorrupt : ITree :=
  .program 0 1 []
    [ .funcdecl 1 1 "foo" .VOID
        [ { name := "a", type := .INT }, { name := "b", type := .BOOL } ]
        (.block 2 1 [] []),
      .funcdecl 3 2 "main" .INT []
        (.block 4 2 []
          [ .funccall 5 2 "foo" [ .literal 6 2 .INT, .literal 7 2 .INT ],
            .funccall 8 3 "foo" [ .literal 9 3 .BOOL, .literal 10 3 .BOOL ],
            .funcreturn 11 4 (some (.literal 12 4 .INT)) ]) ]

/-- Run SetParent followed by CalcDepth twice in succession. -/
def decorateTwice (t : ITree) : M Store :=
  match decorate t (load t) with
  | .error e => .error e
  | .ok s => decorate t s

/-- Number of symbols of a local list carrying a given name (the quantity the
inner loop of find_ducplicat_helper counts). -/
def cntName (l : List Symbol) (name : String) : Nat :=
  l.countP (fun s2 => s2.name == name)

/-! Preorder list of the heap addresses of a tree. -/
mutual

def idsOf : ITree → List Nat
  | .program nid _ vs fs => nid :: (idsOfList vs ++ idsOfList fs)
  | .vardecl nid _ _ _ _ _ => [nid]
  | .funcdecl nid _ _ _ _ body => nid :: idsOf body
  | .block nid _ vs stmts => nid :: (idsOfList vs ++ idsOfList stmts)
  | .assignment nid _ loc val => nid :: (idsOf loc ++ idsOf val)
  | .conditional nid _ cond if_block (some else_block) =>
      nid :: (idsOf cond ++ idsOf if_block ++ idsOf else_block)
  | .conditional nid _ cond if_block none => nid :: (idsOf cond ++ idsOf if_block)
  | .whileloop nid _ cond body => nid :: (idsOf cond ++ idsOf body)
  | .funcreturn nid _ (some v) => nid :: idsOf v
  | .funcreturn nid _ none => [nid]
  | .breakstmt nid _ => [nid]
  | .continuestmt nid _ => [nid]
  | .binaryop nid _ _ left right => nid :: (idsOf left ++ idsOf right)
  | .unaryop nid _ _ child => nid :: idsOf child
  | .location nid _ _ (some index) => nid :: idsOf index
  | .location nid _ _ none => [nid]
  | .funccall nid _ _ args => nid :: idsOfList args
  | .literal nid _ _ => [nid]

def idsOfList : List ITree → List Nat
  | [] => []
  | t :: ts => idsOf t ++ idsOfList ts

end

/-- One of the three concrete value types. -/
def typeIn3 (t : DecafType) : Bool :=
  t == .INT || t == .BOOL || t == .STR

/-! The upstream (parser) contract of section 3 of the specification: literal
tags are concrete value types, declared variable and return types are not the
UNKNOWN sentinel, and formal parameters carry concrete value types. -/
mutual

def conformant : ITree → Bool
  | .program _ _ vs fs => conformantList vs && conformantList fs
  | .vardecl _ _ _ type _ _ => type != .UNKNOWN
  | .funcdecl _ _ _ return_type parameters body =>
      return_type != .UNKNOWN && parameters.all (fun p => typeIn3 p.type) &&
        conformant body
  | .block _ _ vs stmts => conformantList vs && conformantList stmts
  | .assignment _ _ loc val => conformant loc && conformant val
  | .conditional _ _ cond if_block (some else_block) =>
      conformant cond && conformant if_block && conformant else_block
  | .conditional _ _ cond if_block none => conformant cond && conformant if_block
  | .whileloop _ _ cond body => conformant cond && conformant body
  | .funcreturn _ _ (some v) => conformant v
  | .funcreturn _ _ none => true
  | .breakstmt _ _ => true
  | .continuestmt _ _ => true
  | .binaryop _ _ _ left right => conformant left && conformant right
  | .unaryop _ _ _ child => conformant child
  | .location _ _ _ (some index) => conformant index
  | .location _ _ _ none => true
  | .funccall _ _ _ args => conformantList args
  | .literal _ _ type => typeIn3 type

def conformantList : List ITree → Bool
  | [] => true
  | t :: ts => conformant t && conformantList ts

end

/-! The decoration property of the amended claim C2: every Literal, BinaryOp
and UnaryOp node carries an inferred type among Int, Bool, Str, and every
Location and FuncCall node carries an inferred type that is not the UNKNOWN
sentinel (it may be Void when the name resolves to a void function). -/
mutual

def exprTypedOK (s : Store) : ITree → Bool
  | .program _ _ vs fs => exprTypedOKList s vs && exprTypedOKList s fs
  | .vardecl _ _ _ _ _ _ => true
  | .funcdecl _ _ _ _ _ body => exprTypedOK s body
  | .block _ _ vs stmts => exprTypedOKList s vs && exprTypedOKList s stmts
  | .assignment _ _ loc val => exprTypedOK s loc && exprTypedOK s val
  | .conditional _ _ cond if_block (some else_block) =>
      exprTypedOK s cond && exprTypedOK s if_block && exprTypedOK s else_block
  | .conditional _ _ cond if_block none => exprTypedOK s cond && exprTypedOK s if_block
  | .whileloop _ _ cond body => exprTypedOK s cond && exprTypedOK s body
  | .funcreturn _ _ (some v) => exprTypedOK s v
  | .funcreturn _ _ none => true
  | .breakstmt _ _ => true
  | .continuestmt _ _ => true
  | .binaryop nid _ _ left right =>
      typeIn3 (getInferredType s nid) && exprTypedOK s left && exprTypedOK s right
  | .unaryop nid _ _ child => typeIn3 (getInferredType s nid) && exprTypedOK s child
  | .location nid _ _ (some index) =>
      (getInferredType s nid != .UNKNOWN) && exprTypedOK s index
  | .location nid _ _ none => getInferredType s nid != .UNKNOWN
  | .funccall nid _ _ args =>
      (getInferredType s nid != .UNKNOWN) && exprTypedOKList s args
  | .literal nid _ _ => typeIn3 (getInferredType s nid)

def exprTypedOKList (s : Store) : List ITree → Bool
  | [] => true
  | t :: ts => exprTypedOK s t && exprTypedOKList s ts

end

/-- Every symbol stored in any table of the heap has a type other than the
UNKNOWN sentinel. -/
def TypesInv (s : Store) : Prop :=
  ∀ p ∈ s.tables, ∀ sym ∈ p.snd.local_symbols, sym.type ≠ DecafType.UNKNOWN

/-- The operator-driven result type stated by claim C7: Bool for the logical,
equality and relational operators, Int for the arithmetic operators. -/
def claimBinopType : BinaryOpType → DecafType
  | .OROP | .ANDOP | .EQOP | .NEQOP => .BOOL
  | .LTOP | .LEOP | .GEOP | .GTOP => .BOOL
  | .ADDOP | .SUBOP | .MULOP | .DIVOP | .MODOP => .INT

/-- The operand rule stated by claim C7: both Int for comparisons and
arithmetic, equal types for the equality operators, both Bool for the logical
operators. -/
def claimBinopRule (op : BinaryOpType) (l r : DecafType) : Bool :=
  match op with
  | .OROP | .ANDOP => l == .BOOL && r == .BOOL
  | .EQOP | .NEQOP => l == r
  | .LTOP | .LEOP | .GEOP | .GTOP => l == .INT && r == .INT
  | .ADDOP | .SUBOP | .MULOP | .DIVOP | .MODOP => l == .INT && r == .INT

/-- The chain of scopes reachable from a table through parent pointers. -/
def tableChain (s : Store) : Nat → Nat → List (Nat × SymbolTable)
  | 0, _ => []
  | fuel + 1, tid =>
    match alookup s.tables tid with
    | none => []
    | some tbl =>
      (tid, tbl) ::
        (match tbl.parent with
         | some ptid => tableChain s fuel ptid
         | none => [])

/-- The specification-level description of symbol resolution along a scope
chain: the first table containing the name wins, and within it the first
matching symbol. -/
def chainLookup (name : String) : List (Nat × SymbolTable) → Option (Nat × Nat)
  | [] => none
  | (tid, tbl) :: rest =>
    match tbl.local_symbols.findIdx? (fun sym => sym.name == name) with
    | some i => some (tid, i)
    | none => chainLookup name rest

/-- A one-node heap (a single AST node with no attributes), used to
instantiate callback-level theorems. -/
def oneNodeStore : Store :=
  { nodes := [(0, { attributes := [], arguments := none })], tables := [], next_table := 0 }

/-- The heap after writing the type attribute INT on the node of
oneNodeStore. -/
def oneNodeStoreInt : Store :=
  { nodes := [(0, { attributes := [{ key := "type", value := .aType .INT, dtorIsNull := false }],
                    arguments := none })],
    tables := [], next_table := 0 }

/-- A two-scope heap: a global scope (table 0) declaring a as an int and an
inner scope (table 1, child of table 0) declaring a as a bool; used to
instantiate the shadowing theorem. -/
def twoScopeStore : Store :=
  { nodes :=
      [ (0, { attributes := [{ key := "symbolTable", value := .aTable 0, dtorIsNull := false }],
              arguments := none }),
        (1, { attributes :=
                [ { key := "symbolTable", value := .aTable 1, dtorIsNull := false },
                  { key := "parent", value := .aNode 0, dtorIsNull := true } ],
              arguments := none }),
        (2, { attributes := [{ key := "parent", value := .aNode 1, dtorIsNull := true }],
              arguments := none }) ],
    tables :=
      [ (0, { local_symbols := [Symbol_new "a" .INT, Symbol_new "b" .STR], parent := none }),
        (1, { local_symbols := [Symbol_new "a" .BOOL], parent := some 0 }) ],
    next_table := 2 }


/-- Does the scope attached to a node contain a name declared more than
once? -/
def scopeHasDup (s : Store) (nid : Nat) : Bool :=
  match getAttr s nid "symbolTable" with
  | some (.aTable tid) =>
    match alookup s.tables tid with
    | some tbl => tbl.local_symbols.any (fun s1 => decide (2 ≤ cntName tbl.local_symbols s1.name))
    | none => false
  | _ => false

/-!
Theorems.  The claims C1..C10 of the specification are settled below; helper
lemmas are shared, while each claim has its own theorem (and witness or
counterexample where applicable).
-/

/-- C2 counterexample: on the valid program
def void foo() { } def void g() { return foo; } def int main() { foo(); return 0; }
analysis returns an empty diagnostic list, yet the FuncCall node (id 9) and
the Location node (id 6) both carry the inferred type Void, contradicting the
claim that every expression node carries one of Int, Bool, Str. -/
theorem claim2_counterexample :
    pipelineErrors treeVoidCall = .ok [] ∧
    pipelineTypeOf treeVoidCall 9 = .ok .VOID ∧
    pipelineTypeOf treeVoidCall 6 = .ok .VOID :=
  ⟨rfl, rfl, rfl⟩

/-- C3: the code is wrong on the claim's nested-loop case.  In the program
def int main() { while (true) { while (true) { } break; } return 0; }
the break is lexically enclosed in the outer while loop, yet the analyzer
emits the control-flow diagnostic, because the inner loop's post-visit cleared
the shared is_loop flag. -/
theorem claim3_theorem :
    pipelineErrors treeNestedLoopBreak = .ok [breakMsg] :=
  rfl

/-- C4 counterexample: on the program
int a; bool b; int a; def int main() { return 0; }
the duplicate name a does not produce exactly one appended diagnostic; the
duplicate check raises the longjmp fatal error, so analysis aborts with zero
appended diagnostics. -/
theorem claim4_counterexample :
    run_passes treeDupGlobalA = .error (.thrown (dupMsg "a")) :=
  rfl

/-- C5: the code is wrong about decorator idempotence.  On the program
int a;
one SetParent + CalcDepth run succeeds, but running the two passes a second
time calls the NULL destructor stored with the weak parent attribute (the
replace branch of ASTNode_set_printable_attribute calls the old destructor
unconditionally), a crash instead of identical decorations. -/
theorem claim5_theorem :
    (decorate treeOneGlobal (load treeOneGlobal)).isOk = true ∧
    decorateTwice treeOneGlobal =
      .error (.crash "called NULL destructor while replacing attribute parent") :=
  ⟨rfl, rfl⟩

/-- C6 counterexample: on the program
def int foo() { } def int foo() { }
(no main, duplicated function name foo) the pre-visit reports only the missing
main and never reaches the duplicate check, although the program scope does
contain a duplicated name - the four checks are an else-if chain, not
independent checks. -/
theorem claim6_counterexample :
    pipelineErrors treeNoMainDupFoo = .ok [noMainMsg] ∧
    (run_passes treeNoMainDupFoo).map (fun p => scopeHasDup p.fst 0) = .ok true :=
  ⟨rfl, rfl⟩

/-- C9 counterexample: on the parser-accepted program
int x; int x; def int main() { return 0; }
analyze does not return a diagnostic list: the duplicate check exits through
the longjmp exception. -/
theorem claim9_counterexample :
    run_passes treeDupGlobalX = .error (.thrown (dupMsg "x")) :=
  rfl

/-- C9 (amended): analysis of any finite tree terminates; it either returns a
diagnostic list or aborts through the fatal-error exception or a crash.  The
formal content of termination is the totality of run_passes, a structurally
recursive function accepted by the kernel. -/
theorem claim9_theorem (t : ITree) :
    (∃ p, run_passes t = .ok p) ∨ (∃ e, run_passes t = .error e) := by
  cases h : run_passes t with
  | ok p => exact Or.inl ⟨p, rfl⟩
  | error e => exact Or.inr ⟨e, rfl⟩

/-- C10: the code is wrong about leaving the tree unchanged.  On the valid
program def int main() { print_int(5); return 0; } analysis succeeds with an
empty list, but the FuncCall node's argument list head has been advanced past
the single argument (nothing is reachable from it any more, where before the
run the literal node 4 was), while the print_int parameter list head is
restored. -/
theorem claim10_theorem :
    (run_passes treePrintCall).map (fun p => (p.snd, argsReachable p.fst 3)) =
      .ok ([], []) ∧
    argsReachable (load treePrintCall) 3 = [4] ∧
    (run_passes treePrintCall).map
        (fun p => (lookupSymbolData p.fst 3 "print_int").map Symbol.paramsHead) =
      .ok (some 0) :=
  ⟨rfl, rfl, rfl⟩

/-- C1 counterexample: on the program def int main() { continue; return 0; }
the continue-outside-loop check does not append and continue; the analysis
exits through the longjmp exception of Error_throw_printf. -/
theorem claim1_counterexample :
    run_passes treeContinueOutside = .error (.thrown contMsg) :=
  rfl


/-- The inner counting loop throws exactly when it sees a match that brings
the running count above one: there is at least one match and the starting
count plus the number of matches reaches two. -/
lemma dupInnerScan_eq (name : String) (l : List Symbol) (c : Nat) :
    dupInnerScan name l c =
      if 1 ≤ cntName l name ∧ 2 ≤ c + cntName l name
      then .error (.thrown (dupMsg name)) else .ok () := by
  induction l generalizing c with
  | nil => simp [dupInnerScan, cntName]
  | cons s2 rest ih =>
    by_cases h : (s2.name == name) = true
    · have hcnt : cntName (s2 :: rest) name = cntName rest name + 1 := by
        simp [cntName, List.countP_cons, h]
      by_cases hc : c + 1 > 1
      · rw [show dupInnerScan name (s2 :: rest) c = .error (.thrown (dupMsg name)) by
          simp [dupInnerScan, h, hc]]
        rw [if_pos]
        rw [hcnt]
        omega
      · have hc0 : c = 0 := by omega
        subst hc0
        rw [show dupInnerScan name (s2 :: rest) 0 = dupInnerScan name rest 1 by
          simp [dupInnerScan, h, hc]]
        rw [ih 1, hcnt]
        by_cases hr : 1 ≤ cntName rest name
        · rw [if_pos (by omega), if_pos (by omega)]
        · rw [if_neg (by omega), if_neg (by omega)]
    · have hcnt : cntName (s2 :: rest) name = cntName rest name := by
        simp [cntName, List.countP_cons, h]
      rw [show dupInnerScan name (s2 :: rest) c = dupInnerScan name rest c by
        simp [dupInnerScan, h]]
      rw [ih c, hcnt]

/-- The outer loop of the duplicate check raises the fatal error naming the
first symbol (in declaration order) whose name occurs at least twice in the
scanned list, and succeeds silently when there is none. -/
lemma dupOuterScan_eq (all : List Symbol) (l : List Symbol) :
    dupOuterScan all l =
      match l.find? (fun s1 => decide (2 ≤ cntName all s1.name)) with
      | some s1 => .error (.thrown (dupMsg s1.name))
      | none => .ok () := by
  induction l with
  | nil => simp [dupOuterScan]
  | cons s1 rest ih =>
    have hinner := dupInnerScan_eq s1.name all 0
    by_cases h : 2 ≤ cntName all s1.name
    · have : dupInnerScan s1.name all 0 = .error (.thrown (dupMsg s1.name)) := by
        rw [hinner, if_pos ⟨by omega, by omega⟩]
      simp [dupOuterScan, this, List.find?, h]
    · have : dupInnerScan s1.name all 0 = .ok () := by
        rw [hinner, if_neg (by omega)]
      simp [dupOuterScan, this, List.find?, h, ih]

/-- C4 (amended): the duplicate check never appends a diagnostic.  Its double
loop raises the fatal longjmp error naming the first symbol (in declaration
order) whose name occurs at least twice, so no further name is examined, and
it succeeds silently on a duplicate-free scope; find_ducplicat_helper applies
exactly this scan to the local symbols of the node's attached scope. -/
theorem claim4_theorem :
    (∀ syms : List Symbol,
      dupOuterScan syms syms =
        match syms.find? (fun s1 => decide (2 ≤ cntName syms s1.name)) with
        | some s1 => .error (.thrown (dupMsg s1.name))
        | none => .ok ()) ∧
    (∀ (s : Store) (nid tid : Nat) (tbl : SymbolTable),
      getAttr s nid "symbolTable" = some (.aTable tid) →
      alookup s.tables tid = some tbl →
      find_ducplicat_helper s nid =
        dupOuterScan tbl.local_symbols tbl.local_symbols) := by
  constructor
  · exact fun syms => dupOuterScan_eq syms syms
  · intro s nid tid tbl h1 h2
    simp [find_ducplicat_helper, h1, h2]

/-- C4 witness: the scan of the empty scope succeeds, and on the two-scope
heap the helper reduces to the scan of the global scope. -/
theorem claim4_witness :
    dupOuterScan [] [] =
      (match ([] : List Symbol).find?
          (fun s1 => decide (2 ≤ cntName [] s1.name)) with
        | some s1 => .error (.thrown (dupMsg s1.name))
        | none => .ok ()) ∧
    find_ducplicat_helper twoScopeStore 0 =
      dupOuterScan [Symbol_new "a" .INT, Symbol_new "b" .STR]
        [Symbol_new "a" .INT, Symbol_new "b" .STR] :=
  ⟨claim4_theorem.1 [],
   claim4_theorem.2 twoScopeStore 0 0
     { local_symbols := [Symbol_new "a" .INT, Symbol_new "b" .STR], parent := none }
     rfl rfl⟩


/-- Unfolding lemma: dereference of a cons cell. -/
lemma alookup_cons {α : Type} (p : Nat × α) (rest : List (Nat × α)) (k : Nat) :
    alookup (p :: rest) k = if p.fst == k then some p.snd else alookup rest k := by
  by_cases h : (p.fst == k) = true <;> simp [alookup, List.find?, h]

/-- Unfolding lemma: update of a cons cell. -/
lemma aupdate_cons {α : Type} (p : Nat × α) (rest : List (Nat × α)) (k : Nat) (f : α → α) :
    aupdate (p :: rest) k f =
      (if p.fst == k then (p.fst, f p.snd) else p) :: aupdate rest k f :=
  rfl

/-- Dereferencing an unrelated key of an updated association list. -/
lemma alookup_aupdate_ne {α : Type} (l : List (Nat × α)) (k : Nat) (f : α → α)
    (m : Nat) (h : m ≠ k) : alookup (aupdate l k f) m = alookup l m := by
  induction l with
  | nil => rfl
  | cons p rest ih =>
    rw [aupdate_cons, alookup_cons, alookup_cons]
    by_cases hpk : (p.fst == k) = true
    · have hk : p.fst = k := by simpa using hpk
      have hm : (p.fst == m) = false := by
        simp [hk]
        omega
      rw [if_pos hpk]
      simp [hm, ih]
    · rw [if_neg hpk]
      by_cases hpm : (p.fst == m) = true
      · simp [hpm]
      · simp [hpm, ih]

/-- Dereferencing the updated key of an updated association list. -/
lemma alookup_aupdate_self {α : Type} (l : List (Nat × α)) (k : Nat) (f : α → α) :
    alookup (aupdate l k f) k = (alookup l k).map f := by
  induction l with
  | nil => rfl
  | cons p rest ih =>
    rw [aupdate_cons, alookup_cons, alookup_cons]
    by_cases hpk : (p.fst == k) = true
    · rw [if_pos hpk]
      simp [hpk, ih]
    · rw [if_neg hpk]
      simp [hpk, ih]


/-- Unfolding lemma: find? over a cons of attribute entries. -/
lemma find?_attr_cons (a : AttributeEntry) (l : List AttributeEntry)
    (p : AttributeEntry → Bool) :
    (a :: l).find? p = if p a then some a else l.find? p := by
  by_cases h : p a = true <;> simp [List.find?, h]

/-- Unfolding lemma: replaceAttr on a cons whose head carries the key. -/
lemma replaceAttr_cons_pos {a : AttributeEntry} {key : String}
    (v : AttrValue) (dn : Bool) (rest : List AttributeEntry)
    (h : (a.key == key) = true) :
    replaceAttr key v dn (a :: rest) =
      { key := a.key, value := v, dtorIsNull := dn } :: rest := by
  simp [replaceAttr, h]

/-- Unfolding lemma: replaceAttr on a cons whose head carries another key. -/
lemma replaceAttr_cons_neg {a : AttributeEntry} {key : String}
    (v : AttrValue) (dn : Bool) (rest : List AttributeEntry)
    (h : ¬(a.key == key) = true) :
    replaceAttr key v dn (a :: rest) = a :: replaceAttr key v dn rest := by
  simp [replaceAttr, h]

/-- Replacing a key rewrites the first entry found under that key. -/
lemma replaceAttr_find?_self (key : String) (v : AttrValue) (dn : Bool) :
    ∀ (l : List AttributeEntry) (a0 : AttributeEntry),
      l.find? (fun a => a.key == key) = some a0 →
      (replaceAttr key v dn l).find? (fun a => a.key == key) =
        some { key := a0.key, value := v, dtorIsNull := dn } := by
  intro l
  induction l with
  | nil => intro a0 h; simp [List.find?] at h
  | cons a rest ih =>
    intro a0 h
    rw [find?_attr_cons] at h
    by_cases hk : (a.key == key) = true
    · rw [if_pos hk] at h
      cases h
      rw [replaceAttr_cons_pos v dn rest hk, find?_attr_cons, if_pos hk]
    · rw [if_neg hk] at h
      rw [replaceAttr_cons_neg v dn rest hk, find?_attr_cons, if_neg hk]
      exact ih a0 h

/-- Replacing one key leaves lookups of every other key unchanged. -/
lemma replaceAttr_find?_other (key : String) (v : AttrValue) (dn : Bool)
    (k : String) (hk : k ≠ key) :
    ∀ l : List AttributeEntry,
      (replaceAttr key v dn l).find? (fun a => a.key == k) =
        l.find? (fun a => a.key == k) := by
  intro l
  induction l with
  | nil => rfl
  | cons a rest ih =>
    by_cases ha : (a.key == key) = true
    · have hak : a.key = key := by simpa using ha
      have h2 : (a.key == k) = false := by
        simp [hak]
        exact fun hh => hk hh.symm
      rw [replaceAttr_cons_pos v dn rest ha, find?_attr_cons, find?_attr_cons]
      simp [h2, ih]
    · rw [replaceAttr_cons_neg v dn rest ha, find?_attr_cons, find?_attr_cons]
      by_cases hb : (a.key == k) = true
      · simp [hb]
      · simp [hb, ih]

/-- The master lemma about a successful attribute write: the written key now
holds the new value, every other key of the node and every other node are
unchanged, and the tables and the allocator are untouched. -/
lemma setAttr_ok {s : Store} {nid : Nat} {key : String} {v : AttrValue}
    {dn : Bool} {s2 : Store}
    (h : ASTNode_set_printable_attribute s nid key v dn = .ok s2) :
    getAttr s2 nid key = some v ∧
    (∀ k, k ≠ key → getAttr s2 nid k = getAttr s nid k) ∧
    (∀ m, m ≠ nid → alookup s2.nodes m = alookup s.nodes m) ∧
    s2.tables = s.tables ∧ s2.next_table = s.next_table := by
  unfold ASTNode_set_printable_attribute at h
  cases hnd : alookup s.nodes nid with
  | none => rw [hnd] at h; exact absurd h (by simp)
  | some nd =>
    rw [hnd] at h
    simp only [] at h
    have hkk0 : ∀ k : String, k ≠ key → (key == k) = false := by
      intro k hkk
      simp
      exact fun hh => hkk hh.symm
    by_cases hemp : nd.attributes.isEmpty = true
    · rw [if_pos hemp] at h
      cases h
      have hempty : nd.attributes = [] := by
        cases hattr : nd.attributes with
        | nil => rfl
        | cons a rest => rw [hattr] at hemp; simp [List.isEmpty] at hemp
      refine ⟨?_, ?_, ?_, rfl, rfl⟩
      · simp only [getAttr, alookup_aupdate_self, hnd]
        simp [find?_attr_cons, List.find?]
      · intro k hkk
        simp only [getAttr, alookup_aupdate_self, hnd]
        simp [find?_attr_cons, List.find?, hkk0 k hkk, hempty]
      · intro m hm
        dsimp only
        exact alookup_aupdate_ne s.nodes nid _ m hm
    · rw [if_neg hemp] at h
      cases hfind : nd.attributes.find? (fun a => a.key == key) with
      | some old =>
        rw [hfind] at h
        simp only [] at h
        by_cases hdn : old.dtorIsNull = true
        · rw [if_pos hdn] at h; exact absurd h (by simp)
        · rw [if_neg hdn] at h
          cases h
          refine ⟨?_, ?_, ?_, rfl, rfl⟩
          · simp only [getAttr, alookup_aupdate_self, hnd]
            simp [replaceAttr_find?_self key v dn nd.attributes old hfind]
          · intro k hkk
            simp only [getAttr, alookup_aupdate_self, hnd]
            simp [replaceAttr_find?_other key v dn k hkk nd.attributes]
          · intro m hm
            dsimp only
            exact alookup_aupdate_ne s.nodes nid _ m hm
      | none =>
        rw [hfind] at h
        simp only [] at h
        cases h
        refine ⟨?_, ?_, ?_, rfl, rfl⟩
        · simp only [getAttr, alookup_aupdate_self, hnd]
          simp [find?_attr_cons]
        · intro k hkk
          simp only [getAttr, alookup_aupdate_self, hnd]
          simp [find?_attr_cons, hkk0 k hkk]
        · intro m hm
          dsimp only
          exact alookup_aupdate_ne s.nodes nid _ m hm

/-- A successful setInferredType makes getInferredType read back the written
type. -/
lemma setInferredType_get {s : Store} {nid : Nat} {t : DecafType} {s2 : Store}
    (h : setInferredType s nid t = .ok s2) :
    getInferredType s2 nid = t := by
  have := (setAttr_ok h).1
  simp [getInferredType, this]


/-- C7: the BinaryOp pre-visit writes the inferred type attribute, driven only
by the operator according to the claim's table (Bool for the logical,
equality and relational operators, Int for the arithmetic ones), so the type
is present before the operands are even examined; a successful write is read
back by getInferredType; and the post-visit appends the operand diagnostic
exactly when the claim's operand rule for that operator is violated,
returning the store unchanged. -/
theorem claim7_theorem :
    (∀ (s : Store) (d : AnalysisData) (nid : Nat) (op : BinaryOpType),
      Analysis_previsit_binop s d nid op =
        match setInferredType s nid (claimBinopType op) with
        | .error e => .error e
        | .ok s2 => .ok (s2, d)) ∧
    (∀ (s s2 : Store) (nid : Nat) (t : DecafType),
      setInferredType s nid t = .ok s2 → getInferredType s2 nid = t) ∧
    (∀ (s : Store) (d : AnalysisData) (op : BinaryOpType) (lId rId line : Nat),
      Analysis_postvisit_binop s d op lId rId line =
        .ok (s, if claimBinopRule op (getInferredType s lId) (getInferredType s rId)
                then d
                else ErrorList_printf d
                  (binopMsg op (getInferredType s lId) (getInferredType s rId) line))) := by
  refine ⟨?_, ?_, ?_⟩
  · intro s d nid op
    cases op <;> rfl
  · intro s s2 nid t h
    exact setInferredType_get h
  · intro s d op lId rId line
    simp only [Analysis_postvisit_binop]
    cases hlt : getInferredType s lId <;> cases hrt : getInferredType s rId <;>
      cases op <;> rfl

/-- C7 witness: writing the arithmetic result type on the one-node heap is
read back as Int. -/
theorem claim7_witness : getInferredType oneNodeStoreInt 0 = .INT :=
  claim7_theorem.2.1 oneNodeStore oneNodeStoreInt 0 .INT rfl


/-- C6 (amended): the Program pre-visit is an else-if chain.  A missing main
(or one that is not a function) yields exactly the missing-main diagnostic and
nothing else runs; a parameterful main yields exactly the parameter
diagnostic; only when main is a parameterless function does the duplicate
check run, and the pre-visit is then exactly that check.  The post-visit
checks the Int return type only when a main symbol exists. -/
theorem claim6_theorem :
    (∀ (s : Store) (d : AnalysisData) (nid : Nat),
      lookupSymbolData s nid "main" = none →
      Analysis_previsit_program s d nid = .ok (s, ErrorList_printf d noMainMsg)) ∧
    (∀ (s : Store) (d : AnalysisData) (nid : Nat) (sym : Symbol),
      lookupSymbolData s nid "main" = some sym →
      sym.symbol_type ≠ .FUNCTION_SYMBOL →
      Analysis_previsit_program s d nid = .ok (s, ErrorList_printf d noMainMsg)) ∧
    (∀ (s : Store) (d : AnalysisData) (nid : Nat) (sym : Symbol),
      lookupSymbolData s nid "main" = some sym →
      sym.symbol_type = .FUNCTION_SYMBOL → sym.parameters ≠ [] →
      Analysis_previsit_program s d nid = .ok (s, ErrorList_printf d mainParamsMsg)) ∧
    (∀ (s : Store) (d : AnalysisData) (nid : Nat) (sym : Symbol),
      lookupSymbolData s nid "main" = some sym →
      sym.symbol_type = .FUNCTION_SYMBOL → sym.parameters = [] →
      Analysis_previsit_program s d nid =
        match find_ducplicat_helper s nid with
        | .error e => .error e
        | .ok _ => .ok (s, d)) ∧
    (∀ (s : Store) (d : AnalysisData) (nid : Nat),
      lookupSymbolData s nid "main" = none →
      Analysis_postvisit_program s d nid = .ok (s, d)) ∧
    (∀ (s : Store) (d : AnalysisData) (nid : Nat) (sym : Symbol),
      lookupSymbolData s nid "main" = some sym →
      Analysis_postvisit_program s d nid =
        .ok (s, if sym.type != .INT then ErrorList_printf d mainIntMsg else d)) := by
  refine ⟨?_, ?_, ?_, ?_, ?_, ?_⟩
  · intro s d nid h
    simp [Analysis_previsit_program, h]
  · intro s d nid sym h hne
    have : (sym.symbol_type != SymbolKind.FUNCTION_SYMBOL) = true := by
      simpa using hne
    simp [Analysis_previsit_program, h, this]
  · intro s d nid sym h hfn hp
    have h1 : (sym.symbol_type != SymbolKind.FUNCTION_SYMBOL) = false := by
      simp [hfn]
    have h2 : 0 < sym.parameters.length := List.length_pos.mpr hp
    simp [Analysis_previsit_program, h, h1, h2]
  · intro s d nid sym h hfn hp
    have h1 : (sym.symbol_type != SymbolKind.FUNCTION_SYMBOL) = false := by
      simp [hfn]
    simp [Analysis_previsit_program, h, h1, hp]
  · intro s d nid h
    simp [Analysis_postvisit_program, h]
  · intro s d nid sym h
    by_cases ht : (sym.type != DecafType.INT) = true
    · simp [Analysis_postvisit_program, h, ht]
    · simp only [Bool.not_eq_true] at ht
      simp [Analysis_postvisit_program, h, ht]

/-- C6 witness: on the one-node heap (no symbol table anywhere) the main
lookup fails and the pre-visit appends exactly the missing-main message. -/
theorem claim6_witness :
    Analysis_previsit_program oneNodeStore AnalysisData_new 0 =
      .ok (oneNodeStore, ErrorList_printf AnalysisData_new noMainMsg) :=
  claim6_theorem.1 oneNodeStore AnalysisData_new 0 rfl


/-- The recursive scope search equals the specification-level first-match
search along the materialized parent chain. -/
lemma SymbolTable_lookup_eq_chainLookup (s : Store) :
    ∀ (fuel tid : Nat) (name : String),
      SymbolTable_lookup s fuel tid name = chainLookup name (tableChain s fuel tid) := by
  intro fuel
  induction fuel with
  | zero => intro tid name; rfl
  | succ fuel ih =>
    intro tid name
    rw [SymbolTable_lookup, tableChain]
    cases htbl : alookup s.tables tid with
    | none => rfl
    | some tbl =>
      simp only []
      cases hidx : tbl.local_symbols.findIdx? (fun sym => sym.name == name) with
      | some i => simp [chainLookup, hidx]
      | none =>
        cases hpar : tbl.parent with
        | some ptid => simp [chainLookup, hidx, ih ptid name]
        | none => simp [chainLookup, hidx]

/-- C8: symbol resolution as claimed.  (i) The recursive table search is the
first-match search along the scope chain.  (ii) When the starting scope's
local list contains the name, the result is that scope's first matching
symbol - the parent scopes are never consulted, so an inner declaration
shadows an outer one; the returned index is a genuine front-to-back first
match.  (iii) When the local list misses, the search recurses into the parent
scope.  (iv) The resolver first walks parent attributes up to the nearest
node carrying a symbolTable attribute (stopping at the node itself when it
has one) and then searches that scope chain.  (v) A failed lookup appends the
undefined-symbol diagnostic; a successful one returns the first match with no
diagnostic. -/
theorem claim8_theorem :
    (∀ (s : Store) (fuel tid : Nat) (name : String),
      SymbolTable_lookup s fuel tid name = chainLookup name (tableChain s fuel tid)) ∧
    (∀ (s : Store) (fuel tid : Nat) (name : String) (tbl : SymbolTable) (i : Nat),
      alookup s.tables tid = some tbl →
      tbl.local_symbols.findIdx? (fun sym => sym.name == name) = some i →
      SymbolTable_lookup s (fuel + 1) tid name = some (tid, i) ∧
      ∃ hlen : i < tbl.local_symbols.length,
        ((tbl.local_symbols.get ⟨i, hlen⟩).name == name) = true ∧
        ∀ (j : Nat) (hj : j < tbl.local_symbols.length), j < i →
          ((tbl.local_symbols.get ⟨j, hj⟩).name == name) = false) ∧
    (∀ (s : Store) (fuel tid : Nat) (name : String) (tbl : SymbolTable),
      alookup s.tables tid = some tbl →
      tbl.local_symbols.findIdx? (fun sym => sym.name == name) = none →
      SymbolTable_lookup s (fuel + 1) tid name =
        (match tbl.parent with
         | some ptid => SymbolTable_lookup s fuel ptid name
         | none => none)) ∧
    (∀ (s : Store) (fuel nid : Nat) (nd : NodeData),
      alookup s.nodes nid = some nd →
      (nd.attributes.any (fun a => a.key == "symbolTable") = true →
        lookupSymbolWalk s (fuel + 1) nid = some nid) ∧
      (nd.attributes.any (fun a => a.key == "symbolTable") = false →
        lookupSymbolWalk s (fuel + 1) nid =
          (match getAttr s nid "parent" with
           | some (.aNode pid) => lookupSymbolWalk s fuel pid
           | _ => none))) ∧
    (∀ (s : Store) (nid : Nat) (name : String),
      lookup_symbol s nid name =
        (match lookupSymbolWalk s (nid + 1) nid with
         | none => none
         | some anc =>
           match getAttr s anc "symbolTable" with
           | some (.aTable tid) => SymbolTable_lookup s (tid + 1) tid name
           | _ => none)) ∧
    (∀ (s : Store) (errors : List String) (nid line : Nat) (name : String),
      (lookup_symbol s nid name = none →
        lookup_symbol_with_reporting s errors nid line name =
          (none, errors ++ [symbolUndefinedMsg name line])) ∧
      (∀ p, lookup_symbol s nid name = some p →
        lookup_symbol_with_reporting s errors nid line name = (some p, errors))) := by
  refine ⟨SymbolTable_lookup_eq_chainLookup, ?_, ?_, ?_, ?_, ?_⟩
  · intro s fuel tid name tbl i htbl hidx
    constructor
    · rw [SymbolTable_lookup, htbl]
      simp [hidx]
    · rcases List.findIdx?_eq_some_iff_getElem.mp hidx with ⟨hlen, hmatch, hbefore⟩
      refine ⟨hlen, ?_, ?_⟩
      · simpa using hmatch
      · intro j hj hji
        have := hbefore j hji
        simpa using this
  · intro s fuel tid name tbl htbl hidx
    rw [SymbolTable_lookup, htbl]
    simp [hidx]
  · intro s fuel nid nd hnd
    constructor
    · intro hany
      rw [lookupSymbolWalk, hnd]
      simp [hany]
    · intro hany
      rw [lookupSymbolWalk, hnd]
      simp [hany]
  · intro s nid name
    rfl
  · intro s errors nid line name
    constructor
    · intro h
      simp [lookup_symbol_with_reporting, h]
    · intro p h
      simp [lookup_symbol_with_reporting, h]

/-- C8 witness: on the two-scope heap, resolving a from the node inside the
inner scope yields the inner declaration (table 1, index 0), shadowing the
global one, and resolving an undefined name appends the diagnostic. -/
theorem claim8_witness :
    SymbolTable_lookup twoScopeStore 2 1 "a" =
      chainLookup "a" (tableChain twoScopeStore 2 1) ∧
    SymbolTable_lookup twoScopeStore 2 1 "a" = some (1, 0) ∧
    lookup_symbol_with_reporting twoScopeStore [] 2 7 "zz" =
      (none, [] ++ [symbolUndefinedMsg "zz" 7]) := by
  refine ⟨claim8_theorem.1 twoScopeStore 2 1 "a", ?_, ?_⟩
  · exact (claim8_theorem.2.1 twoScopeStore 1 1 "a"
      { local_symbols := [Symbol_new "a" .BOOL], parent := some 0 } 0 rfl rfl).1
  · exact (claim8_theorem.2.2.2.2.2 twoScopeStore [] 2 7 "zz").1 rfl


/-- C1 (amended): the final analyzer's checks append to the shared error list
and continue - with two exceptions and one crash path.  The conjuncts state:
the continue-outside-loop check exits through the longjmp exception instead
of appending (and does nothing inside a loop); the break-outside-loop check
appends and continues; the duplicate-name scan exits through the longjmp
exception whenever a duplicate exists and appends nothing otherwise; every
statement- and expression-level checking callback (assignment, conditional,
while, return, unary, binary, location) returns normally with the store
unchanged and the error list only extended; and the call-site argument walk
can crash by dereferencing a NULL parameter head after an earlier ill-typed
call left a parameter list head advanced. -/
theorem claim1_theorem :
    (∀ (s : Store) (d : AnalysisData), d.is_loop = false →
      Analysis_previsit_continue s d = .error (.thrown contMsg)) ∧
    (∀ (s : Store) (d : AnalysisData), d.is_loop = true →
      Analysis_previsit_continue s d = .ok (s, d)) ∧
    (∀ (s : Store) (d : AnalysisData),
      Analysis_previsit_break s d =
        .ok (s, if d.is_loop then d else ErrorList_printf d breakMsg)) ∧
    (∀ syms : List Symbol,
      (∃ s1 ∈ syms, 2 ≤ cntName syms s1.name) →
      ∃ n, dupOuterScan syms syms = .error (.thrown (dupMsg n))) ∧
    (∀ syms : List Symbol,
      (∀ s1 ∈ syms, cntName syms s1.name < 2) →
      dupOuterScan syms syms = .ok ()) ∧
    (∀ (s : Store) (d : AnalysisData) (l v : Nat), ∃ d2,
      Analysis_postvisit_assignment s d l v = .ok (s, d2) ∧ d.errors <+: d2.errors) ∧
    (∀ (s : Store) (d : AnalysisData) (c line : Nat), ∃ d2,
      Analysis_postvisit_conditional s d c line = .ok (s, d2) ∧ d.errors <+: d2.errors) ∧
    (∀ (s : Store) (d : AnalysisData) (c line : Nat), ∃ d2,
      Analysis_postvisit_while_loop s d c line = .ok (s, d2) ∧ d.errors <+: d2.errors) ∧
    (∀ (s : Store) (d : AnalysisData) (nid : Nat) (value : Option ITree) (line : Nat), ∃ d2,
      Analysis_postvisit_return s d nid value line = .ok (s, d2) ∧ d.errors <+: d2.errors) ∧
    (∀ (s : Store) (d : AnalysisData) (nid c line : Nat), ∃ d2,
      Analysis_postvisit_unop s d nid c line = .ok (s, d2) ∧ d.errors <+: d2.errors) ∧
    (∀ (s : Store) (d : AnalysisData) (op : BinaryOpType) (l r line : Nat), ∃ d2,
      Analysis_postvisit_binop s d op l r line = .ok (s, d2) ∧ d.errors <+: d2.errors) ∧
    (∀ (s : Store) (d : AnalysisData) (nid line : Nat) (name : String) (index : Option Nat), ∃ d2,
      Analysis_postvisit_location s d nid line name index = .ok (s, d2) ∧ d.errors <+: d2.errors) ∧
    run_passes treeParamCorrupt = .error (.crash "NULL parameter head dereferenced") := by
  refine ⟨?_, ?_, ?_, ?_, ?_, ?_, ?_, ?_, ?_, ?_, ?_, ?_, rfl⟩
  · intro s d h
    simp [Analysis_previsit_continue, h]
  · intro s d h
    simp [Analysis_previsit_continue, h]
  · intro s d
    by_cases h : d.is_loop = true <;> simp [Analysis_previsit_break, h]
  · intro syms h
    rcases h with ⟨s1, hmem, hcnt⟩
    have hfind : (syms.find? (fun s1 => decide (2 ≤ cntName syms s1.name))).isSome := by
      rw [List.find?_isSome]
      exact ⟨s1, hmem, by simpa using hcnt⟩
    cases hf : syms.find? (fun s1 => decide (2 ≤ cntName syms s1.name)) with
    | none => rw [hf] at hfind; simp at hfind
    | some s2 =>
      refine ⟨s2.name, ?_⟩
      rw [dupOuterScan_eq, hf]
  · intro syms h
    have hf : syms.find? (fun s1 => decide (2 ≤ cntName syms s1.name)) = none := by
      rw [List.find?_eq_none]
      intro x hx
      simpa using Nat.not_le.mpr (h x hx)
    rw [dupOuterScan_eq, hf]
  · intro s d l v
    by_cases h : (getInferredType s l != getInferredType s v) = true
    · exact ⟨ErrorList_printf d (assignMsg (getInferredType s l) (getInferredType s v)),
        by simp [Analysis_postvisit_assignment, h], List.prefix_append _ _⟩
    · exact ⟨d, by simp [Analysis_postvisit_assignment, h], List.prefix_refl _⟩
  · intro s d c line
    by_cases h : (getInferredType s c != DecafType.BOOL) = true
    · exact ⟨ErrorList_printf d (condMsg (getInferredType s c) line),
        by simp [Analysis_postvisit_conditional, h], List.prefix_append _ _⟩
    · exact ⟨d, by simp [Analysis_postvisit_conditional, h], List.prefix_refl _⟩
  · intro s d c line
    by_cases h : (getInferredType s c != DecafType.BOOL) = true
    · exact ⟨ErrorList_printf { d with is_loop := false } (condMsg (getInferredType s c) line),
        by simp [Analysis_postvisit_while_loop, h], by simp [ErrorList_printf]⟩
    · exact ⟨{ d with is_loop := false },
        by simp [Analysis_postvisit_while_loop, h], List.prefix_refl _⟩
  · intro s d nid value line
    cases value with
    | none => exact ⟨d, rfl, List.prefix_refl _⟩
    | some v =>
      unfold Analysis_postvisit_return
      by_cases hloc : (match v with
          | .location _ _ vname _ => (lookup_symbol s nid vname).isNone
          | _ => false) = true
      · exact ⟨d, by simp [hloc], List.prefix_refl _⟩
      · by_cases hinf : (getInferredType s v.nodeId != DecafType.UNKNOWN) = true
        · by_cases hret : (d.funcdecl_return_type != getInferredType s v.nodeId) = true
          · exact ⟨ErrorList_printf d
                (returnMsg d.funcdecl_return_type (getInferredType s v.nodeId) line),
              by simp [hloc, hinf, hret], List.prefix_append _ _⟩
          · exact ⟨d, by simp [hloc, hinf, hret], List.prefix_refl _⟩
        · exact ⟨d, by simp [hloc, hinf], List.prefix_refl _⟩
  · intro s d nid c line
    by_cases h : (getInferredType s c != getInferredType s nid) = true
    · exact ⟨ErrorList_printf d (unopMsg (getInferredType s nid) (getInferredType s c) line),
        by simp [Analysis_postvisit_unop, h], List.prefix_append _ _⟩
    · exact ⟨d, by simp [Analysis_postvisit_unop, h], List.prefix_refl _⟩
  · intro s d op l r line
    unfold Analysis_postvisit_binop
    by_cases h1 : (3 < op.toNat && op.toNat < 13) = true
    · by_cases h2 : (getInferredType s l != DecafType.INT || getInferredType s r != DecafType.INT) = true
      · exact ⟨ErrorList_printf d (binopMsg op (getInferredType s l) (getInferredType s r) line),
          by simp [h1, h2], List.prefix_append _ _⟩
      · exact ⟨d, by simp [h1, h2], List.prefix_refl _⟩
    · by_cases h3 : (op.toNat == 2 || op.toNat == 3) = true
      · by_cases h4 : (getInferredType s l != getInferredType s r) = true
        · exact ⟨ErrorList_printf d (binopMsg op (getInferredType s l) (getInferredType s r) line),
            by simp [h1, h3, h4], List.prefix_append _ _⟩
        · exact ⟨d, by simp [h1, h3, h4], List.prefix_refl _⟩
      · by_cases h5 : (op.toNat == 0 || op.toNat == 1) = true
        · by_cases h6 : (getInferredType s l != DecafType.BOOL || getInferredType s r != DecafType.BOOL) = true
          · exact ⟨ErrorList_printf d (binopMsg op (getInferredType s l) (getInferredType s r) line),
              by simp [h1, h3, h5, h6], List.prefix_append _ _⟩
          · exact ⟨d, by simp [h1, h3, h5, h6], List.prefix_refl _⟩
        · exact ⟨d, by simp [h1, h3, h5], List.prefix_refl _⟩
  · intro s d nid line name index
    unfold Analysis_postvisit_location
    cases hsym : lookupSymbolData s nid name with
    | none => exact ⟨d, rfl, List.prefix_refl _⟩
    | some sym =>
      cases index with
      | none =>
        by_cases h : (sym.symbol_type == SymbolKind.ARRAY_SYMBOL) = true
        · exact ⟨ErrorList_printf d (arrayIndexMsg line), by simp [h], List.prefix_append _ _⟩
        · exact ⟨d, by simp [h], List.prefix_refl _⟩
      | some ix =>
        by_cases h : (sym.symbol_type == SymbolKind.ARRAY_SYMBOL &&
            getInferredType s ix != DecafType.INT) = true
        · exact ⟨ErrorList_printf d (arrayIndexIntMsg line), by simp [h], List.prefix_append _ _⟩
        · exact ⟨d, by simp [h], List.prefix_refl _⟩

/-- C1 witness: inside a loop the continue check does nothing, and on the
two-symbol duplicate-free global scope the duplicate scan succeeds. -/
theorem claim1_witness :
    Analysis_previsit_continue oneNodeStore
      { AnalysisData_new with is_loop := true } =
      .ok (oneNodeStore, { AnalysisData_new with is_loop := true }) ∧
    dupOuterScan [Symbol_new "a" .INT, Symbol_new "b" .STR]
      [Symbol_new "a" .INT, Symbol_new "b" .STR] = .ok () :=
  ⟨claim1_theorem.2.1 oneNodeStore { AnalysisData_new with is_loop := true } rfl,
   claim1_theorem.2.2.2.2.1 [Symbol_new "a" .INT, Symbol_new "b" .STR] (by decide)⟩


/-- Membership in an updated association list comes from an original entry,
possibly rewritten. -/
lemma mem_aupdate {α : Type} {l : List (Nat × α)} {k : Nat} {f : α → α} {q : Nat × α}
    (h : q ∈ aupdate l k f) : q ∈ l ∨ ∃ p ∈ l, q = (p.fst, f p.snd) := by
  rcases List.mem_map.mp h with ⟨p, hp, hq⟩
  by_cases hk : (p.fst == k) = true
  · right
    exact ⟨p, hp, by rw [← hq]; simp [hk]⟩
  · left
    rw [← hq]
    simp [hk]
    exact hp

/-- Membership in a point-updated list comes from an original element,
possibly rewritten. -/
lemma mem_setListIdx {α : Type} {f : α → α} :
    ∀ {i : Nat} {l : List α} {x : α}, x ∈ setListIdx f i l →
      x ∈ l ∨ ∃ y ∈ l, x = f y := by
  intro i
  induction i with
  | zero =>
    intro l x h
    cases l with
    | nil => simp [setListIdx] at h
    | cons a rest =>
      simp [setListIdx] at h
      rcases h with h | h
      · exact Or.inr ⟨a, List.mem_cons_self a rest, h⟩
      · exact Or.inl (List.mem_cons_of_mem a h)
  | succ i ih =>
    intro l x h
    cases l with
    | nil => simp [setListIdx] at h
    | cons a rest =>
      simp [setListIdx] at h
      rcases h with h | h
      · exact Or.inl (by simp [h])
      · rcases ih h with h2 | ⟨y, hy, hxy⟩
        · exact Or.inl (List.mem_cons_of_mem a h2)
        · exact Or.inr ⟨y, List.mem_cons_of_mem a hy, hxy⟩

/-- Advancing a FuncCall argument head changes no attribute anywhere. -/
lemma getAttr_advanceArgsHead (s : Store) (nid m : Nat) (k : String) :
    getAttr (advanceArgsHead s nid) m k = getAttr s m k := by
  unfold getAttr advanceArgsHead
  by_cases hm : m = nid
  · subst hm
    dsimp only
    rw [alookup_aupdate_self]
    cases alookup s.nodes m <;> rfl
  · dsimp only
    rw [alookup_aupdate_ne s.nodes nid _ m hm]

/-- Advancing a FuncCall argument head leaves the tables untouched. -/
lemma tables_advanceArgsHead (s : Store) (nid : Nat) :
    (advanceArgsHead s nid).tables = s.tables := rfl

/-- A symbol store that does not change types preserves the type invariant. -/
lemma TypesInv_updateSymbolAt {s : Store} {ptr : Nat × Nat} {f : Symbol → Symbol}
    (hf : ∀ sym, (f sym).type = sym.type) (h : TypesInv s) :
    TypesInv (updateSymbolAt s ptr f) := by
  intro p hp sym hsym
  have hp' : p ∈ aupdate s.tables ptr.fst
      (fun tbl => { tbl with local_symbols := setListIdx f ptr.snd tbl.local_symbols }) := hp
  rcases mem_aupdate hp' with hp2 | ⟨q, hq, hpq⟩
  · exact h p hp2 sym hsym
  · subst hpq
    dsimp only at hsym
    rcases mem_setListIdx hsym with h2 | ⟨y, hy, hxy⟩
    · exact h q hq sym h2
    · subst hxy
      rw [hf y]
      exact h q hq y hy

/-- Updating a symbol changes no AST node. -/
lemma nodes_updateSymbolAt (s : Store) (ptr : Nat × Nat) (f : Symbol → Symbol) :
    (updateSymbolAt s ptr f).nodes = s.nodes := rfl

/-- The frame property of one analysis step: the error list only grows, nodes
outside the given footprint are untouched, and the symbol-type invariant is
preserved. -/
def StepOK (fp : List Nat) (s : Store) (d : AnalysisData)
    (s2 : Store) (d2 : AnalysisData) : Prop :=
  d.errors <+: d2.errors ∧
  (∀ m, m ∉ fp → alookup s2.nodes m = alookup s.nodes m) ∧
  (TypesInv s → TypesInv s2)

/-- A step with no effect. -/
lemma StepOK_refl (fp : List Nat) (s : Store) (d : AnalysisData) :
    StepOK fp s d s d :=
  ⟨List.prefix_refl _, fun _ _ => rfl, fun h => h⟩

/-- A step that only appends diagnostics. -/
lemma StepOK_append (fp : List Nat) (s : Store) (d : AnalysisData) (msg : String) :
    StepOK fp s d s (ErrorList_printf d msg) :=
  ⟨by simp [ErrorList_printf], fun _ _ => rfl, fun h => h⟩

/-- Footprint monotonicity. -/
lemma StepOK_mono {fp fp2 : List Nat} {s : Store} {d : AnalysisData}
    {s2 : Store} {d2 : AnalysisData} (hsub : ∀ m, m ∈ fp → m ∈ fp2)
    (h : StepOK fp s d s2 d2) : StepOK fp2 s d s2 d2 :=
  ⟨h.1, fun m hm => h.2.1 m (fun hmem => hm (hsub m hmem)), h.2.2⟩

/-- Composition of steps. -/
lemma StepOK_trans {fp1 fp2 : List Nat} {s : Store} {d : AnalysisData}
    {s1 : Store} {d1 : AnalysisData} {s2 : Store} {d2 : AnalysisData}
    (h1 : StepOK fp1 s d s1 d1) (h2 : StepOK fp2 s1 d1 s2 d2) :
    StepOK (fp1 ++ fp2) s d s2 d2 := by
  refine ⟨h1.1.trans h2.1, ?_, fun h => h2.2.2 (h1.2.2 h)⟩
  intro m hm
  rw [h2.2.1 m (fun hmem => hm (List.mem_append_right _ hmem)),
    h1.2.1 m (fun hmem => hm (List.mem_append_left _ hmem))]


/-- The type invariant only depends on the tables. -/
lemma TypesInv_of_tables_eq {s s2 : Store} (h : s2.tables = s.tables)
    (ht : TypesInv s) : TypesInv s2 := by
  unfold TypesInv
  rw [h]
  exact ht

/-- Attribute reads only depend on the nodes. -/
lemma getAttr_of_nodes_eq {s s2 : Store} (h : s2.nodes = s.nodes)
    (m : Nat) (k : String) : getAttr s2 m k = getAttr s m k := by
  unfold getAttr
  rw [h]

/-- A successful attribute write is one step with footprint the written
node. -/
lemma stepOK_setInferredType {s : Store} {nid : Nat} {t : DecafType} {s2 : Store}
    (h : setInferredType s nid t = .ok s2) (d : AnalysisData) :
    StepOK [nid] s d s2 d := by
  have hm := setAttr_ok h
  refine ⟨List.prefix_refl _, ?_, TypesInv_of_tables_eq hm.2.2.2.1⟩
  intro m hm2
  exact hm.2.2.1 m (by simpa using hm2)

/-- The Program pre-visit returns the store unchanged and only appends. -/
lemma stepOK_previsit_program {s : Store} {d : AnalysisData} {nid : Nat}
    {s2 : Store} {d2 : AnalysisData}
    (h : Analysis_previsit_program s d nid = .ok (s2, d2)) :
    s2 = s ∧ StepOK [] s d s2 d2 := by
  unfold Analysis_previsit_program at h
  cases hl : lookupSymbolData s nid "main" with
  | none =>
    rw [hl] at h
    simp only [Except.ok.injEq, Prod.mk.injEq] at h
    rcases h with ⟨h1, h2⟩
    subst h1; subst h2
    exact ⟨rfl, StepOK_append _ _ _ _⟩
  | some sym =>
    rw [hl] at h
    simp only [] at h
    by_cases h1 : (sym.symbol_type != SymbolKind.FUNCTION_SYMBOL) = true
    · rw [if_pos h1] at h
      simp only [Except.ok.injEq, Prod.mk.injEq] at h
      rcases h with ⟨ha, hb⟩
      subst ha; subst hb
      exact ⟨rfl, StepOK_append _ _ _ _⟩
    · rw [if_neg h1] at h
      by_cases h2 : sym.parameters.length > 0
      · rw [if_pos h2] at h
        simp only [Except.ok.injEq, Prod.mk.injEq] at h
        rcases h with ⟨ha, hb⟩
        subst ha; subst hb
        exact ⟨rfl, StepOK_append _ _ _ _⟩
      · rw [if_neg h2] at h
        cases hdup : find_ducplicat_helper s nid with
        | error e => rw [hdup] at h; exact absurd h (by simp)
        | ok u =>
          rw [hdup] at h
          simp only [Except.ok.injEq, Prod.mk.injEq] at h
          rcases h with ⟨ha, hb⟩
          subst ha; subst hb
          exact ⟨rfl, StepOK_refl _ _ _⟩

/-- The Program post-visit returns the store unchanged and only appends. -/
lemma stepOK_postvisit_program {s : Store} {d : AnalysisData} {nid : Nat}
    {s2 : Store} {d2 : AnalysisData}
    (h : Analysis_postvisit_program s d nid = .ok (s2, d2)) :
    s2 = s ∧ StepOK [] s d s2 d2 := by
  unfold Analysis_postvisit_program at h
  cases hl : lookupSymbolData s nid "main" with
  | none =>
    rw [hl] at h
    simp only [Except.ok.injEq, Prod.mk.injEq] at h
    rcases h with ⟨h1, h2⟩
    subst h1; subst h2
    exact ⟨rfl, StepOK_refl _ _ _⟩
  | some sym =>
    rw [hl] at h
    simp only [] at h
    by_cases h1 : (sym.type != DecafType.INT) = true
    · rw [if_pos h1] at h
      simp only [Except.ok.injEq, Prod.mk.injEq] at h
      rcases h with ⟨ha, hb⟩
      subst ha; subst hb
      exact ⟨rfl, StepOK_append _ _ _ _⟩
    · rw [if_neg h1] at h
      simp only [Except.ok.injEq, Prod.mk.injEq] at h
      rcases h with ⟨ha, hb⟩
      subst ha; subst hb
      exact ⟨rfl, StepOK_refl _ _ _⟩


/-- A branch that returns the store unchanged and appends one diagnostic. -/
lemma stepOK_of_ok_append {s : Store} {d : AnalysisData} {m : String}
    {s2 : Store} {d2 : AnalysisData}
    (h : (Except.ok (s, ErrorList_printf d m) : M (Store × AnalysisData)) = .ok (s2, d2)) :
    s2 = s ∧ StepOK [] s d s2 d2 := by
  simp only [Except.ok.injEq, Prod.mk.injEq] at h
  rcases h with ⟨ha, hb⟩
  subst ha; subst hb
  exact ⟨rfl, StepOK_append _ _ _ _⟩

/-- A branch that changes nothing. -/
lemma stepOK_of_ok_refl {s : Store} {d : AnalysisData}
    {s2 : Store} {d2 : AnalysisData}
    (h : (Except.ok (s, d) : M (Store × AnalysisData)) = .ok (s2, d2)) :
    s2 = s ∧ StepOK [] s d s2 d2 := by
  simp only [Except.ok.injEq, Prod.mk.injEq] at h
  rcases h with ⟨ha, hb⟩
  subst ha; subst hb
  exact ⟨rfl, StepOK_refl _ _ _⟩

/-- The VarDecl pre-visit writes one attribute. -/
lemma stepOK_previsit_vardecl {s : Store} {d : AnalysisData} {nid : Nat}
    {type : DecafType} {s2 : Store} {d2 : AnalysisData}
    (h : Analysis_previsit_vardecl s d nid type = .ok (s2, d2)) :
    d2 = d ∧ StepOK [nid] s d s2 d2 := by
  unfold Analysis_previsit_vardecl at h
  cases hset : setInferredType s nid type with
  | error e => rw [hset] at h; exact absurd h (by simp)
  | ok s1 =>
    rw [hset] at h
    simp only [Except.ok.injEq, Prod.mk.injEq] at h
    rcases h with ⟨ha, hb⟩
    subst ha; subst hb
    exact ⟨rfl, stepOK_setInferredType hset d⟩

/-- The VarDecl post-visit returns the store unchanged and only appends. -/
lemma stepOK_postvisit_vardecl {s : Store} {d : AnalysisData} {nid : Nat}
    {name : String} {line : Nat} {is_array : Bool} {array_length : Int}
    {s2 : Store} {d2 : AnalysisData}
    (h : Analysis_postvisit_vardecl s d nid name line is_array array_length = .ok (s2, d2)) :
    s2 = s ∧ StepOK [] s d s2 d2 := by
  simp only [Analysis_postvisit_vardecl] at h
  split at h
  · exact stepOK_of_ok_append h
  · split at h
    · split at h
      · exact stepOK_of_ok_append h
      · split at h
        · exact stepOK_of_ok_append h
        · exact stepOK_of_ok_refl h
    · exact stepOK_of_ok_refl h

/-- The FuncDecl pre-visit writes one attribute and keeps the error list. -/
lemma stepOK_previsit_funcdecl {s : Store} {d : AnalysisData} {nid : Nat}
    {rt : DecafType} {s2 : Store} {d2 : AnalysisData}
    (h : Analysis_previsit_funcdecl s d nid rt = .ok (s2, d2)) :
    d2.errors = d.errors ∧ StepOK [nid] s d s2 d2 := by
  unfold Analysis_previsit_funcdecl at h
  cases hset : setInferredType s nid rt with
  | error e => rw [hset] at h; exact absurd h (by simp)
  | ok s1 =>
    rw [hset] at h
    simp only [Except.ok.injEq, Prod.mk.injEq] at h
    rcases h with ⟨ha, hb⟩
    subst ha; subst hb
    have hm := setAttr_ok hset
    refine ⟨rfl, List.prefix_refl _, ?_, TypesInv_of_tables_eq hm.2.2.2.1⟩
    intro m hm2
    exact hm.2.2.1 m (by simpa using hm2)

/-- The FuncDecl post-visit returns the store unchanged and keeps the error
list. -/
lemma stepOK_postvisit_funcdecl {s : Store} {d : AnalysisData} {nid : Nat}
    {s2 : Store} {d2 : AnalysisData}
    (h : Analysis_postvisit_funcdecl s d nid = .ok (s2, d2)) :
    s2 = s ∧ d2.errors = d.errors ∧ StepOK [] s d s2 d2 := by
  unfold Analysis_postvisit_funcdecl at h
  cases hdup : find_ducplicat_helper s nid with
  | error e => rw [hdup] at h; exact absurd h (by simp)
  | ok u =>
    rw [hdup] at h
    simp only [Except.ok.injEq, Prod.mk.injEq] at h
    rcases h with ⟨ha, hb⟩
    subst ha; subst hb
    exact ⟨rfl, rfl, List.prefix_refl _, fun _ _ => rfl, fun h => h⟩

/-- The Block post-visit returns the store unchanged and keeps the error
list. -/
lemma stepOK_postvisit_block {s : Store} {d : AnalysisData} {nid : Nat}
    {s2 : Store} {d2 : AnalysisData}
    (h : Analysis_postvisit_block s d nid = .ok (s2, d2)) :
    s2 = s ∧ d2.errors = d.errors ∧ StepOK [] s d s2 d2 := by
  unfold Analysis_postvisit_block at h
  cases hdup : find_ducplicat_helper s nid with
  | error e => rw [hdup] at h; exact absurd h (by simp)
  | ok u =>
    rw [hdup] at h
    simp only [Except.ok.injEq, Prod.mk.injEq] at h
    rcases h with ⟨ha, hb⟩
    subst ha; subst hb
    exact ⟨rfl, rfl, List.prefix_refl _, fun _ _ => rfl, fun h => h⟩

/-- The Assignment post-visit returns the store unchanged and only appends. -/
lemma stepOK_postvisit_assignment {s : Store} {d : AnalysisData} {l v : Nat}
    {s2 : Store} {d2 : AnalysisData}
    (h : Analysis_postvisit_assignment s d l v = .ok (s2, d2)) :
    s2 = s ∧ StepOK [] s d s2 d2 := by
  unfold Analysis_postvisit_assignment at h
  by_cases hc : (getInferredType s l != getInferredType s v) = true <;>
    simp only [hc, if_pos, if_neg, if_true, if_false, Bool.false_eq_true,
      Except.ok.injEq, Prod.mk.injEq] at h <;>
    rcases h with ⟨ha, hb⟩ <;> subst ha <;> subst hb
  · exact ⟨rfl, StepOK_append _ _ _ _⟩
  · exact ⟨rfl, StepOK_refl _ _ _⟩

/-- The Conditional post-visit returns the store unchanged and only
appends. -/
lemma stepOK_postvisit_conditional {s : Store} {d : AnalysisData} {c line : Nat}
    {s2 : Store} {d2 : AnalysisData}
    (h : Analysis_postvisit_conditional s d c line = .ok (s2, d2)) :
    s2 = s ∧ StepOK [] s d s2 d2 := by
  unfold Analysis_postvisit_conditional at h
  by_cases hc : (getInferredType s c != DecafType.BOOL) = true <;>
    simp only [hc, if_pos, if_neg, if_true, if_false, Bool.false_eq_true,
      Except.ok.injEq, Prod.mk.injEq] at h <;>
    rcases h with ⟨ha, hb⟩ <;> subst ha <;> subst hb
  · exact ⟨rfl, StepOK_append _ _ _ _⟩
  · exact ⟨rfl, StepOK_refl _ _ _⟩

/-- The WhileLoop post-visit returns the store unchanged and only appends. -/
lemma stepOK_postvisit_while_loop {s : Store} {d : AnalysisData} {c line : Nat}
    {s2 : Store} {d2 : AnalysisData}
    (h : Analysis_postvisit_while_loop s d c line = .ok (s2, d2)) :
    s2 = s ∧ StepOK [] s d s2 d2 := by
  unfold Analysis_postvisit_while_loop at h
  by_cases hc : (getInferredType s c != DecafType.BOOL) = true <;>
    simp only [hc, if_pos, if_neg, if_true, if_false, Bool.false_eq_true,
      Except.ok.injEq, Prod.mk.injEq] at h <;>
    rcases h with ⟨ha, hb⟩ <;> subst ha <;> subst hb
  · exact ⟨rfl, by
      refine ⟨?_, fun _ _ => rfl, fun hh => hh⟩
      simp [ErrorList_printf]⟩
  · exact ⟨rfl, by
      refine ⟨?_, fun _ _ => rfl, fun hh => hh⟩
      simp⟩

/-- The Return post-visit returns the store unchanged and only appends. -/
lemma stepOK_postvisit_return {s : Store} {d : AnalysisData} {nid : Nat}
    {value : Option ITree} {line : Nat} {s2 : Store} {d2 : AnalysisData}
    (h : Analysis_postvisit_return s d nid value line = .ok (s2, d2)) :
    s2 = s ∧ StepOK [] s d s2 d2 := by
  cases value with
  | none =>
    simp only [Analysis_postvisit_return, Except.ok.injEq, Prod.mk.injEq] at h
    rcases h with ⟨ha, hb⟩
    subst ha; subst hb
    exact ⟨rfl, StepOK_refl _ _ _⟩
  | some v =>
    simp only [Analysis_postvisit_return] at h
    split at h
    · exact stepOK_of_ok_refl h
    · split at h
      · split at h
        · exact stepOK_of_ok_append h
        · exact stepOK_of_ok_refl h
      · exact stepOK_of_ok_refl h

/-- The Break pre-visit returns the store unchanged and only appends. -/
lemma stepOK_previsit_break {s : Store} {d : AnalysisData}
    {s2 : Store} {d2 : AnalysisData}
    (h : Analysis_previsit_break s d = .ok (s2, d2)) :
    s2 = s ∧ StepOK [] s d s2 d2 := by
  unfold Analysis_previsit_break at h
  by_cases hc : d.is_loop = true <;>
    simp only [hc, Bool.not_true, Bool.not_false, if_pos, if_neg, if_true, if_false,
      Bool.false_eq_true, Except.ok.injEq, Prod.mk.injEq] at h <;>
    rcases h with ⟨ha, hb⟩ <;> subst ha <;> subst hb
  · exact ⟨rfl, StepOK_refl _ _ _⟩
  · exact ⟨rfl, StepOK_append _ _ _ _⟩

/-- The Continue pre-visit, when it does not throw, changes nothing. -/
lemma stepOK_previsit_continue {s : Store} {d : AnalysisData}
    {s2 : Store} {d2 : AnalysisData}
    (h : Analysis_previsit_continue s d = .ok (s2, d2)) :
    s2 = s ∧ d2 = d := by
  unfold Analysis_previsit_continue at h
  by_cases hc : d.is_loop = true
  · simp only [hc, Bool.not_true, Bool.false_eq_true, if_false,
      Except.ok.injEq, Prod.mk.injEq] at h
    exact ⟨h.1.symm, h.2.symm⟩
  · simp only [Bool.not_eq_true] at hc
    simp [hc] at h

/-- The BinaryOp pre-visit writes one attribute. -/
lemma stepOK_previsit_binop {s : Store} {d : AnalysisData} {nid : Nat}
    {op : BinaryOpType} {s2 : Store} {d2 : AnalysisData}
    (h : Analysis_previsit_binop s d nid op = .ok (s2, d2)) :
    d2 = d ∧ StepOK [nid] s d s2 d2 := by
  unfold Analysis_previsit_binop at h
  by_cases hc : op.toNat < 8
  · rw [if_pos hc] at h
    cases hset : setInferredType s nid .BOOL with
    | error e => rw [hset] at h; exact absurd h (by simp)
    | ok s1 =>
      rw [hset] at h
      simp only [Except.ok.injEq, Prod.mk.injEq] at h
      rcases h with ⟨ha, hb⟩
      subst ha; subst hb
      exact ⟨rfl, stepOK_setInferredType hset d⟩
  · rw [if_neg hc] at h
    cases hset : setInferredType s nid .INT with
    | error e => rw [hset] at h; exact absurd h (by simp)
    | ok s1 =>
      rw [hset] at h
      simp only [Except.ok.injEq, Prod.mk.injEq] at h
      rcases h with ⟨ha, hb⟩
      subst ha; subst hb
      exact ⟨rfl, stepOK_setInferredType hset d⟩

/-- The BinaryOp post-visit returns the store unchanged and only appends. -/
lemma stepOK_postvisit_binop {s : Store} {d : AnalysisData} {op : BinaryOpType}
    {l r line : Nat} {s2 : Store} {d2 : AnalysisData}
    (h : Analysis_postvisit_binop s d op l r line = .ok (s2, d2)) :
    s2 = s ∧ StepOK [] s d s2 d2 := by
  unfold Analysis_postvisit_binop at h
  by_cases h1 : (3 < op.toNat && op.toNat < 13) = true
  · rw [if_pos h1] at h
    by_cases h2 : (getInferredType s l != DecafType.INT || getInferredType s r != DecafType.INT) = true
    · rw [if_pos h2] at h
      simp only [Except.ok.injEq, Prod.mk.injEq] at h
      rcases h with ⟨ha, hb⟩
      subst ha; subst hb
      exact ⟨rfl, StepOK_append _ _ _ _⟩
    · rw [if_neg h2] at h
      simp only [Except.ok.injEq, Prod.mk.injEq] at h
      rcases h with ⟨ha, hb⟩
      subst ha; subst hb
      exact ⟨rfl, StepOK_refl _ _ _⟩
  · rw [if_neg h1] at h
    by_cases h3 : (op.toNat == 2 || op.toNat == 3) = true
    · rw [if_pos h3] at h
      by_cases h4 : (getInferredType s l != getInferredType s r) = true
      · rw [if_pos h4] at h
        simp only [Except.ok.injEq, Prod.mk.injEq] at h
        rcases h with ⟨ha, hb⟩
        subst ha; subst hb
        exact ⟨rfl, StepOK_append _ _ _ _⟩
      · rw [if_neg h4] at h
        simp only [Except.ok.injEq, Prod.mk.injEq] at h
        rcases h with ⟨ha, hb⟩
        subst ha; subst hb
        exact ⟨rfl, StepOK_refl _ _ _⟩
    · rw [if_neg h3] at h
      by_cases h5 : (op.toNat == 0 || op.toNat == 1) = true
      · rw [if_pos h5] at h
        by_cases h6 : (getInferredType s l != DecafType.BOOL || getInferredType s r != DecafType.BOOL) = true
        · rw [if_pos h6] at h
          simp only [Except.ok.injEq, Prod.mk.injEq] at h
          rcases h with ⟨ha, hb⟩
          subst ha; subst hb
          exact ⟨rfl, StepOK_append _ _ _ _⟩
        · rw [if_neg h6] at h
          simp only [Except.ok.injEq, Prod.mk.injEq] at h
          rcases h with ⟨ha, hb⟩
          subst ha; subst hb
          exact ⟨rfl, StepOK_refl _ _ _⟩
      · rw [if_neg h5] at h
        simp only [Except.ok.injEq, Prod.mk.injEq] at h
        rcases h with ⟨ha, hb⟩
        subst ha; subst hb
        exact ⟨rfl, StepOK_refl _ _ _⟩

/-- The UnaryOp pre-visit writes one attribute. -/
lemma stepOK_previsit_unop {s : Store} {d : AnalysisData} {nid : Nat}
    {op : UnaryOpType} {s2 : Store} {d2 : AnalysisData}
    (h : Analysis_previsit_unop s d nid op = .ok (s2, d2)) :
    d2 = d ∧ StepOK [nid] s d s2 d2 := by
  unfold Analysis_previsit_unop at h
  by_cases hc : (op.toNat == 0) = true
  · rw [if_pos hc] at h
    cases hset : setInferredType s nid .INT with
    | error e => rw [hset] at h; exact absurd h (by simp)
    | ok s1 =>
      rw [hset] at h
      simp only [Except.ok.injEq, Prod.mk.injEq] at h
      rcases h with ⟨ha, hb⟩
      subst ha; subst hb
      exact ⟨rfl, stepOK_setInferredType hset d⟩
  · rw [if_neg hc] at h
    cases hset : setInferredType s nid .BOOL with
    | error e => rw [hset] at h; exact absurd h (by simp)
    | ok s1 =>
      rw [hset] at h
      simp only [Except.ok.injEq, Prod.mk.injEq] at h
      rcases h with ⟨ha, hb⟩
      subst ha; subst hb
      exact ⟨rfl, stepOK_setInferredType hset d⟩

/-- The UnaryOp post-visit returns the store unchanged and only appends. -/
lemma stepOK_postvisit_unop {s : Store} {d : AnalysisData} {nid c line : Nat}
    {s2 : Store} {d2 : AnalysisData}
    (h : Analysis_postvisit_unop s d nid c line = .ok (s2, d2)) :
    s2 = s ∧ StepOK [] s d s2 d2 := by
  unfold Analysis_postvisit_unop at h
  by_cases hc : (getInferredType s c != getInferredType s nid) = true <;>
    simp only [hc, if_pos, if_neg, if_true, if_false, Bool.false_eq_true,
      Except.ok.injEq, Prod.mk.injEq] at h <;>
    rcases h with ⟨ha, hb⟩ <;> subst ha <;> subst hb
  · exact ⟨rfl, StepOK_append _ _ _ _⟩
  · exact ⟨rfl, StepOK_refl _ _ _⟩

/-- The Literal pre-visit writes one attribute. -/
lemma stepOK_previsit_literal {s : Store} {d : AnalysisData} {nid : Nat}
    {type : DecafType} {s2 : Store} {d2 : AnalysisData}
    (h : Analysis_previsit_literal s d nid type = .ok (s2, d2)) :
    d2 = d ∧ StepOK [nid] s d s2 d2 := by
  unfold Analysis_previsit_literal at h
  cases hset : setInferredType s nid type with
  | error e => rw [hset] at h; exact absurd h (by simp)
  | ok s1 =>
    rw [hset] at h
    simp only [Except.ok.injEq, Prod.mk.injEq] at h
    rcases h with ⟨ha, hb⟩
    subst ha; subst hb
    exact ⟨rfl, stepOK_setInferredType hset d⟩

/-- The Location pre-visit writes at most one attribute and only appends. -/
lemma stepOK_previsit_location {s : Store} {d : AnalysisData} {nid line : Nat}
    {name : String} {s2 : Store} {d2 : AnalysisData}
    (h : Analysis_previsit_location s d nid line name = .ok (s2, d2)) :
    StepOK [nid] s d s2 d2 := by
  unfold Analysis_previsit_location at h
  cases hl : lookup_symbol s nid name with
  | none =>
    simp only [lookup_symbol_with_reporting, hl, Except.ok.injEq, Prod.mk.injEq] at h
    rcases h with ⟨ha, hb⟩
    subst ha; subst hb
    exact ⟨by simp [ErrorList_printf], fun _ _ => rfl, fun hh => hh⟩
  | some ptr =>
    simp only [lookup_symbol_with_reporting, hl] at h
    split at h
    · exact absurd h (by simp)
    next sym hde =>
      split at h
      · exact absurd h (by simp)
      next s1 hset =>
        simp only [Except.ok.injEq, Prod.mk.injEq] at h
        rcases h with ⟨ha, hb⟩
        subst ha; subst hb
        have hm := setAttr_ok hset
        refine ⟨List.prefix_refl _, ?_, TypesInv_of_tables_eq hm.2.2.2.1⟩
        intro m hm2
        exact hm.2.2.1 m (by simpa using hm2)

/-- The Location post-visit returns the store unchanged and only appends. -/
lemma stepOK_postvisit_location {s : Store} {d : AnalysisData} {nid line : Nat}
    {name : String} {index : Option Nat} {s2 : Store} {d2 : AnalysisData}
    (h : Analysis_postvisit_location s d nid line name index = .ok (s2, d2)) :
    s2 = s ∧ StepOK [] s d s2 d2 := by
  unfold Analysis_postvisit_location at h
  cases hsym : lookupSymbolData s nid name with
  | none =>
    rw [hsym] at h
    simp only [Except.ok.injEq, Prod.mk.injEq] at h
    rcases h with ⟨ha, hb⟩
    subst ha; subst hb
    exact ⟨rfl, StepOK_refl _ _ _⟩
  | some sym =>
    rw [hsym] at h
    cases index with
    | none =>
      by_cases h1 : (sym.symbol_type == SymbolKind.ARRAY_SYMBOL) = true <;>
        simp only [h1, if_pos, if_neg, if_true, if_false, Bool.false_eq_true,
          Except.ok.injEq, Prod.mk.injEq] at h <;>
        rcases h with ⟨ha, hb⟩ <;> subst ha <;> subst hb
      · exact ⟨rfl, StepOK_append _ _ _ _⟩
      · exact ⟨rfl, StepOK_refl _ _ _⟩
    | some ix =>
      by_cases h1 : (sym.symbol_type == SymbolKind.ARRAY_SYMBOL &&
          getInferredType s ix != DecafType.INT) = true <;>
        simp only [h1, if_pos, if_neg, if_true, if_false, Bool.false_eq_true,
          Except.ok.injEq, Prod.mk.injEq] at h <;>
        rcases h with ⟨ha, hb⟩ <;> subst ha <;> subst hb
      · exact ⟨rfl, StepOK_append _ _ _ _⟩
      · exact ⟨rfl, StepOK_refl _ _ _⟩

/-- The FuncCall pre-visit writes at most one attribute and only appends. -/
lemma stepOK_previsit_funcall {s : Store} {d : AnalysisData} {nid line : Nat}
    {name : String} {s2 : Store} {d2 : AnalysisData}
    (h : Analysis_previsit_funcall s d nid line name = .ok (s2, d2)) :
    StepOK [nid] s d s2 d2 := by
  unfold Analysis_previsit_funcall at h
  cases hl : lookup_symbol s nid name with
  | none =>
    simp only [lookup_symbol_with_reporting, hl, Except.ok.injEq, Prod.mk.injEq] at h
    rcases h with ⟨ha, hb⟩
    subst ha; subst hb
    exact ⟨by simp [ErrorList_printf], fun _ _ => rfl, fun hh => hh⟩
  | some ptr =>
    simp only [lookup_symbol_with_reporting, hl] at h
    split at h
    · exact absurd h (by simp)
    next sym hde =>
      split at h
      · exact absurd h (by simp)
      next s1 hset =>
        simp only [Except.ok.injEq, Prod.mk.injEq] at h
        rcases h with ⟨ha, hb⟩
        subst ha; subst hb
        have hm := setAttr_ok hset
        refine ⟨List.prefix_refl _, ?_, TypesInv_of_tables_eq hm.2.2.2.1⟩
        intro m hm2
        exact hm.2.2.1 m (by simpa using hm2)

/-- One run of the argument/parameter walk: footprint is the call node, the
error list only grows, the type invariant is preserved, and no attribute
anywhere changes. -/
lemma stepOK_funcall_args_loop {ptr : Nat × Nat} {nid line : Nat} :
    ∀ {n : Nat} {s : Store} {d : AnalysisData} {s2 : Store} {d2 : AnalysisData}
      {c : Bool},
      funcall_args_loop ptr nid line n s d = .ok (s2, d2, c) →
      StepOK [nid] s d s2 d2 ∧ (∀ m k, getAttr s2 m k = getAttr s m k) := by
  intro n
  induction n with
  | zero =>
    intro s d s2 d2 c h
    simp only [funcall_args_loop, Except.ok.injEq, Prod.mk.injEq] at h
    rcases h with ⟨ha, hb, hc⟩
    subst ha; subst hb
    exact ⟨StepOK_refl _ _ _, fun _ _ => rfl⟩
  | succ n ih =>
    intro s d s2 d2 c h
    unfold funcall_args_loop at h
    split at h
    · exact absurd h (by simp)
    next sym hde =>
      split at h
      · exact absurd h (by simp)
      next p hp =>
        split at h
        · exact absurd h (by simp)
        next args hargs =>
          split at h
          · exact absurd h (by simp)
          next argId hid =>
            split at h
            · simp only [Except.ok.injEq, Prod.mk.injEq] at h
              rcases h with ⟨ha, hb, hc⟩
              subst ha; subst hb
              exact ⟨StepOK_append _ _ _ _, fun _ _ => rfl⟩
            · rcases ih h with ⟨hstep, hattr⟩
              set smid := advanceArgsHead
                (updateSymbolAt s ptr
                  (fun sym => { sym with paramsHead := sym.paramsHead + 1 })) nid with hsmid
              have hmidattr : ∀ m k, getAttr smid m k = getAttr s m k := by
                intro m k
                rw [hsmid, getAttr_advanceArgsHead]
                exact getAttr_of_nodes_eq (nodes_updateSymbolAt s ptr _) m k
              have hmidstep : StepOK [nid] s d smid d := by
                refine ⟨List.prefix_refl _, ?_, ?_⟩
                · intro m hm
                  have hm2 : m ≠ nid := by simpa using hm
                  rw [hsmid]
                  unfold advanceArgsHead
                  dsimp only
                  rw [alookup_aupdate_ne _ nid _ m hm2]
                  rw [nodes_updateSymbolAt]
                · intro ht
                  refine TypesInv_of_tables_eq (by rw [hsmid, tables_advanceArgsHead]) ?_
                  exact TypesInv_updateSymbolAt (fun sym => rfl) ht
              constructor
              · have hcomp := StepOK_trans hmidstep hstep
                exact StepOK_mono (by intro m hm; simpa using hm) hcomp
              · intro m k
                rw [hattr m k, hmidattr m k]

/-- The FuncCall post-visit: footprint is the call node, the error list only
grows, the type invariant is preserved, and no attribute anywhere changes. -/
lemma stepOK_postvisit_funcall {s : Store} {d : AnalysisData} {nid line : Nat}
    {name : String} {s2 : Store} {d2 : AnalysisData}
    (h : Analysis_postvisit_funcall s d nid line name = .ok (s2, d2)) :
    StepOK [nid] s d s2 d2 ∧ (∀ m k, getAttr s2 m k = getAttr s m k) := by
  unfold Analysis_postvisit_funcall at h
  cases hl : lookup_symbol s nid name with
  | none =>
    simp only [lookup_symbol_with_reporting, hl, Except.ok.injEq, Prod.mk.injEq] at h
    rcases h with ⟨ha, hb⟩
    subst ha; subst hb
    exact ⟨⟨by simp [ErrorList_printf], fun _ _ => rfl, fun hh => hh⟩, fun _ _ => rfl⟩
  | some ptr =>
    simp only [lookup_symbol_with_reporting, hl] at h
    split at h
    · exact absurd h (by simp)
    next sym hde =>
      split at h
      · exact absurd h (by simp)
      next args hargs =>
        split at h
        · rcases stepOK_of_ok_append h with ⟨ha, hstep⟩
          subst ha
          exact ⟨StepOK_mono (by intro m hm; simp at hm) hstep, fun _ _ => rfl⟩
        · split at h
          · exact absurd h (by simp)
          next s1 d1 completed hloop =>
            rcases stepOK_funcall_args_loop hloop with ⟨hstep, hattr⟩
            split at h
            · simp only [Except.ok.injEq, Prod.mk.injEq] at h
              rcases h with ⟨ha, hb⟩
              subst ha; subst hb
              refine ⟨⟨hstep.1, ?_, ?_⟩, ?_⟩
              · intro m hm
                rw [nodes_updateSymbolAt]
                exact hstep.2.1 m hm
              · intro ht
                exact TypesInv_updateSymbolAt (fun _ => rfl) (hstep.2.2 ht)
              · intro m k
                rw [getAttr_of_nodes_eq (nodes_updateSymbolAt s1 ptr _) m k]
                exact hattr m k
            · simp only [Except.ok.injEq, Prod.mk.injEq] at h
              rcases h with ⟨ha, hb⟩
              subst ha; subst hb
              exact ⟨hstep, hattr⟩


/-- Inversion of a successful monadic bind. -/
lemma bind_ok {α β : Type} {x : M α} {f : α → M β} {b : β}
    (h : (x >>= f) = .ok b) : ∃ a, x = .ok a ∧ f a = .ok b := by
  cases x with
  | error e =>
    have h2 : (Except.error e : M β) = .ok b := h
    cases h2
  | ok a => exact ⟨a, rfl, h⟩

/-- The inferred type only depends on the node cell. -/
lemma getInferredType_congr {s s2 : Store} {m : Nat}
    (h : alookup s2.nodes m = alookup s.nodes m) :
    getInferredType s2 m = getInferredType s m := by
  unfold getInferredType getAttr
  rw [h]

/-- The inferred type only depends on the type attribute. -/
lemma getInferredType_of_getAttr_eq {s s2 : Store} {m : Nat}
    (h : getAttr s2 m "type" = getAttr s m "type") :
    getInferredType s2 m = getInferredType s m := by
  unfold getInferredType
  rw [h]

/-- A successful association-list lookup is a member. -/
lemma alookup_mem {α : Type} {l : List (Nat × α)} {k : Nat} {v : α}
    (h : alookup l k = some v) : (k, v) ∈ l := by
  unfold alookup at h
  cases hf : l.find? (fun p => p.fst == k) with
  | none => rw [hf] at h; cases h
  | some p =>
    rw [hf] at h
    simp only [Option.map_some', Option.some.injEq] at h
    have hm := List.mem_of_find?_eq_some hf
    have hk := List.find?_some hf
    simp only [beq_iff_eq] at hk
    have : p = (k, v) := by
      rcases p with ⟨pk, pv⟩
      simp only at hk h
      rw [hk, h]
    rw [← this]
    exact hm

/-- Under the type invariant a dereferenced symbol has a known type. -/
lemma derefSymbol_TypesInv {s : Store} {ptr : Nat × Nat} {sym : Symbol}
    (hT : TypesInv s) (h : derefSymbol s ptr = some sym) :
    sym.type ≠ DecafType.UNKNOWN := by
  unfold derefSymbol at h
  cases ht : alookup s.tables ptr.fst with
  | none => rw [ht] at h; cases h
  | some tbl =>
    rw [ht] at h
    simp only [Option.some_bind] at h
    exact hT (ptr.fst, tbl) (alookup_mem ht) sym (List.get?_mem h)

/-- A list sandwiched between two prefixes of itself is that list. -/
lemma prefix_sandwich {α : Type} {l1 l2 l3 : List α}
    (h1 : l1 <+: l2) (h2 : l2 <+: l3) (h3 : l3 = l1) : l2 = l1 := by
  subst h3
  exact (List.IsPrefix.eq_of_length h1
    (le_antisymm h1.length_le h2.length_le)).symm

/-- A list extended by one element is not a prefix of itself. -/
lemma not_snoc_prefix {α : Type} {l : List α} {a : α} : ¬ (l ++ [a] <+: l) := by
  intro h
  have := h.length_le
  simp at this

/-- The Literal pre-visit records exactly the literal tag. -/
lemma previsit_literal_get {s : Store} {d : AnalysisData} {nid : Nat}
    {type : DecafType} {s2 : Store} {d2 : AnalysisData}
    (h : Analysis_previsit_literal s d nid type = .ok (s2, d2)) :
    getInferredType s2 nid = type := by
  unfold Analysis_previsit_literal at h
  cases hset : setInferredType s nid type with
  | error e => rw [hset] at h; cases h
  | ok s1 =>
    rw [hset] at h
    simp only [Except.ok.injEq, Prod.mk.injEq] at h
    rw [← h.1]
    exact setInferredType_get hset

/-- The BinaryOp pre-visit records a concrete value type. -/
lemma previsit_binop_typeIn3 {s : Store} {d : AnalysisData} {nid : Nat}
    {op : BinaryOpType} {s2 : Store} {d2 : AnalysisData}
    (h : Analysis_previsit_binop s d nid op = .ok (s2, d2)) :
    typeIn3 (getInferredType s2 nid) = true := by
  unfold Analysis_previsit_binop at h
  by_cases hc : op.toNat < 8
  · rw [if_pos hc] at h
    cases hset : setInferredType s nid .BOOL with
    | error e => rw [hset] at h; cases h
    | ok s1 =>
      rw [hset] at h
      simp only [Except.ok.injEq, Prod.mk.injEq] at h
      rw [← h.1, setInferredType_get hset]
      rfl
  · rw [if_neg hc] at h
    cases hset : setInferredType s nid .INT with
    | error e => rw [hset] at h; cases h
    | ok s1 =>
      rw [hset] at h
      simp only [Except.ok.injEq, Prod.mk.injEq] at h
      rw [← h.1, setInferredType_get hset]
      rfl

/-- The UnaryOp pre-visit records a concrete value type. -/
lemma previsit_unop_typeIn3 {s : Store} {d : AnalysisData} {nid : Nat}
    {op : UnaryOpType} {s2 : Store} {d2 : AnalysisData}
    (h : Analysis_previsit_unop s d nid op = .ok (s2, d2)) :
    typeIn3 (getInferredType s2 nid) = true := by
  unfold Analysis_previsit_unop at h
  by_cases hc : (op.toNat == 0) = true
  · rw [if_pos hc] at h
    cases hset : setInferredType s nid .INT with
    | error e => rw [hset] at h; cases h
    | ok s1 =>
      rw [hset] at h
      simp only [Except.ok.injEq, Prod.mk.injEq] at h
      rw [← h.1, setInferredType_get hset]
      rfl
  · rw [if_neg hc] at h
    cases hset : setInferredType s nid .BOOL with
    | error e => rw [hset] at h; cases h
    | ok s1 =>
      rw [hset] at h
      simp only [Except.ok.injEq, Prod.mk.injEq] at h
      rw [← h.1, setInferredType_get hset]
      rfl

/-- The Location pre-visit either appends the undefined-symbol diagnostic or
records the resolved symbol type, which the invariant keeps away from the
UNKNOWN sentinel. -/
lemma previsit_location_resolved {s : Store} {d : AnalysisData} {nid line : Nat}
    {name : String} {s2 : Store} {d2 : AnalysisData} (hT : TypesInv s)
    (h : Analysis_previsit_location s d nid line name = .ok (s2, d2)) :
    d2.errors = d.errors ++ [symbolUndefinedMsg name line] ∨
      (d2.errors = d.errors ∧ (getInferredType s2 nid != DecafType.UNKNOWN) = true) := by
  unfold Analysis_previsit_location at h
  cases hl : lookup_symbol s nid name with
  | none =>
    simp only [lookup_symbol_with_reporting, hl, Except.ok.injEq, Prod.mk.injEq] at h
    left
    rw [← h.2]
  | some ptr =>
    simp only [lookup_symbol_with_reporting, hl] at h
    split at h
    · exact absurd h (by simp)
    next sym hde =>
      split at h
      · exact absurd h (by simp)
      next s1 hset =>
        simp only [Except.ok.injEq, Prod.mk.injEq] at h
        right
        constructor
        · rw [← h.2]
        · rw [← h.1, setInferredType_get hset]
          simpa [bne_iff_ne] using derefSymbol_TypesInv hT hde

/-- The FuncCall pre-visit either appends the undefined-symbol diagnostic or
records the resolved symbol type, which the invariant keeps away from the
UNKNOWN sentinel. -/
lemma previsit_funcall_resolved {s : Store} {d : AnalysisData} {nid line : Nat}
    {name : String} {s2 : Store} {d2 : AnalysisData} (hT : TypesInv s)
    (h : Analysis_previsit_funcall s d nid line name = .ok (s2, d2)) :
    d2.errors = d.errors ++ [symbolUndefinedMsg name line] ∨
      (d2.errors = d.errors ∧ (getInferredType s2 nid != DecafType.UNKNOWN) = true) := by
  unfold Analysis_previsit_funcall at h
  cases hl : lookup_symbol s nid name with
  | none =>
    simp only [lookup_symbol_with_reporting, hl, Except.ok.injEq, Prod.mk.injEq] at h
    left
    rw [← h.2]
  | some ptr =>
    simp only [lookup_symbol_with_reporting, hl] at h
    split at h
    · exact absurd h (by simp)
    next sym hde =>
      split at h
      · exact absurd h (by simp)
      next s1 hset =>
        simp only [Except.ok.injEq, Prod.mk.injEq] at h
        right
        constructor
        · rw [← h.2]
        · rw [← h.1, setInferredType_get hset]
          simpa [bne_iff_ne] using derefSymbol_TypesInv hT hde


/-! The decoration predicate only reads the inferred types of the tree's own
nodes, so it transports along any store change that preserves them. -/
mutual

theorem exprTypedOK_congr (s s2 : Store) :
    ∀ t : ITree, (∀ m, m ∈ idsOf t → getInferredType s2 m = getInferredType s m) →
      exprTypedOK s2 t = exprTypedOK s t
  | .program _nid _line vs fs, hp => by
    simp only [exprTypedOK]
    rw [exprTypedOKList_congr s s2 vs (fun m hm => hp m (by simp [idsOf, hm])),
      exprTypedOKList_congr s s2 fs (fun m hm => hp m (by simp [idsOf, hm]))]
  | .vardecl _ _ _ _ _ _, _ => rfl
  | .funcdecl _nid _line _name _rt _params body, hp => by
    simp only [exprTypedOK]
    rw [exprTypedOK_congr s s2 body (fun m hm => hp m (by simp [idsOf, hm]))]
  | .block _nid _line vs stmts, hp => by
    simp only [exprTypedOK]
    rw [exprTypedOKList_congr s s2 vs (fun m hm => hp m (by simp [idsOf, hm])),
      exprTypedOKList_congr s s2 stmts (fun m hm => hp m (by simp [idsOf, hm]))]
  | .assignment _nid _line loc val, hp => by
    simp only [exprTypedOK]
    rw [exprTypedOK_congr s s2 loc (fun m hm => hp m (by simp [idsOf, hm])),
      exprTypedOK_congr s s2 val (fun m hm => hp m (by simp [idsOf, hm]))]
  | .conditional _nid _line cond if_block (some else_block), hp => by
    simp only [exprTypedOK]
    rw [exprTypedOK_congr s s2 cond (fun m hm => hp m (by simp [idsOf, hm])),
      exprTypedOK_congr s s2 if_block (fun m hm => hp m (by simp [idsOf, hm])),
      exprTypedOK_congr s s2 else_block (fun m hm => hp m (by simp [idsOf, hm]))]
  | .conditional _nid _line cond if_block none, hp => by
    simp only [exprTypedOK]
    rw [exprTypedOK_congr s s2 cond (fun m hm => hp m (by simp [idsOf, hm])),
      exprTypedOK_congr s s2 if_block (fun m hm => hp m (by simp [idsOf, hm]))]
  | .whileloop _nid _line cond body, hp => by
    simp only [exprTypedOK]
    rw [exprTypedOK_congr s s2 cond (fun m hm => hp m (by simp [idsOf, hm])),
      exprTypedOK_congr s s2 body (fun m hm => hp m (by simp [idsOf, hm]))]
  | .funcreturn _nid _line (some v), hp => by
    simp only [exprTypedOK]
    rw [exprTypedOK_congr s s2 v (fun m hm => hp m (by simp [idsOf, hm]))]
  | .funcreturn _ _ none, _ => rfl
  | .breakstmt _ _, _ => rfl
  | .continuestmt _ _, _ => rfl
  | .binaryop nid _line _op left right, hp => by
    simp only [exprTypedOK]
    rw [hp nid (by simp [idsOf]),
      exprTypedOK_congr s s2 left (fun m hm => hp m (by simp [idsOf, hm])),
      exprTypedOK_congr s s2 right (fun m hm => hp m (by simp [idsOf, hm]))]
  | .unaryop nid _line _op child, hp => by
    simp only [exprTypedOK]
    rw [hp nid (by simp [idsOf]),
      exprTypedOK_congr s s2 child (fun m hm => hp m (by simp [idsOf, hm]))]
  | .location nid _line _name (some index), hp => by
    simp only [exprTypedOK]
    rw [hp nid (by simp [idsOf]),
      exprTypedOK_congr s s2 index (fun m hm => hp m (by simp [idsOf, hm]))]
  | .location nid _line _name none, hp => by
    simp only [exprTypedOK]
    rw [hp nid (by simp [idsOf])]
  | .funccall nid _line _name args, hp => by
    simp only [exprTypedOK]
    rw [hp nid (by simp [idsOf]),
      exprTypedOKList_congr s s2 args (fun m hm => hp m (by simp [idsOf, hm]))]
  | .literal nid _line _type, hp => by
    simp only [exprTypedOK]
    rw [hp nid (by simp [idsOf])]

theorem exprTypedOKList_congr (s s2 : Store) :
    ∀ ts : List ITree, (∀ m, m ∈ idsOfList ts → getInferredType s2 m = getInferredType s m) →
      exprTypedOKList s2 ts = exprTypedOKList s ts
  | [], _ => rfl
  | t :: ts, hp => by
    simp only [exprTypedOKList]
    rw [exprTypedOK_congr s s2 t (fun m hm => hp m (by simp [idsOfList, hm])),
      exprTypedOKList_congr s s2 ts (fun m hm => hp m (by simp [idsOfList, hm]))]

end


/-! The frame theorem of the analysis traversal: a successful visit only
appends diagnostics, only touches the nodes of the visited subtree, and
preserves the symbol-type invariant. -/
mutual

theorem aVisit_StepOK :
    ∀ (t : ITree) (s : Store) (d : AnalysisData) (s2 : Store) (d2 : AnalysisData),
      aVisit t s d = .ok (s2, d2) → StepOK (idsOf t) s d s2 d2
  | .program nid _line vs fs, s, d, s2, d2, h => by
    simp only [aVisit] at h
    rcases bind_ok h with ⟨⟨sa, da⟩, h1, h⟩
    rcases bind_ok h with ⟨⟨sb, db⟩, h2, h⟩
    rcases bind_ok h with ⟨⟨sc, dc⟩, h3, h⟩
    rcases stepOK_previsit_program h1 with ⟨hsa, hst1⟩
    have hst2 := aVisitList_StepOK vs sa da sb db h2
    have hst3 := aVisitList_StepOK fs sb db sc dc h3
    rcases stepOK_postvisit_program h with ⟨hs2, hst4⟩
    have hall := StepOK_trans hst1 (StepOK_trans hst2 (StepOK_trans hst3 hst4))
    exact StepOK_mono (by intro m hm; simp [idsOf] at hm ⊢; tauto) hall
  | .vardecl nid _line name type is_array array_length, s, d, s2, d2, h => by
    simp only [aVisit] at h
    rcases bind_ok h with ⟨⟨sa, da⟩, h1, h⟩
    rcases stepOK_previsit_vardecl h1 with ⟨hda, hst1⟩
    rcases stepOK_postvisit_vardecl h with ⟨hs2, hst2⟩
    have hall := StepOK_trans hst1 hst2
    exact StepOK_mono (by intro m hm; simp [idsOf] at hm ⊢; tauto) hall
  | .funcdecl nid _line _name return_type _parameters body, s, d, s2, d2, h => by
    simp only [aVisit] at h
    rcases bind_ok h with ⟨⟨sa, da⟩, h1, h⟩
    rcases bind_ok h with ⟨⟨sb, db⟩, h2, h⟩
    rcases stepOK_previsit_funcdecl h1 with ⟨hdaerr, hst1⟩
    have hst2 := aVisit_StepOK body sa da sb db h2
    rcases stepOK_postvisit_funcdecl h with ⟨hs2, hd2err, hst3⟩
    have hall := StepOK_trans hst1 (StepOK_trans hst2 hst3)
    exact StepOK_mono (by intro m hm; simp [idsOf] at hm ⊢; tauto) hall
  | .block nid _line vs stmts, s, d, s2, d2, h => by
    simp only [aVisit] at h
    rcases bind_ok h with ⟨⟨sa, da⟩, h2, h⟩
    rcases bind_ok h with ⟨⟨sb, db⟩, h3, h⟩
    have hst0 : StepOK [] s d s (Analysis_previsit_block d) :=
      ⟨List.prefix_refl _, fun _ _ => rfl, fun hh => hh⟩
    have hst2 := aVisitList_StepOK vs s (Analysis_previsit_block d) sa da h2
    have hst3 := aVisitList_StepOK stmts sa da sb db h3
    rcases stepOK_postvisit_block h with ⟨hs2, hd2err, hst4⟩
    have hall := StepOK_trans hst0 (StepOK_trans hst2 (StepOK_trans hst3 hst4))
    exact StepOK_mono (by intro m hm; simp [idsOf] at hm ⊢; tauto) hall
  | .assignment _nid _line loc val, s, d, s2, d2, h => by
    simp only [aVisit] at h
    rcases bind_ok h with ⟨⟨sa, da⟩, h1, h⟩
    rcases bind_ok h with ⟨⟨sb, db⟩, h2, h⟩
    have hst1 := aVisit_StepOK loc s d sa da h1
    have hst2 := aVisit_StepOK val sa da sb db h2
    rcases stepOK_postvisit_assignment h with ⟨hs2, hst3⟩
    have hall := StepOK_trans hst1 (StepOK_trans hst2 hst3)
    exact StepOK_mono (by intro m hm; simp [idsOf] at hm ⊢; tauto) hall
  | .conditional _nid line cond if_block (some else_block), s, d, s2, d2, h => by
    simp only [aVisit] at h
    rcases bind_ok h with ⟨⟨sa, da⟩, h1, h⟩
    rcases bind_ok h with ⟨⟨sb, db⟩, h2, h⟩
    rcases bind_ok h with ⟨⟨sc, dc⟩, h3, h⟩
    have hst1 := aVisit_StepOK cond s d sa da h1
    have hst2 := aVisit_StepOK if_block sa da sb db h2
    have hst3 := aVisit_StepOK else_block sb db sc dc h3
    rcases stepOK_postvisit_conditional h with ⟨hs2, hst4⟩
    have hall := StepOK_trans hst1 (StepOK_trans hst2 (StepOK_trans hst3 hst4))
    exact StepOK_mono (by intro m hm; simp [idsOf] at hm ⊢; tauto) hall
  | .conditional _nid line cond if_block none, s, d, s2, d2, h => by
    simp only [aVisit] at h
    rcases bind_ok h with ⟨⟨sa, da⟩, h1, h⟩
    rcases bind_ok h with ⟨⟨sb, db⟩, h2, h⟩
    have hst1 := aVisit_StepOK cond s d sa da h1
    have hst2 := aVisit_StepOK if_block sa da sb db h2
    rcases stepOK_postvisit_conditional h with ⟨hs2, hst3⟩
    have hall := StepOK_trans hst1 (StepOK_trans hst2 hst3)
    exact StepOK_mono (by intro m hm; simp [idsOf] at hm ⊢; tauto) hall
  | .whileloop _nid line cond body, s, d, s2, d2, h => by
    simp only [aVisit] at h
    rcases bind_ok h with ⟨⟨sa, da⟩, h1, h⟩
    rcases bind_ok h with ⟨⟨sb, db⟩, h2, h⟩
    have hst0 : StepOK [] s d s (Analysis_previsit_while_loop d) :=
      ⟨List.prefix_refl _, fun _ _ => rfl, fun hh => hh⟩
    have hst1 := aVisit_StepOK cond s (Analysis_previsit_while_loop d) sa da h1
    have hst2 := aVisit_StepOK body sa da sb db h2
    rcases stepOK_postvisit_while_loop h with ⟨hs2, hst3⟩
    have hall := StepOK_trans hst0 (StepOK_trans hst1 (StepOK_trans hst2 hst3))
    exact StepOK_mono (by intro m hm; simp [idsOf] at hm ⊢; tauto) hall
  | .funcreturn nid line (some v), s, d, s2, d2, h => by
    simp only [aVisit] at h
    rcases bind_ok h with ⟨⟨sa, da⟩, h1, h⟩
    have hst1 := aVisit_StepOK v s d sa da h1
    rcases stepOK_postvisit_return h with ⟨hs2, hst2⟩
    have hall := StepOK_trans hst1 hst2
    exact StepOK_mono (by intro m hm; simp [idsOf] at hm ⊢; tauto) hall
  | .funcreturn nid line none, s, d, s2, d2, h => by
    simp only [aVisit] at h
    rcases stepOK_postvisit_return h with ⟨hs2, hst⟩
    exact StepOK_mono (by intro m hm; simp at hm) hst
  | .breakstmt _nid _line, s, d, s2, d2, h => by
    simp only [aVisit] at h
    rcases stepOK_previsit_break h with ⟨hs2, hst⟩
    exact StepOK_mono (by intro m hm; simp at hm) hst
  | .continuestmt _nid _line, s, d, s2, d2, h => by
    simp only [aVisit] at h
    rcases stepOK_previsit_continue h with ⟨hs2, hd2⟩
    subst hs2; subst hd2
    exact StepOK_refl _ _ _
  | .binaryop nid line op left right, s, d, s2, d2, h => by
    simp only [aVisit] at h
    rcases bind_ok h with ⟨⟨sa, da⟩, h1, h⟩
    rcases bind_ok h with ⟨⟨sb, db⟩, h2, h⟩
    rcases bind_ok h with ⟨⟨sc, dc⟩, h3, h⟩
    rcases stepOK_previsit_binop h1 with ⟨hda, hst1⟩
    have hst2 := aVisit_StepOK left sa da sb db h2
    have hst3 := aVisit_StepOK right sb db sc dc h3
    rcases stepOK_postvisit_binop h with ⟨hs2, hst4⟩
    have hall := StepOK_trans hst1 (StepOK_trans hst2 (StepOK_trans hst3 hst4))
    exact StepOK_mono (by intro m hm; simp [idsOf] at hm ⊢; tauto) hall
  | .unaryop nid line op child, s, d, s2, d2, h => by
    simp only [aVisit] at h
    rcases bind_ok h with ⟨⟨sa, da⟩, h1, h⟩
    rcases bind_ok h with ⟨⟨sb, db⟩, h2, h⟩
    rcases stepOK_previsit_unop h1 with ⟨hda, hst1⟩
    have hst2 := aVisit_StepOK child sa da sb db h2
    rcases stepOK_postvisit_unop h with ⟨hs2, hst3⟩
    have hall := StepOK_trans hst1 (StepOK_trans hst2 hst3)
    exact StepOK_mono (by intro m hm; simp [idsOf] at hm ⊢; tauto) hall
  | .location nid line name (some index), s, d, s2, d2, h => by
    simp only [aVisit] at h
    rcases bind_ok h with ⟨⟨sa, da⟩, h1, h⟩
    rcases bind_ok h with ⟨⟨sb, db⟩, h2, h⟩
    have hst1 := stepOK_previsit_location h1
    have hst2 := aVisit_StepOK index sa da sb db h2
    rcases stepOK_postvisit_location h with ⟨hs2, hst3⟩
    have hall := StepOK_trans hst1 (StepOK_trans hst2 hst3)
    exact StepOK_mono (by intro m hm; simp [idsOf] at hm ⊢; tauto) hall
  | .location nid line name none, s, d, s2, d2, h => by
    simp only [aVisit] at h
    rcases bind_ok h with ⟨⟨sa, da⟩, h1, h⟩
    have hst1 := stepOK_previsit_location h1
    rcases stepOK_postvisit_location h with ⟨hs2, hst2⟩
    have hall := StepOK_trans hst1 hst2
    exact StepOK_mono (by intro m hm; simp [idsOf] at hm ⊢; tauto) hall
  | .funccall nid line name args, s, d, s2, d2, h => by
    simp only [aVisit] at h
    rcases bind_ok h with ⟨⟨sa, da⟩, h1, h⟩
    rcases bind_ok h with ⟨⟨sb, db⟩, h2, h⟩
    have hst1 := stepOK_previsit_funcall h1
    have hst2 := aVisitList_StepOK args sa da sb db h2
    rcases stepOK_postvisit_funcall h with ⟨hst3, hattr⟩
    have hall := StepOK_trans hst1 (StepOK_trans hst2 hst3)
    exact StepOK_mono (by intro m hm; simp [idsOf] at hm ⊢; tauto) hall
  | .literal nid _line type, s, d, s2, d2, h => by
    simp only [aVisit] at h
    rcases stepOK_previsit_literal h with ⟨hda, hst⟩
    exact StepOK_mono (by intro m hm; simp [idsOf] at hm ⊢; tauto) hst

theorem aVisitList_StepOK :
    ∀ (ts : List ITree) (s : Store) (d : AnalysisData) (s2 : Store) (d2 : AnalysisData),
      aVisitList ts s d = .ok (s2, d2) → StepOK (idsOfList ts) s d s2 d2
  | [], s, d, s2, d2, h => by
    simp only [aVisitList, Except.ok.injEq, Prod.mk.injEq] at h
    rcases h with ⟨ha, hb⟩
    subst ha; subst hb
    exact StepOK_refl _ _ _
  | t :: ts, s, d, s2, d2, h => by
    simp only [aVisitList] at h
    rcases bind_ok h with ⟨⟨sa, da⟩, h1, h⟩
    have hst1 := aVisit_StepOK t s d sa da h1
    have hst2 := aVisitList_StepOK ts sa da s2 d2 h
    have hall := StepOK_trans hst1 hst2
    exact StepOK_mono (by intro m hm; simp [idsOfList] at hm ⊢; tauto) hall

end


/-! The decoration theorem: on a conformant tree with distinct node addresses,
a visit that appends no diagnostic leaves every expression node of the subtree
carrying a well-formed inferred type in the final store. -/
mutual

theorem aVisit_typed :
    ∀ (t : ITree) (s : Store) (d : AnalysisData) (s2 : Store) (d2 : AnalysisData),
      (idsOf t).Nodup → conformant t = true → TypesInv s →
      aVisit t s d = .ok (s2, d2) → d2.errors = d.errors →
      exprTypedOK s2 t = true
  | .program nid _line vs fs, s, d, s2, d2, hnd, hcf, hT, h, herr => by
    simp only [idsOf, List.nodup_cons, List.nodup_append, List.mem_append, not_or] at hnd
    obtain ⟨⟨hnidV, hnidF⟩, ndV, ndF, hdisj⟩ := hnd
    simp only [conformant, Bool.and_eq_true] at hcf
    obtain ⟨hcfV, hcfF⟩ := hcf
    simp only [aVisit] at h
    rcases bind_ok h with ⟨⟨sa, da⟩, h1, h⟩
    rcases bind_ok h with ⟨⟨sb, db⟩, h2, h⟩
    rcases bind_ok h with ⟨⟨sc, dc⟩, h3, h⟩
    rcases stepOK_previsit_program h1 with ⟨hsa, hst1⟩
    rw [hsa] at h2 hst1
    have hstV := aVisitList_StepOK vs s da sb db h2
    have hstF := aVisitList_StepOK fs sb db sc dc h3
    rcases stepOK_postvisit_program h with ⟨hs2, hst4⟩
    rw [hs2]
    have hdad : da.errors = d.errors :=
      prefix_sandwich hst1.1 (hstV.1.trans (hstF.1.trans hst4.1)) herr
    have hdbd : db.errors = d.errors :=
      prefix_sandwich (hst1.1.trans hstV.1) (hstF.1.trans hst4.1) herr
    have hdcd : dc.errors = d.errors :=
      prefix_sandwich ((hst1.1.trans hstV.1).trans hstF.1) hst4.1 herr
    have hV : exprTypedOKList sb vs = true :=
      aVisitList_typed vs s da sb db ndV hcfV hT h2 (hdbd.trans hdad.symm)
    have hTb : TypesInv sb := hstV.2.2 hT
    have hF : exprTypedOKList sc fs = true :=
      aVisitList_typed fs sb db sc dc ndF hcfF hTb h3 (hdcd.trans hdbd.symm)
    have eV : exprTypedOKList sc vs = true := by
      rw [exprTypedOKList_congr sb sc vs
        (fun m hm => getInferredType_congr (hstF.2.1 m (hdisj hm)))]
      exact hV
    simp only [exprTypedOK, eV, hF]
    rfl
  | .vardecl _ _ _ _ _ _, s, d, s2, d2, _, _, _, _, _ => rfl
  | .funcdecl nid _line _name return_type _parameters body, s, d, s2, d2, hnd, hcf, hT, h, herr => by
    simp only [idsOf, List.nodup_cons] at hnd
    obtain ⟨hnidB, ndB⟩ := hnd
    simp only [conformant, Bool.and_eq_true] at hcf
    obtain ⟨⟨hrt, hps⟩, hcfB⟩ := hcf
    simp only [aVisit] at h
    rcases bind_ok h with ⟨⟨sa, da⟩, h1, h⟩
    rcases bind_ok h with ⟨⟨sb, db⟩, h2, h⟩
    rcases stepOK_previsit_funcdecl h1 with ⟨hdaerr, hst1⟩
    have hstB := aVisit_StepOK body sa da sb db h2
    rcases stepOK_postvisit_funcdecl h with ⟨hs2, hd2err, hst3⟩
    rw [hs2]
    have hTa : TypesInv sa := hst1.2.2 hT
    have hB : exprTypedOK sb body = true :=
      aVisit_typed body sa da sb db ndB hcfB hTa h2
        ((hd2err.symm.trans herr).trans hdaerr.symm)
    simp only [exprTypedOK]
    exact hB
  | .block nid _line vs stmts, s, d, s2, d2, hnd, hcf, hT, h, herr => by
    simp only [idsOf, List.nodup_cons, List.nodup_append, List.mem_append, not_or] at hnd
    obtain ⟨⟨hnidV, hnidS⟩, ndV, ndS, hdisj⟩ := hnd
    simp only [conformant, Bool.and_eq_true] at hcf
    obtain ⟨hcfV, hcfS⟩ := hcf
    simp only [aVisit] at h
    rcases bind_ok h with ⟨⟨sa, da⟩, h2, h⟩
    rcases bind_ok h with ⟨⟨sb, db⟩, h3, h⟩
    have hstV := aVisitList_StepOK vs s (Analysis_previsit_block d) sa da h2
    have hstS := aVisitList_StepOK stmts sa da sb db h3
    rcases stepOK_postvisit_block h with ⟨hs2, hd2err, hst4⟩
    rw [hs2]
    have hpreV : d.errors <+: da.errors := hstV.1
    have hdbd : db.errors = d.errors := hd2err.symm.trans herr
    have hdad : da.errors = d.errors := prefix_sandwich hpreV hstS.1 hdbd
    have hdaX : da.errors = (Analysis_previsit_block d).errors := hdad
    have hV : exprTypedOKList sa vs = true :=
      aVisitList_typed vs s (Analysis_previsit_block d) sa da ndV hcfV hT h2 hdaX
    have hTa : TypesInv sa := hstV.2.2 hT
    have hS : exprTypedOKList sb stmts = true :=
      aVisitList_typed stmts sa da sb db ndS hcfS hTa h3 (hdbd.trans hdad.symm)
    have eV : exprTypedOKList sb vs = true := by
      rw [exprTypedOKList_congr sa sb vs
        (fun m hm => getInferredType_congr (hstS.2.1 m (hdisj hm)))]
      exact hV
    simp only [exprTypedOK, eV, hS]
    rfl
  | .assignment nid _line loc val, s, d, s2, d2, hnd, hcf, hT, h, herr => by
    simp only [idsOf, List.nodup_cons, List.nodup_append, List.mem_append, not_or] at hnd
    obtain ⟨⟨hnidL, hnidV⟩, ndL, ndV, hdisj⟩ := hnd
    simp only [conformant, Bool.and_eq_true] at hcf
    obtain ⟨hcfL, hcfV⟩ := hcf
    simp only [aVisit] at h
    rcases bind_ok h with ⟨⟨sa, da⟩, h1, h⟩
    rcases bind_ok h with ⟨⟨sb, db⟩, h2, h⟩
    have hstL := aVisit_StepOK loc s d sa da h1
    have hstV := aVisit_StepOK val sa da sb db h2
    rcases stepOK_postvisit_assignment h with ⟨hs2, hst3⟩
    rw [hs2]
    have hdad : da.errors = d.errors := prefix_sandwich hstL.1 (hstV.1.trans hst3.1) herr
    have hdbd : db.errors = d.errors := prefix_sandwich (hstL.1.trans hstV.1) hst3.1 herr
    have hL : exprTypedOK sa loc = true :=
      aVisit_typed loc s d sa da ndL hcfL hT h1 hdad
    have hTa : TypesInv sa := hstL.2.2 hT
    have hV : exprTypedOK sb val = true :=
      aVisit_typed val sa da sb db ndV hcfV hTa h2 (hdbd.trans hdad.symm)
    have eL : exprTypedOK sb loc = true := by
      rw [exprTypedOK_congr sa sb loc
        (fun m hm => getInferredType_congr (hstV.2.1 m (hdisj hm)))]
      exact hL
    simp only [exprTypedOK, eL, hV]
    rfl
  | .conditional nid line cond if_block (some else_block), s, d, s2, d2, hnd, hcf, hT, h, herr => by
    simp only [idsOf, List.nodup_cons, List.nodup_append, List.mem_append, not_or] at hnd
    obtain ⟨⟨⟨hnidC, hnidI⟩, hnidE⟩, ⟨ndC, ndI, hdCI⟩, ndE, hdCIE⟩ := hnd
    simp only [conformant, Bool.and_eq_true] at hcf
    obtain ⟨⟨hcfC, hcfI⟩, hcfE⟩ := hcf
    simp only [aVisit] at h
    rcases bind_ok h with ⟨⟨sa, da⟩, h1, h⟩
    rcases bind_ok h with ⟨⟨sb, db⟩, h2, h⟩
    rcases bind_ok h with ⟨⟨sc, dc⟩, h3, h⟩
    have hstC := aVisit_StepOK cond s d sa da h1
    have hstI := aVisit_StepOK if_block sa da sb db h2
    have hstE := aVisit_StepOK else_block sb db sc dc h3
    rcases stepOK_postvisit_conditional h with ⟨hs2, hst4⟩
    rw [hs2]
    have hdad : da.errors = d.errors :=
      prefix_sandwich hstC.1 (hstI.1.trans (hstE.1.trans hst4.1)) herr
    have hdbd : db.errors = d.errors :=
      prefix_sandwich (hstC.1.trans hstI.1) (hstE.1.trans hst4.1) herr
    have hdcd : dc.errors = d.errors :=
      prefix_sandwich ((hstC.1.trans hstI.1).trans hstE.1) hst4.1 herr
    have hC : exprTypedOK sa cond = true :=
      aVisit_typed cond s d sa da ndC hcfC hT h1 hdad
    have hTa : TypesInv sa := hstC.2.2 hT
    have hI : exprTypedOK sb if_block = true :=
      aVisit_typed if_block sa da sb db ndI hcfI hTa h2 (hdbd.trans hdad.symm)
    have hTb : TypesInv sb := hstI.2.2 hTa
    have hE : exprTypedOK sc else_block = true :=
      aVisit_typed else_block sb db sc dc ndE hcfE hTb h3 (hdcd.trans hdbd.symm)
    have eC : exprTypedOK sc cond = true := by
      rw [exprTypedOK_congr sa sc cond (fun m hm => by
        rw [getInferredType_congr (hstE.2.1 m (hdCIE (List.mem_append_left _ hm))),
          getInferredType_congr (hstI.2.1 m (hdCI hm))])]
      exact hC
    have eI : exprTypedOK sc if_block = true := by
      rw [exprTypedOK_congr sb sc if_block (fun m hm =>
        getInferredType_congr (hstE.2.1 m (hdCIE (List.mem_append_right _ hm))))]
      exact hI
    simp only [exprTypedOK, eC, eI, hE]
    rfl
  | .conditional nid line cond if_block none, s, d, s2, d2, hnd, hcf, hT, h, herr => by
    simp only [idsOf, List.nodup_cons, List.nodup_append, List.mem_append, not_or] at hnd
    obtain ⟨⟨hnidC, hnidI⟩, ndC, ndI, hdCI⟩ := hnd
    simp only [conformant, Bool.and_eq_true] at hcf
    obtain ⟨hcfC, hcfI⟩ := hcf
    simp only [aVisit] at h
    rcases bind_ok h with ⟨⟨sa, da⟩, h1, h⟩
    rcases bind_ok h with ⟨⟨sb, db⟩, h2, h⟩
    have hstC := aVisit_StepOK cond s d sa da h1
    have hstI := aVisit_StepOK if_block sa da sb db h2
    rcases stepOK_postvisit_conditional h with ⟨hs2, hst3⟩
    rw [hs2]
    have hdad : da.errors = d.errors := prefix_sandwich hstC.1 (hstI.1.trans hst3.1) herr
    have hdbd : db.errors = d.errors := prefix_sandwich (hstC.1.trans hstI.1) hst3.1 herr
    have hC : exprTypedOK sa cond = true :=
      aVisit_typed cond s d sa da ndC hcfC hT h1 hdad
    have hTa : TypesInv sa := hstC.2.2 hT
    have hI : exprTypedOK sb if_block = true :=
      aVisit_typed if_block sa da sb db ndI hcfI hTa h2 (hdbd.trans hdad.symm)
    have eC : exprTypedOK sb cond = true := by
      rw [exprTypedOK_congr sa sb cond
        (fun m hm => getInferredType_congr (hstI.2.1 m (hdCI hm)))]
      exact hC
    simp only [exprTypedOK, eC, hI]
    rfl
  | .whileloop nid line cond body, s, d, s2, d2, hnd, hcf, hT, h, herr => by
    simp only [idsOf, List.nodup_cons, List.nodup_append, List.mem_append, not_or] at hnd
    obtain ⟨⟨hnidC, hnidB⟩, ndC, ndB, hdisj⟩ := hnd
    simp only [conformant, Bool.and_eq_true] at hcf
    obtain ⟨hcfC, hcfB⟩ := hcf
    simp only [aVisit] at h
    rcases bind_ok h with ⟨⟨sa, da⟩, h1, h⟩
    rcases bind_ok h with ⟨⟨sb, db⟩, h2, h⟩
    have hstC := aVisit_StepOK cond s (Analysis_previsit_while_loop d) sa da h1
    have hstB := aVisit_StepOK body sa da sb db h2
    rcases stepOK_postvisit_while_loop h with ⟨hs2, hst4⟩
    rw [hs2]
    have hpreC : d.errors <+: da.errors := hstC.1
    have hdad : da.errors = d.errors := prefix_sandwich hpreC (hstB.1.trans hst4.1) herr
    have hdbd : db.errors = d.errors := prefix_sandwich (hpreC.trans hstB.1) hst4.1 herr
    have hdaX : da.errors = (Analysis_previsit_while_loop d).errors := hdad
    have hC : exprTypedOK sa cond = true :=
      aVisit_typed cond s (Analysis_previsit_while_loop d) sa da ndC hcfC hT h1 hdaX
    have hTa : TypesInv sa := hstC.2.2 hT
    have hB : exprTypedOK sb body = true :=
      aVisit_typed body sa da sb db ndB hcfB hTa h2 (hdbd.trans hdad.symm)
    have eC : exprTypedOK sb cond = true := by
      rw [exprTypedOK_congr sa sb cond
        (fun m hm => getInferredType_congr (hstB.2.1 m (hdisj hm)))]
      exact hC
    simp only [exprTypedOK, eC, hB]
    rfl
  | .funcreturn nid line (some v), s, d, s2, d2, hnd, hcf, hT, h, herr => by
    simp only [idsOf, List.nodup_cons] at hnd
    obtain ⟨hnidV, ndV⟩ := hnd
    simp only [aVisit] at h
    rcases bind_ok h with ⟨⟨sa, da⟩, h1, h⟩
    have hstV := aVisit_StepOK v s d sa da h1
    rcases stepOK_postvisit_return h with ⟨hs2, hst2⟩
    rw [hs2]
    have hdad : da.errors = d.errors := prefix_sandwich hstV.1 hst2.1 herr
    have hV : exprTypedOK sa v = true :=
      aVisit_typed v s d sa da ndV hcf hT h1 hdad
    simp only [exprTypedOK]
    exact hV
  | .funcreturn _ _ none, s, d, s2, d2, _, _, _, _, _ => rfl
  | .breakstmt _ _, s, d, s2, d2, _, _, _, _, _ => rfl
  | .continuestmt _ _, s, d, s2, d2, _, _, _, _, _ => rfl
  | .binaryop nid line op left right, s, d, s2, d2, hnd, hcf, hT, h, herr => by
    simp only [idsOf, List.nodup_cons, List.nodup_append, List.mem_append, not_or] at hnd
    obtain ⟨⟨hnidL, hnidR⟩, ndL, ndR, hdisj⟩ := hnd
    simp only [conformant, Bool.and_eq_true] at hcf
    obtain ⟨hcfL, hcfR⟩ := hcf
    simp only [aVisit] at h
    rcases bind_ok h with ⟨⟨sa, da⟩, h1, h⟩
    rcases bind_ok h with ⟨⟨sb, db⟩, h2, h⟩
    rcases bind_ok h with ⟨⟨sc, dc⟩, h3, h⟩
    rcases stepOK_previsit_binop h1 with ⟨hda, hst1⟩
    rw [hda] at h2 hst1
    have hstL := aVisit_StepOK left sa d sb db h2
    have hstR := aVisit_StepOK right sb db sc dc h3
    rcases stepOK_postvisit_binop h with ⟨hs2, hst4⟩
    rw [hs2]
    have hdbd : db.errors = d.errors :=
      prefix_sandwich hstL.1 (hstR.1.trans hst4.1) herr
    have hdcd : dc.errors = d.errors :=
      prefix_sandwich (hstL.1.trans hstR.1) hst4.1 herr
    have hTa : TypesInv sa := hst1.2.2 hT
    have hTb : TypesInv sb := hstL.2.2 hTa
    have hL : exprTypedOK sb left = true :=
      aVisit_typed left sa d sb db ndL hcfL hTa h2 hdbd
    have hR : exprTypedOK sc right = true :=
      aVisit_typed right sb db sc dc ndR hcfR hTb h3 (hdcd.trans hdbd.symm)
    have eL : exprTypedOK sc left = true := by
      rw [exprTypedOK_congr sb sc left
        (fun m hm => getInferredType_congr (hstR.2.1 m (hdisj hm)))]
      exact hL
    have enid : getInferredType sc nid = getInferredType sa nid := by
      rw [getInferredType_congr (hstR.2.1 nid hnidR),
        getInferredType_congr (hstL.2.1 nid hnidL)]
    simp only [exprTypedOK, enid, previsit_binop_typeIn3 h1, eL, hR]
    rfl
  | .unaryop nid line op child, s, d, s2, d2, hnd, hcf, hT, h, herr => by
    simp only [idsOf, List.nodup_cons] at hnd
    obtain ⟨hnidC, ndC⟩ := hnd
    simp only [aVisit] at h
    rcases bind_ok h with ⟨⟨sa, da⟩, h1, h⟩
    rcases bind_ok h with ⟨⟨sb, db⟩, h2, h⟩
    rcases stepOK_previsit_unop h1 with ⟨hda, hst1⟩
    rw [hda] at h2 hst1
    have hstC := aVisit_StepOK child sa d sb db h2
    rcases stepOK_postvisit_unop h with ⟨hs2, hst3⟩
    rw [hs2]
    have hdbd : db.errors = d.errors := prefix_sandwich hstC.1 hst3.1 herr
    have hTa : TypesInv sa := hst1.2.2 hT
    have hC : exprTypedOK sb child = true :=
      aVisit_typed child sa d sb db ndC hcf hTa h2 hdbd
    have enid : getInferredType sb nid = getInferredType sa nid :=
      getInferredType_congr (hstC.2.1 nid hnidC)
    simp only [exprTypedOK, enid, previsit_unop_typeIn3 h1, hC]
    rfl
  | .location nid line name (some index), s, d, s2, d2, hnd, hcf, hT, h, herr => by
    simp only [idsOf, List.nodup_cons] at hnd
    obtain ⟨hnidI, ndI⟩ := hnd
    simp only [aVisit] at h
    rcases bind_ok h with ⟨⟨sa, da⟩, h1, h⟩
    rcases bind_ok h with ⟨⟨sb, db⟩, h2, h⟩
    have hst1 := stepOK_previsit_location h1
    have hstI := aVisit_StepOK index sa da sb db h2
    rcases stepOK_postvisit_location h with ⟨hs2, hst3⟩
    rw [hs2]
    rcases previsit_location_resolved hT h1 with hbad | ⟨hdaerr, hty⟩
    · exfalso
      have hpre : da.errors <+: d2.errors := hstI.1.trans hst3.1
      rw [hbad, herr] at hpre
      exact not_snoc_prefix hpre
    · have hTa : TypesInv sa := hst1.2.2 hT
      have hdbd : db.errors = da.errors :=
        prefix_sandwich hstI.1 hst3.1 (herr.trans hdaerr.symm)
      have hI : exprTypedOK sb index = true :=
        aVisit_typed index sa da sb db ndI hcf hTa h2 hdbd
      have enid : getInferredType sb nid = getInferredType sa nid :=
        getInferredType_congr (hstI.2.1 nid hnidI)
      simp only [exprTypedOK, enid, hty, hI]
      rfl
  | .location nid line name none, s, d, s2, d2, hnd, hcf, hT, h, herr => by
    simp only [aVisit] at h
    rcases bind_ok h with ⟨⟨sa, da⟩, h1, h⟩
    have hst1 := stepOK_previsit_location h1
    rcases stepOK_postvisit_location h with ⟨hs2, hst2⟩
    rw [hs2]
    rcases previsit_location_resolved hT h1 with hbad | ⟨hdaerr, hty⟩
    · exfalso
      have hpre : da.errors <+: d2.errors := hst2.1
      rw [hbad, herr] at hpre
      exact not_snoc_prefix hpre
    · simp only [exprTypedOK, hty]
  | .funccall nid line name args, s, d, s2, d2, hnd, hcf, hT, h, herr => by
    simp only [idsOf, List.nodup_cons] at hnd
    obtain ⟨hnidA, ndA⟩ := hnd
    simp only [aVisit] at h
    rcases bind_ok h with ⟨⟨sa, da⟩, h1, h⟩
    rcases bind_ok h with ⟨⟨sb, db⟩, h2, h⟩
    have hst1 := stepOK_previsit_funcall h1
    have hstA := aVisitList_StepOK args sa da sb db h2
    rcases stepOK_postvisit_funcall h with ⟨hst3, hattr⟩
    rcases previsit_funcall_resolved hT h1 with hbad | ⟨hdaerr, hty⟩
    · exfalso
      have hpre : da.errors <+: d2.errors := hstA.1.trans hst3.1
      rw [hbad, herr] at hpre
      exact not_snoc_prefix hpre
    · have hTa : TypesInv sa := hst1.2.2 hT
      have hdbd : db.errors = da.errors :=
        prefix_sandwich hstA.1 hst3.1 (herr.trans hdaerr.symm)
      have hA : exprTypedOKList sb args = true :=
        aVisitList_typed args sa da sb db ndA hcf hTa h2 hdbd
      have epost : ∀ m, getInferredType s2 m = getInferredType sb m :=
        fun m => getInferredType_of_getAttr_eq (hattr m "type")
      have eA : exprTypedOKList s2 args = exprTypedOKList sb args :=
        exprTypedOKList_congr sb s2 args (fun m _ => epost m)
      have enid : getInferredType s2 nid = getInferredType sa nid := by
        rw [epost nid, getInferredType_congr (hstA.2.1 nid hnidA)]
      simp only [exprTypedOK]
      rw [enid, eA, hty, hA]
      rfl
  | .literal nid _line type, s, d, s2, d2, hnd, hcf, hT, h, herr => by
    simp only [aVisit] at h
    simp only [exprTypedOK, previsit_literal_get h]
    exact hcf

theorem aVisitList_typed :
    ∀ (ts : List ITree) (s : Store) (d : AnalysisData) (s2 : Store) (d2 : AnalysisData),
      (idsOfList ts).Nodup → conformantList ts = true → TypesInv s →
      aVisitList ts s d = .ok (s2, d2) → d2.errors = d.errors →
      exprTypedOKList s2 ts = true
  | [], s, d, s2, d2, _, _, _, h, _ => by
    simp only [aVisitList, Except.ok.injEq, Prod.mk.injEq] at h
    rcases h with ⟨ha, hb⟩
    subst ha
    rfl
  | t :: ts, s, d, s2, d2, hnd, hcf, hT, h, herr => by
    simp only [idsOfList, List.nodup_append] at hnd
    obtain ⟨ndT, ndTs, hdisj⟩ := hnd
    simp only [conformantList, Bool.and_eq_true] at hcf
    obtain ⟨hcfT, hcfTs⟩ := hcf
    simp only [aVisitList] at h
    rcases bind_ok h with ⟨⟨sa, da⟩, h1, h⟩
    have hstT := aVisit_StepOK t s d sa da h1
    have hstTs := aVisitList_StepOK ts sa da s2 d2 h
    have hdad : da.errors = d.errors := prefix_sandwich hstT.1 hstTs.1 herr
    have hTt : exprTypedOK sa t = true := aVisit_typed t s d sa da ndT hcfT hT h1 hdad
    have hTa : TypesInv sa := hstT.2.2 hT
    have hTs : exprTypedOKList s2 ts = true :=
      aVisitList_typed ts sa da s2 d2 ndTs hcfTs hTa h (herr.trans hdad.symm)
    have eT : exprTypedOK s2 t = true := by
      rw [exprTypedOK_congr sa s2 t
        (fun m hm => getInferredType_congr (hstTs.2.1 m (hdisj hm)))]
      exact hTt
    simp only [exprTypedOKList, eT, hTs]
    rfl

end


/-! The two structural decorator passes only write node attributes, so the
symbol tables are untouched; the loader allocates nodes only.  These
preservation lemmas carry the symbol-type invariant from the builder pass to
the analysis pass. -/

/-! Tables survive loading a subtree. -/
mutual

theorem loadTree_tables : ∀ (t : ITree) (s : Store), (loadTree t s).tables = s.tables
  | .program nid _ vs fs, s => by
    simp only [loadTree]
    rw [loadList_tables, loadList_tables]
  | .vardecl _ _ _ _ _ _, s => rfl
  | .funcdecl _ _ _ _ _ body, s => by
    simp only [loadTree]
    rw [loadTree_tables]
  | .block _ _ vs stmts, s => by
    simp only [loadTree]
    rw [loadList_tables, loadList_tables]
  | .assignment _ _ loc val, s => by
    simp only [loadTree]
    rw [loadTree_tables, loadTree_tables]
  | .conditional _ _ cond if_block (some else_block), s => by
    simp only [loadTree]
    rw [loadTree_tables, loadTree_tables, loadTree_tables]
  | .conditional _ _ cond if_block none, s => by
    simp only [loadTree]
    rw [loadTree_tables, loadTree_tables]
  | .whileloop _ _ cond body, s => by
    simp only [loadTree]
    rw [loadTree_tables, loadTree_tables]
  | .funcreturn _ _ (some v), s => by
    simp only [loadTree]
    rw [loadTree_tables]
  | .funcreturn _ _ none, s => rfl
  | .breakstmt _ _, s => rfl
  | .continuestmt _ _, s => rfl
  | .binaryop _ _ _ left right, s => by
    simp only [loadTree]
    rw [loadTree_tables, loadTree_tables]
  | .unaryop _ _ _ child, s => by
    simp only [loadTree]
    rw [loadTree_tables]
  | .location _ _ _ (some index), s => by
    simp only [loadTree]
    rw [loadTree_tables]
  | .location _ _ _ none, s => rfl
  | .funccall _ _ _ args, s => by
    simp only [loadTree]
    rw [loadList_tables]
  | .literal _ _ _, s => rfl

theorem loadList_tables : ∀ (ts : List ITree) (s : Store), (loadList ts s).tables = s.tables
  | [], s => rfl
  | t :: ts, s => by
    simp only [loadList]
    rw [loadList_tables, loadTree_tables]

end

/-- The loaded store has no symbol tables, so the invariant holds vacuously. -/
lemma TypesInv_load (t : ITree) : TypesInv (load t) := by
  intro p hp sym hsym
  rw [show (load t).tables = [] from loadTree_tables t _] at hp
  cases hp

/-- Writing a parent attribute over a list of children keeps the tables. -/
lemma setParentList_tables (pid : Nat) :
    ∀ (l : List Nat) (s s2 : Store), setParentList pid l s = .ok s2 → s2.tables = s.tables
  | [], s, s2, h => by
    simp only [setParentList, Except.ok.injEq] at h
    rw [← h]
  | c :: rest, s, s2, h => by
    simp only [setParentList] at h
    split at h
    · exact absurd h (by simp)
    next s1 hset =>
      rw [setParentList_tables pid rest s1 s2 h, (setAttr_ok hset).2.2.2.1]

/-! The SetParent pass keeps the tables. -/
mutual

theorem spVisit_tables : ∀ (t : ITree) (s s2 : Store),
    spVisit t s = .ok s2 → s2.tables = s.tables
  | .program nid _ vs fs, s, s2, h => by
    simp only [spVisit] at h
    rcases bind_ok h with ⟨sa, h1, h⟩
    rcases bind_ok h with ⟨sb, h2, h⟩
    rcases bind_ok h with ⟨sc, h3, h⟩
    rw [spVisitList_tables fs sc s2 h, spVisitList_tables vs sb sc h3,
      setParentList_tables _ _ _ _ h2, setParentList_tables _ _ _ _ h1]
  | .vardecl _ _ _ _ _ _, s, s2, h => by
    simp only [spVisit, Except.ok.injEq] at h
    rw [← h]
  | .funcdecl nid _ _ _ _ body, s, s2, h => by
    simp only [spVisit] at h
    rcases bind_ok h with ⟨sa, h1, h⟩
    rw [spVisit_tables body sa s2 h, (setAttr_ok h1).2.2.2.1]
  | .block nid _ vs stmts, s, s2, h => by
    simp only [spVisit] at h
    rcases bind_ok h with ⟨sa, h1, h⟩
    rcases bind_ok h with ⟨sb, h2, h⟩
    rcases bind_ok h with ⟨sc, h3, h⟩
    rw [spVisitList_tables stmts sc s2 h, spVisitList_tables vs sb sc h3,
      setParentList_tables _ _ _ _ h2, setParentList_tables _ _ _ _ h1]
  | .assignment nid _ loc val, s, s2, h => by
    simp only [spVisit] at h
    rcases bind_ok h with ⟨sa, h1, h⟩
    rcases bind_ok h with ⟨sb, h2, h⟩
    rcases bind_ok h with ⟨sc, h3, h⟩
    rw [spVisit_tables val sc s2 h, spVisit_tables loc sb sc h3,
      (setAttr_ok h2).2.2.2.1, (setAttr_ok h1).2.2.2.1]
  | .conditional nid _ cond if_block (some else_block), s, s2, h => by
    simp only [spVisit] at h
    rcases bind_ok h with ⟨sa, h1, h⟩
    rcases bind_ok h with ⟨sb, h2, h⟩
    rcases bind_ok h with ⟨sc, h3, h⟩
    rcases bind_ok h with ⟨se, h4, h⟩
    rcases bind_ok h with ⟨sf, h5, h⟩
    rw [spVisit_tables else_block sf s2 h, spVisit_tables if_block se sf h5,
      spVisit_tables cond sc se h4,
      (setAttr_ok h3).2.2.2.1, (setAttr_ok h2).2.2.2.1, (setAttr_ok h1).2.2.2.1]
  | .conditional nid _ cond if_block none, s, s2, h => by
    simp only [spVisit] at h
    rcases bind_ok h with ⟨sa, h1, h⟩
    rcases bind_ok h with ⟨sb, h2, h⟩
    rcases bind_ok h with ⟨sc, h3, h⟩
    rw [spVisit_tables if_block sc s2 h, spVisit_tables cond sb sc h3,
      (setAttr_ok h2).2.2.2.1, (setAttr_ok h1).2.2.2.1]
  | .whileloop nid _ cond body, s, s2, h => by
    simp only [spVisit] at h
    rcases bind_ok h with ⟨sa, h1, h⟩
    rcases bind_ok h with ⟨sb, h2, h⟩
    rcases bind_ok h with ⟨sc, h3, h⟩
    rw [spVisit_tables body sc s2 h, spVisit_tables cond sb sc h3,
      (setAttr_ok h2).2.2.2.1, (setAttr_ok h1).2.2.2.1]
  | .funcreturn nid _ (some v), s, s2, h => by
    simp only [spVisit] at h
    rcases bind_ok h with ⟨sa, h1, h⟩
    rw [spVisit_tables v sa s2 h, (setAttr_ok h1).2.2.2.1]
  | .funcreturn _ _ none, s, s2, h => by
    simp only [spVisit, Except.ok.injEq] at h
    rw [← h]
  | .breakstmt _ _, s, s2, h => by
    simp only [spVisit, Except.ok.injEq] at h
    rw [← h]
  | .continuestmt _ _, s, s2, h => by
    simp only [spVisit, Except.ok.injEq] at h
    rw [← h]
  | .binaryop nid _ _ left right, s, s2, h => by
    simp only [spVisit] at h
    rcases bind_ok h with ⟨sa, h1, h⟩
    rcases bind_ok h with ⟨sb, h2, h⟩
    rcases bind_ok h with ⟨sc, h3, h⟩
    rw [spVisit_tables right sc s2 h, spVisit_tables left sb sc h3,
      (setAttr_ok h2).2.2.2.1, (setAttr_ok h1).2.2.2.1]
  | .unaryop nid _ _ child, s, s2, h => by
    simp only [spVisit] at h
    rcases bind_ok h with ⟨sa, h1, h⟩
    rw [spVisit_tables child sa s2 h, (setAttr_ok h1).2.2.2.1]
  | .location nid _ _ (some index), s, s2, h => by
    simp only [spVisit] at h
    rcases bind_ok h with ⟨sa, h1, h⟩
    rw [spVisit_tables index sa s2 h, (setAttr_ok h1).2.2.2.1]
  | .location _ _ _ none, s, s2, h => by
    simp only [spVisit, Except.ok.injEq] at h
    rw [← h]
  | .funccall nid _ _ args, s, s2, h => by
    simp only [spVisit] at h
    rcases bind_ok h with ⟨sa, h1, h⟩
    rw [spVisitList_tables args sa s2 h, setParentList_tables _ _ _ _ h1]
  | .literal _ _ _, s, s2, h => by
    simp only [spVisit, Except.ok.injEq] at h
    rw [← h]

theorem spVisitList_tables : ∀ (ts : List ITree) (s s2 : Store),
    spVisitList ts s = .ok s2 → s2.tables = s.tables
  | [], s, s2, h => by
    simp only [spVisitList, Except.ok.injEq] at h
    rw [← h]
  | t :: ts, s, s2, h => by
    simp only [spVisitList] at h
    rcases bind_ok h with ⟨sa, h1, h⟩
    rw [spVisitList_tables ts sa s2 h, spVisit_tables t s sa h1]

end

/-- The depth computation of one node keeps the tables. -/
lemma cdnp_tables {s : Store} {nid : Nat} {s2 : Store}
    (h : CalcDepthVisitor_visit_nonprogram s nid = .ok s2) : s2.tables = s.tables := by
  unfold CalcDepthVisitor_visit_nonprogram at h
  split at h
  · exact (setAttr_ok h).2.2.2.1
  · exact absurd h (by simp)

/-! The CalcDepth pass keeps the tables. -/
mutual

theorem cdVisit_tables : ∀ (t : ITree) (s s2 : Store),
    cdVisit t s = .ok s2 → s2.tables = s.tables
  | .program nid _ vs fs, s, s2, h => by
    simp only [cdVisit] at h
    rcases bind_ok h with ⟨sa, h1, h⟩
    rcases bind_ok h with ⟨sb, h2, h⟩
    rw [cdVisitList_tables fs sb s2 h, cdVisitList_tables vs sa sb h2,
      (setAttr_ok h1).2.2.2.1]
  | .vardecl nid _ _ _ _ _, s, s2, h => cdnp_tables h
  | .funcdecl nid _ _ _ _ body, s, s2, h => by
    simp only [cdVisit] at h
    rcases bind_ok h with ⟨sa, h1, h⟩
    rw [cdVisit_tables body sa s2 h, cdnp_tables h1]
  | .block nid _ vs stmts, s, s2, h => by
    simp only [cdVisit] at h
    rcases bind_ok h with ⟨sa, h1, h⟩
    rcases bind_ok h with ⟨sb, h2, h⟩
    rw [cdVisitList_tables stmts sb s2 h, cdVisitList_tables vs sa sb h2, cdnp_tables h1]
  | .assignment nid _ loc val, s, s2, h => by
    simp only [cdVisit] at h
    rcases bind_ok h with ⟨sa, h1, h⟩
    rcases bind_ok h with ⟨sb, h2, h⟩
    rw [cdVisit_tables val sb s2 h, cdVisit_tables loc sa sb h2, cdnp_tables h1]
  | .conditional nid _ cond if_block (some else_block), s, s2, h => by
    simp only [cdVisit] at h
    rcases bind_ok h with ⟨sa, h1, h⟩
    rcases bind_ok h with ⟨sb, h2, h⟩
    rcases bind_ok h with ⟨sc, h3, h⟩
    rw [cdVisit_tables else_block sc s2 h, cdVisit_tables if_block sb sc h3,
      cdVisit_tables cond sa sb h2, cdnp_tables h1]
  | .conditional nid _ cond if_block none, s, s2, h => by
    simp only [cdVisit] at h
    rcases bind_ok h with ⟨sa, h1, h⟩
    rcases bind_ok h with ⟨sb, h2, h⟩
    rw [cdVisit_tables if_block sb s2 h, cdVisit_tables cond sa sb h2, cdnp_tables h1]
  | .whileloop nid _ cond body, s, s2, h => by
    simp only [cdVisit] at h
    rcases bind_ok h with ⟨sa, h1, h⟩
    rcases bind_ok h with ⟨sb, h2, h⟩
    rw [cdVisit_tables body sb s2 h, cdVisit_tables cond sa sb h2, cdnp_tables h1]
  | .funcreturn nid _ (some v), s, s2, h => by
    simp only [cdVisit] at h
    rcases bind_ok h with ⟨sa, h1, h⟩
    rw [cdVisit_tables v sa s2 h, cdnp_tables h1]
  | .funcreturn nid _ none, s, s2, h => cdnp_tables h
  | .breakstmt nid _, s, s2, h => cdnp_tables h
  | .continuestmt nid _, s, s2, h => cdnp_tables h
  | .binaryop nid _ _ left right, s, s2, h => by
    simp only [cdVisit] at h
    rcases bind_ok h with ⟨sa, h1, h⟩
    rcases bind_ok h with ⟨sb, h2, h⟩
    rw [cdVisit_tables right sb s2 h, cdVisit_tables left sa sb h2, cdnp_tables h1]
  | .unaryop nid _ _ child, s, s2, h => by
    simp only [cdVisit] at h
    rcases bind_ok h with ⟨sa, h1, h⟩
    rw [cdVisit_tables child sa s2 h, cdnp_tables h1]
  | .location nid _ _ (some index), s, s2, h => by
    simp only [cdVisit] at h
    rcases bind_ok h with ⟨sa, h1, h⟩
    rw [cdVisit_tables index sa s2 h, cdnp_tables h1]
  | .location nid _ _ none, s, s2, h => cdnp_tables h
  | .funccall nid _ _ args, s, s2, h => by
    simp only [cdVisit] at h
    rcases bind_ok h with ⟨sa, h1, h⟩
    rw [cdVisitList_tables args sa s2 h, cdnp_tables h1]
  | .literal nid _ _, s, s2, h => cdnp_tables h

theorem cdVisitList_tables : ∀ (ts : List ITree) (s s2 : Store),
    cdVisitList ts s = .ok s2 → s2.tables = s.tables
  | [], s, s2, h => by
    simp only [cdVisitList, Except.ok.injEq] at h
    rw [← h]
  | t :: ts, s, s2, h => by
    simp only [cdVisitList] at h
    rcases bind_ok h with ⟨sa, h1, h⟩
    rw [cdVisitList_tables ts sa s2 h, cdVisit_tables t s sa h1]

end


/-- Appending a known-typed symbol preserves the invariant. -/
lemma TypesInv_SymbolTable_insert {s : Store} {tid : Nat} {sym : Symbol}
    (hT : TypesInv s) (hs : sym.type ≠ DecafType.UNKNOWN) :
    TypesInv (SymbolTable_insert s tid sym) := by
  intro p hp sym2 hsym2
  have hp2 : p ∈ aupdate s.tables tid
      (fun tbl => { tbl with local_symbols := tbl.local_symbols ++ [sym] }) := hp
  rcases mem_aupdate hp2 with h2 | ⟨q, hq, hpq⟩
  · exact hT p h2 sym2 hsym2
  · subst hpq
    rcases List.mem_append.mp hsym2 with h3 | h3
    · exact hT q hq sym2 h3
    · rw [List.mem_singleton.mp h3]
      exact hs

/-- A fresh empty scope preserves the invariant. -/
lemma TypesInv_newTable {s : Store} (parent : Option Nat) (hT : TypesInv s) :
    TypesInv (newTable s parent).fst := by
  intro p hp sym hsym
  have hp2 : p ∈ s.tables ++
      [(s.next_table, { local_symbols := [], parent := parent })] := hp
  rcases List.mem_append.mp hp2 with h2 | h2
  · exact hT p h2 sym hsym
  · rw [List.mem_singleton.mp h2] at hsym
    simp at hsym

/-- A concrete value type is not the sentinel. -/
lemma typeIn3_ne_unknown {t : DecafType} (h : typeIn3 t = true) :
    t ≠ DecafType.UNKNOWN := by
  cases t <;> simp_all [typeIn3]

/-- Inserting well-typed formal parameters preserves the invariant. -/
lemma TypesInv_foldl_params {tid : Nat} :
    ∀ (ps : List Parameter) (s : Store),
      ps.all (fun p => typeIn3 p.type) = true → TypesInv s →
      TypesInv (ps.foldl (fun s p => SymbolTable_insert s tid (Symbol_new p.name p.type)) s)
  | [], s, _, hT => hT
  | p :: rest, s, hall, hT => by
    simp only [List.all_cons, Bool.and_eq_true] at hall
    exact TypesInv_foldl_params rest _ hall.2
      (TypesInv_SymbolTable_insert hT (typeIn3_ne_unknown hall.1))

/-- Forward-declaring conformant user functions preserves the invariant. -/
lemma TypesInv_insertUserFuncs (tid : Nat) :
    ∀ (fs : List ITree) (s : Store), conformantList fs = true → TypesInv s →
      TypesInv (insertUserFuncs tid fs s)
  | [], s, _, hT => hT
  | t :: rest, s, hcf, hT => by
    simp only [conformantList, Bool.and_eq_true] at hcf
    obtain ⟨hc1, hcrest⟩ := hcf
    cases t
    case funcdecl a b name rt ps body =>
      simp only [conformant, Bool.and_eq_true] at hc1
      obtain ⟨⟨hrt, _⟩, _⟩ := hc1
      exact TypesInv_insertUserFuncs tid rest _ hcrest
        (TypesInv_SymbolTable_insert hT
          (by simpa [Symbol_new_function, bne_iff_ne] using hrt))
    all_goals exact TypesInv_insertUserFuncs tid rest _ hcrest hT

/-- The builder Program pre-visit only adds symbols of known type. -/
lemma TypesInv_previsit_program {s : Store} {nid : Nat} {fs : List ITree}
    {s2 : Store} {data : Option Nat}
    (hcf : conformantList fs = true) (hT : TypesInv s)
    (h : BuildSymbolTablesVisitor_previsit_program s nid fs = .ok (s2, data)) :
    TypesInv s2 := by
  simp only [BuildSymbolTablesVisitor_previsit_program, newTable] at h
  split at h
  · exact absurd h (by simp)
  next s1 hset =>
    simp only [Except.ok.injEq, Prod.mk.injEq] at h
    obtain ⟨hs2, hdata⟩ := h
    subst hs2
    have hT1 : TypesInv s1 :=
      TypesInv_of_tables_eq (setAttr_ok hset).2.2.2.1 (TypesInv_newTable none hT)
    refine TypesInv_insertUserFuncs _ fs _ hcf ?_
    refine TypesInv_SymbolTable_insert (TypesInv_SymbolTable_insert
      (TypesInv_SymbolTable_insert hT1 ?_) ?_) ?_ <;>
      simp [create_print_symbol, Symbol_new_function]

/-- The builder FuncDecl pre-visit only adds symbols of known type. -/
lemma TypesInv_previsit_funcdecl {s : Store} {data : Option Nat} {nid : Nat}
    {parameters : List Parameter} {s2 : Store} {d2 : Option Nat}
    (hps : parameters.all (fun p => typeIn3 p.type) = true) (hT : TypesInv s)
    (h : BuildSymbolTablesVisitor_previsit_funcdecl s data nid parameters = .ok (s2, d2)) :
    TypesInv s2 := by
  simp only [BuildSymbolTablesVisitor_previsit_funcdecl, newTable] at h
  split at h
  · exact absurd h (by simp)
  next s1 hset =>
    simp only [Except.ok.injEq, Prod.mk.injEq] at h
    obtain ⟨hs2, hd2⟩ := h
    subst hs2
    exact TypesInv_foldl_params parameters s1 hps
      (TypesInv_of_tables_eq (setAttr_ok hset).2.2.2.1 (TypesInv_newTable data hT))

/-- The builder Block pre-visit adds no symbol at all. -/
lemma TypesInv_previsit_block {s : Store} {data : Option Nat} {nid : Nat}
    {s2 : Store} {d2 : Option Nat} (hT : TypesInv s)
    (h : BuildSymbolTablesVisitor_previsit_block s data nid = .ok (s2, d2)) :
    TypesInv s2 := by
  simp only [BuildSymbolTablesVisitor_previsit_block, newTable] at h
  split at h
  · exact absurd h (by simp)
  next s1 hset =>
    simp only [Except.ok.injEq, Prod.mk.injEq] at h
    obtain ⟨hs2, hd2⟩ := h
    subst hs2
    exact TypesInv_of_tables_eq (setAttr_ok hset).2.2.2.1 (TypesInv_newTable data hT)

/-- The builder VarDecl visit inserts one symbol of the declared type. -/
lemma TypesInv_visit_vardecl {s : Store} {data : Option Nat} {name : String}
    {type : DecafType} {is_array : Bool} {array_length : Int} {s2 : Store}
    (hty : (type != DecafType.UNKNOWN) = true) (hT : TypesInv s)
    (h : BuildSymbolTablesVisitor_visit_vardecl s data name type is_array array_length = .ok s2) :
    TypesInv s2 := by
  cases data with
  | none => simp [BuildSymbolTablesVisitor_visit_vardecl] at h
  | some tid =>
    simp only [BuildSymbolTablesVisitor_visit_vardecl] at h
    by_cases ha : is_array = true
    · rw [if_pos ha] at h
      simp only [Except.ok.injEq] at h
      subst h
      exact TypesInv_SymbolTable_insert hT
        (by simpa [Symbol_new_array, bne_iff_ne] using hty)
    · rw [if_neg ha] at h
      simp only [Except.ok.injEq] at h
      subst h
      exact TypesInv_SymbolTable_insert hT
        (by simpa [Symbol_new, bne_iff_ne] using hty)

/-! On a conformant tree the builder pass establishes the symbol-type
invariant step by step: every inserted symbol carries a known type. -/
mutual

theorem bVisit_TypesInv :
    ∀ (t : ITree) (s : Store) (data : Option Nat) (s2 : Store) (d2 : Option Nat),
      conformant t = true → TypesInv s → bVisit t s data = .ok (s2, d2) → TypesInv s2
  | .program nid _line vs fs, s, data, s2, d2, hcf, hT, h => by
    simp only [conformant, Bool.and_eq_true] at hcf
    obtain ⟨hcfV, hcfF⟩ := hcf
    simp only [bVisit] at h
    rcases bind_ok h with ⟨⟨sa, da⟩, h1, h⟩
    rcases bind_ok h with ⟨⟨sb, db⟩, h2, h⟩
    rcases bind_ok h with ⟨⟨sc, dc⟩, h3, h⟩
    rcases bind_ok h with ⟨dd, h4, h⟩
    simp only [Except.ok.injEq, Prod.mk.injEq] at h
    obtain ⟨hs2, hd2⟩ := h
    rw [← hs2]
    exact bVisitList_TypesInv fs sb db sc dc hcfF
      (bVisitList_TypesInv vs sa da sb db hcfV (TypesInv_previsit_program hcfF hT h1) h2) h3
  | .vardecl _ _ name type is_array array_length, s, data, s2, d2, hcf, hT, h => by
    simp only [bVisit] at h
    rcases bind_ok h with ⟨sa, h1, h⟩
    simp only [Except.ok.injEq, Prod.mk.injEq] at h
    obtain ⟨hs2, hd2⟩ := h
    rw [← hs2]
    exact TypesInv_visit_vardecl hcf hT h1
  | .funcdecl nid _line _name return_type parameters body, s, data, s2, d2, hcf, hT, h => by
    simp only [conformant, Bool.and_eq_true] at hcf
    obtain ⟨⟨hrt, hps⟩, hcfB⟩ := hcf
    simp only [bVisit] at h
    rcases bind_ok h with ⟨⟨sa, da⟩, h1, h⟩
    rcases bind_ok h with ⟨⟨sb, db⟩, h2, h⟩
    rcases bind_ok h with ⟨dd, h3, h⟩
    simp only [Except.ok.injEq, Prod.mk.injEq] at h
    obtain ⟨hs2, hd2⟩ := h
    rw [← hs2]
    exact bVisit_TypesInv body sa da sb db hcfB (TypesInv_previsit_funcdecl hps hT h1) h2
  | .block nid _line vs stmts, s, data, s2, d2, hcf, hT, h => by
    simp only [conformant, Bool.and_eq_true] at hcf
    obtain ⟨hcfV, hcfS⟩ := hcf
    simp only [bVisit] at h
    rcases bind_ok h with ⟨⟨sa, da⟩, h1, h⟩
    rcases bind_ok h with ⟨⟨sb, db⟩, h2, h⟩
    rcases bind_ok h with ⟨⟨sc, dc⟩, h3, h⟩
    rcases bind_ok h with ⟨dd, h4, h⟩
    simp only [Except.ok.injEq, Prod.mk.injEq] at h
    obtain ⟨hs2, hd2⟩ := h
    rw [← hs2]
    exact bVisitList_TypesInv stmts sb db sc dc hcfS
      (bVisitList_TypesInv vs sa da sb db hcfV (TypesInv_previsit_block hT h1) h2) h3
  | .assignment _ _ loc val, s, data, s2, d2, hcf, hT, h => by
    simp only [conformant, Bool.and_eq_true] at hcf
    obtain ⟨hcfL, hcfV⟩ := hcf
    simp only [bVisit] at h
    rcases bind_ok h with ⟨⟨sa, da⟩, h1, h⟩
    exact bVisit_TypesInv val sa da s2 d2 hcfV (bVisit_TypesInv loc s data sa da hcfL hT h1) h
  | .conditional _ _ cond if_block (some else_block), s, data, s2, d2, hcf, hT, h => by
    simp only [conformant, Bool.and_eq_true] at hcf
    obtain ⟨⟨hcfC, hcfI⟩, hcfE⟩ := hcf
    simp only [bVisit] at h
    rcases bind_ok h with ⟨⟨sa, da⟩, h1, h⟩
    rcases bind_ok h with ⟨⟨sb, db⟩, h2, h⟩
    exact bVisit_TypesInv else_block sb db s2 d2 hcfE
      (bVisit_TypesInv if_block sa da sb db hcfI
        (bVisit_TypesInv cond s data sa da hcfC hT h1) h2) h
  | .conditional _ _ cond if_block none, s, data, s2, d2, hcf, hT, h => by
    simp only [conformant, Bool.and_eq_true] at hcf
    obtain ⟨hcfC, hcfI⟩ := hcf
    simp only [bVisit] at h
    rcases bind_ok h with ⟨⟨sa, da⟩, h1, h⟩
    exact bVisit_TypesInv if_block sa da s2 d2 hcfI
      (bVisit_TypesInv cond s data sa da hcfC hT h1) h
  | .whileloop _ _ cond body, s, data, s2, d2, hcf, hT, h => by
    simp only [conformant, Bool.and_eq_true] at hcf
    obtain ⟨hcfC, hcfB⟩ := hcf
    simp only [bVisit] at h
    rcases bind_ok h with ⟨⟨sa, da⟩, h1, h⟩
    exact bVisit_TypesInv body sa da s2 d2 hcfB
      (bVisit_TypesInv cond s data sa da hcfC hT h1) h
  | .funcreturn _ _ (some v), s, data, s2, d2, hcf, hT, h => by
    simp only [bVisit] at h
    exact bVisit_TypesInv v s data s2 d2 hcf hT h
  | .funcreturn _ _ none, s, data, s2, d2, hcf, hT, h => by
    simp only [bVisit, Except.ok.injEq, Prod.mk.injEq] at h
    rw [← h.1]
    exact hT
  | .breakstmt _ _, s, data, s2, d2, hcf, hT, h => by
    simp only [bVisit, Except.ok.injEq, Prod.mk.injEq] at h
    rw [← h.1]
    exact hT
  | .continuestmt _ _, s, data, s2, d2, hcf, hT, h => by
    simp only [bVisit, Except.ok.injEq, Prod.mk.injEq] at h
    rw [← h.1]
    exact hT
  | .binaryop _ _ _ left right, s, data, s2, d2, hcf, hT, h => by
    simp only [conformant, Bool.and_eq_true] at hcf
    obtain ⟨hcfL, hcfR⟩ := hcf
    simp only [bVisit] at h
    rcases bind_ok h with ⟨⟨sa, da⟩, h1, h⟩
    exact bVisit_TypesInv right sa da s2 d2 hcfR
      (bVisit_TypesInv left s data sa da hcfL hT h1) h
  | .unaryop _ _ _ child, s, data, s2, d2, hcf, hT, h => by
    simp only [bVisit] at h
    exact bVisit_TypesInv child s data s2 d2 hcf hT h
  | .location _ _ _ (some index), s, data, s2, d2, hcf, hT, h => by
    simp only [bVisit] at h
    exact bVisit_TypesInv index s data s2 d2 hcf hT h
  | .location _ _ _ none, s, data, s2, d2, hcf, hT, h => by
    simp only [bVisit, Except.ok.injEq, Prod.mk.injEq] at h
    rw [← h.1]
    exact hT
  | .funccall _ _ _ args, s, data, s2, d2, hcf, hT, h => by
    simp only [bVisit] at h
    exact bVisitList_TypesInv args s data s2 d2 hcf hT h
  | .literal _ _ _, s, data, s2, d2, hcf, hT, h => by
    simp only [bVisit, Except.ok.injEq, Prod.mk.injEq] at h
    rw [← h.1]
    exact hT

theorem bVisitList_TypesInv :
    ∀ (ts : List ITree) (s : Store) (data : Option Nat) (s2 : Store) (d2 : Option Nat),
      conformantList ts = true → TypesInv s → bVisitList ts s data = .ok (s2, d2) → TypesInv s2
  | [], s, data, s2, d2, _, hT, h => by
    simp only [bVisitList, Except.ok.injEq, Prod.mk.injEq] at h
    rw [← h.1]
    exact hT
  | t :: ts, s, data, s2, d2, hcf, hT, h => by
    simp only [conformantList, Bool.and_eq_true] at hcf
    obtain ⟨hcfT, hcfTs⟩ := hcf
    simp only [bVisitList] at h
    rcases bind_ok h with ⟨⟨sa, da⟩, h1, h⟩
    exact bVisitList_TypesInv ts sa da s2 d2 hcfTs
      (bVisit_TypesInv t s data sa da hcfT hT h1) h

end

/-- C2 (corrected): on a section-3-conformant tree with distinct node
addresses, a full pipeline run that produces an empty diagnostic list leaves
every Literal, BinaryOp and UnaryOp node with an inferred type among Int,
Bool, Str, and every Location and FuncCall node with an inferred type other
than the UNKNOWN sentinel (Void is possible, e.g. a call of a void
function). -/
theorem claim2_theorem (t : ITree) (s : Store) (errs : List String)
    (hnd : (idsOf t).Nodup) (hcf : conformant t = true)
    (hrun : run_passes t = .ok (s, errs)) (herr : errs = []) :
    exprTypedOK s t = true := by
  subst herr
  unfold run_passes at hrun
  rcases bind_ok hrun with ⟨s1, hsp, hrun⟩
  rcases bind_ok hrun with ⟨s2, hcd, hrun⟩
  rcases bind_ok hrun with ⟨⟨s3, data⟩, hb, hrun⟩
  simp only [analyze] at hrun
  cases hA : aVisit t s3 AnalysisData_new with
  | error e => rw [hA] at hrun; exact absurd hrun (by simp)
  | ok p =>
    rcases p with ⟨sf, df⟩
    rw [hA] at hrun
    simp only [Except.ok.injEq, Prod.mk.injEq] at hrun
    obtain ⟨hsf, herrs⟩ := hrun
    have hT1 : TypesInv s1 :=
      TypesInv_of_tables_eq (spVisit_tables t _ _ hsp) (TypesInv_load t)
    have hT2 : TypesInv s2 := TypesInv_of_tables_eq (cdVisit_tables t _ _ hcd) hT1
    have hT3 : TypesInv s3 := bVisit_TypesInv t s2 none s3 data hcf hT2 hb
    have herr2 : df.errors = AnalysisData_new.errors := herrs
    rw [← hsf]
    exact aVisit_typed t s3 AnalysisData_new sf df hnd hcf hT3 hA herr2

/-- Witness for C2 at the one-function program def int main() \x7b return 0; \x7d:
the pipeline succeeds with no diagnostics and the decoration property holds on
the final store. -/
theorem claim2_witness : (idsOf treeTrivialMain).Nodup ∧
    conformant treeTrivialMain = true ∧
    ∃ s, run_passes treeTrivialMain = .ok (s, []) ∧
      exprTypedOK s treeTrivialMain = true := by
  refine ⟨by decide, rfl, ?_⟩
  have herrs : pipelineErrors treeTrivialMain = .ok [] := rfl
  unfold pipelineErrors at herrs
  cases hrun : run_passes treeTrivialMain with
  | error e => rw [hrun] at herrs; simp at herrs
  | ok p =>
    rcases p with ⟨s, errs⟩
    rw [hrun] at herrs
    simp only [Except.ok.injEq] at herrs
    subst herrs
    exact ⟨s, rfl, claim2_theorem treeTrivialMain s [] (by decide) rfl hrun rfl⟩

end P3
